import Mathlib

/-!
LinkDeck: the Firestore to PostgreSQL migration, transform stage.

A shallow embedding of `linksdeck-server/internal/firestoremigrate`
(`types.go`, `util.go`, `transform.go`) and theorems about it.

Conventions of the embedding.

* A Go `string` read from JSON is valid UTF-8, so it is a Lean `String`; all
  string functions are written on the list of runes `String.data`.
* `time.Time` is the instant, an integer number of nanoseconds counted from
  Go's zero time (`time.Time{}` is `0`); `t.UTC()` does not change the instant.
* A Go `map[string]V` is an association list with distinct keys, kept in
  insertion order.  Go iterates a map in an unspecified order; the lists that
  are built by iterating a map are sorted afterwards.
* `sort.Slice` is a stable insertion sort (`sortSlice`), which is what Go runs on
  fewer than 12 elements; on longer slices Go promises a sorted permutation
  only.  The general theorems below use of `sortSlice` that its result is a
  permutation of its argument, nothing else.
* `TransformExport` is the function between `readJSON` and `writeJSON`, with
  the value of `time.Now()` as an argument.
* Three library tables are arguments (`GoStd`): the lower-case mapping of
  non-ASCII runes and the two RFC 3339 layouts of `time.Parse`.
* A timestamp column of the destination holds whole microseconds: the instant
  of a `time.Time` that a statement of the import writes is cut off to the last
  whole microsecond (`pgTimestamp`).
-/

namespace LinkDeck

/-! ## Library functions -/

/-- An instant, in nanoseconds from Go's zero time. -/
abbrev Time := Int

/-- Library tables that the code calls and that are not reproduced here. -/
structure GoStd where
  /-- The function `unicode.ToLower` on runes above `unicode.MaxASCII`. -/
  unicodeToLower : Char → Char
  /-- The instant `time.Parse(time.RFC3339Nano, s)` returns, `none` on error. -/
  parseRFC3339Nano : String → Option Time
  /-- The instant `time.Parse(time.RFC3339, s)` returns, `none` on error. -/
  parseRFC3339 : String → Option Time

/-- The predicate `unicode.IsSpace`: the runes with the White_Space property. -/
def isSpace (c : Char) : Bool :=
  let n := c.toNat
  (9 ≤ n && n ≤ 13) || n == 0x20 || n == 0x85 || n == 0xA0 || n == 0x1680 ||
  (0x2000 ≤ n && n ≤ 0x200A) || n == 0x2028 || n == 0x2029 || n == 0x202F ||
  n == 0x205F || n == 0x3000

/-- The function `strings.TrimSpace`. -/
def trimSpace (s : String) : String :=
  ⟨(s.data.dropWhile isSpace).rdropWhile isSpace⟩

/-- The function `unicode.ToLower`: ASCII letters directly, other runes by the table. -/
def toLowerRune (std : GoStd) (c : Char) : Char :=
  if c.toNat ≤ 127 then
    if 65 ≤ c.toNat ∧ c.toNat ≤ 90 then Char.ofNat (c.toNat + 32) else c
  else std.unicodeToLower c

/-- The function `strings.ToLower`. -/
def toLower (std : GoStd) (s : String) : String :=
  ⟨s.data.map (toLowerRune std)⟩

/-- The UTF-8 encoding of one rune, as bytes. -/
def utf8EncodeRune (c : Char) : List Nat :=
  let n := c.toNat
  if n < 0x80 then [n]
  else if n < 0x800 then [0xC0 + n / 64, 0x80 + n % 64]
  else if n < 0x10000 then [0xE0 + n / 4096, 0x80 + n / 64 % 64, 0x80 + n % 64]
  else [0xF0 + n / 262144, 0x80 + n / 4096 % 64, 0x80 + n / 64 % 64, 0x80 + n % 64]

/-- The bytes of a string: the conversion `[]byte(s)`. -/
def stringBytes (s : String) : List Nat :=
  s.data.flatMap utf8EncodeRune

/-! ### SHA-1 (FIPS 180-4), on 32-bit words held in `Nat` -/

/-- Rotate a 32-bit word left by `n` bits. -/
def rotl32 (n x : Nat) : Nat :=
  ((x <<< n) ||| (x >>> (32 - n))) % 4294967296

/-- The big-endian bytes of `x`, `k` of them. -/
def beBytes : Nat → Nat → List Nat
  | 0, _ => []
  | k + 1, x => (x / 256 ^ k) % 256 :: beBytes k x

/-- The message followed by the SHA-1 padding. -/
def sha1Pad (msg : List Nat) : List Nat :=
  msg ++ [0x80] ++ List.replicate ((119 - msg.length % 64) % 64) 0 ++
    beBytes 8 (8 * msg.length)

/-- The first `n` 64-byte blocks of a byte list. -/
def sha1Blocks : Nat → List Nat → List (List Nat)
  | 0, _ => []
  | n + 1, bs => bs.take 64 :: sha1Blocks n (bs.drop 64)

/-- The first `n` big-endian 32-bit words of a byte list. -/
def beWords : Nat → List Nat → List Nat
  | 0, _ => []
  | n + 1, bs =>
    (bs.getD 0 0 * 16777216 + bs.getD 1 0 * 65536 + bs.getD 2 0 * 256 + bs.getD 3 0)
      :: beWords n (bs.drop 4)

/-- Extend the message schedule by `n` words. -/
def sha1Extend : Nat → List Nat → List Nat
  | 0, w => w
  | n + 1, w =>
    let i := w.length
    sha1Extend n (w ++ [rotl32 1
      (w.getD (i - 3) 0 ^^^ w.getD (i - 8) 0 ^^^ w.getD (i - 14) 0 ^^^ w.getD (i - 16) 0)])

/-- The chaining value of SHA-1. -/
structure Sha1State where
  a : Nat
  b : Nat
  c : Nat
  d : Nat
  e : Nat

/-- The complement of a 32-bit word. -/
def not32 (x : Nat) : Nat := 4294967295 - x % 4294967296

/-- One round of the compression function. -/
def sha1Round (s : Sha1State) (iw : Nat × Nat) : Sha1State :=
  let i := iw.1
  let f :=
    if i < 20 then (s.b &&& s.c) ||| (not32 s.b &&& s.d)
    else if i < 40 then s.b ^^^ s.c ^^^ s.d
    else if i < 60 then (s.b &&& s.c) ||| (s.b &&& s.d) ||| (s.c &&& s.d)
    else s.b ^^^ s.c ^^^ s.d
  let k :=
    if i < 20 then 0x5A827999
    else if i < 40 then 0x6ED9EBA1
    else if i < 60 then 0x8F1BBCDC
    else 0xCA62C1D6
  { a := (rotl32 5 s.a + f + s.e + k + iw.2) % 4294967296
    b := s.a
    c := rotl32 30 s.b
    d := s.c
    e := s.d }

/-- The compression function on one block. -/
def sha1Block (h : Sha1State) (block : List Nat) : Sha1State :=
  let w := sha1Extend 64 (beWords 16 block)
  let s := w.enum.foldl sha1Round h
  { a := (h.a + s.a) % 4294967296
    b := (h.b + s.b) % 4294967296
    c := (h.c + s.c) % 4294967296
    d := (h.d + s.d) % 4294967296
    e := (h.e + s.e) % 4294967296 }

/-- The function `sha1.Sum`: the 20 bytes of the digest. -/
def sha1Sum (msg : List Nat) : List Nat :=
  let p := sha1Pad msg
  let h := (sha1Blocks (p.length / 64) p).foldl sha1Block
    { a := 0x67452301, b := 0xEFCDAB89, c := 0x98BADCFE, d := 0x10325476, e := 0xC3D2E1F0 }
  beBytes 4 h.a ++ beBytes 4 h.b ++ beBytes 4 h.c ++ beBytes 4 h.d ++ beBytes 4 h.e

/-- One lower-case hexadecimal digit. -/
def hexDigit (n : Nat) : Char :=
  if n < 10 then Char.ofNat (48 + n) else Char.ofNat (87 + n)

/-- The function `hex.EncodeToString`. -/
def hexEncodeToString (bs : List Nat) : String :=
  ⟨bs.flatMap fun b => [hexDigit (b / 16 % 16), hexDigit (b % 16)]⟩

/-! ## types.go -/

/-- A value of Go type `any` as the code can meet it: what `encoding/json`
decodes (`nil`, `bool`, number, `string`, `[]any`, `map[string]any`), and a
`time.Time`, which `parseTime` also accepts.  No function of the package
reads a number. -/
inductive Val where
  | null
  | bool (b : Bool)
  | num (n : Int)
  | str (s : String)
  | time (t : Time)
  | arr (l : List Val)
  | obj (m : List (String × Val))

/-- The index expression `m[k]` on a `map[string]any`: `nil` when the key is absent. -/
def field (m : List (String × Val)) (k : String) : Val :=
  (m.lookup k).getD Val.null

/-- The struct `FirestoreDocument`. -/
structure FirestoreDocument where
  ID : String
  Data : List (String × Val)

/-- The struct `FirestoreExport`. -/
structure FirestoreExport where
  ExportedAt : Time
  Collections : List (String × List FirestoreDocument)
  MaintenanceCurrent : Option FirestoreDocument

/-- The index expression `exported.Collections[name]`: empty when the key is absent. -/
def FirestoreExport.collection (e : FirestoreExport) (name : String) : List FirestoreDocument :=
  (e.Collections.lookup name).getD []

/-- The struct `UserRow`. -/
structure UserRow where
  ID : String
  Email : Option String
  DisplayName : Option String
  CreatedAt : Time
  UpdatedAt : Time
  deriving DecidableEq, Repr

/-- The struct `LinkRow`. -/
structure LinkRow where
  ID : String
  UserID : String
  URL : String
  Title : String
  IsArchived : Bool
  Summary : Option String
  CreatedAt : Time
  UpdatedAt : Time
  deriving DecidableEq, Repr

/-- The struct `TagRow`. -/
structure TagRow where
  ID : String
  UserID : String
  Name : String
  CreatedAt : Time
  deriving DecidableEq, Repr

/-- The struct `LinkTagRow`. -/
structure LinkTagRow where
  LinkID : String
  TagID : String
  CreatedAt : Time
  deriving DecidableEq, Repr

/-- The struct `TimelineEntryRow`. -/
structure TimelineEntryRow where
  ID : String
  LinkID : String
  /-- The field `Type`, a reserved word here. -/
  Type' : String
  Content : String
  CreatedAt : Time
  deriving DecidableEq, Repr

/-- The struct `MaintenanceStatusRow`. -/
structure MaintenanceStatusRow where
  ID : String
  IsMaintenanceMode : Bool
  Reason : Option String
  StartedAt : Option Time
  StartedBy : Option String
  deriving DecidableEq, Repr

/-- The struct `DeveloperRow`. -/
structure DeveloperRow where
  UID : String
  Email : String
  AddedAt : Time
  DeletedAt : Option Time
  deriving DecidableEq, Repr

/-- The struct `MaintenanceLogRow`. -/
structure MaintenanceLogRow where
  ID : String
  Action : String
  Reason : Option String
  PerformedBy : String
  PerformedByUID : String
  Timestamp : Time
  PreviousStatus : Bool
  deriving DecidableEq, Repr

/-- The struct `TransformedData`. -/
structure TransformedData where
  GeneratedAt : Time
  Users : List UserRow
  Links : List LinkRow
  Tags : List TagRow
  LinkTags : List LinkTagRow
  TimelineEntries : List TimelineEntryRow
  MaintenanceStatus : MaintenanceStatusRow
  Developers : List DeveloperRow
  MaintenanceLogs : List MaintenanceLogRow
  Report : List String
  deriving DecidableEq, Repr

/-! ## util.go -/

/-- The function `parseString` of util.go. -/
def parseString : Val → String
  | Val.str s => s
  | _ => ""

/-- The function `parseStringPtr` of util.go. -/
def parseStringPtr : Val → Option String
  | Val.str s => if trimSpace s = "" then none else some (trimSpace s)
  | _ => none

/-- The function `parseBool` of util.go. -/
def parseBool (v : Val) (fallback : Bool) : Bool :=
  match v with
  | Val.bool b => b
  | _ => fallback

/-- The function `parseTime` of util.go. -/
def parseTime (std : GoStd) (v : Val) (fallback : Time) : Time :=
  match v with
  | Val.time t => t
  | Val.str t =>
    if t = "" then fallback
    else
      match std.parseRFC3339Nano t with
      | some parsed => parsed
      | none =>
        match std.parseRFC3339 t with
        | some parsed => parsed
        | none => fallback
  | _ => fallback

/-- The function `parseTimePtr` of util.go. -/
def parseTimePtr (std : GoStd) (v : Val) : Option Time :=
  match v with
  | Val.null => none
  | v =>
    let t := parseTime std v 0
    if t = 0 then none else some t

/-- The function `toMap` of util.go. -/
def toMap : Val → List (String × Val)
  | Val.obj m => m
  | _ => []

/-- The function `toSlice` of util.go. -/
def toSlice : Val → List Val
  | Val.arr l => l
  | _ => []

/-- The function `deterministicTagID` of util.go. -/
def deterministicTagID (std : GoStd) (userID tagName : String) : String :=
  let h := sha1Sum (stringBytes (userID ++ ":" ++ toLower std tagName))
  "tag_" ++ String.mk ((hexEncodeToString h).data.take 20)

/-- The function `sanitizeTagName` of util.go. -/
def sanitizeTagName (name : String) : String := trimSpace name

/-! ## Go maps and `sort.Slice` -/

/-- A Go `map[string]V`: an association list, keys distinct, in insertion order. -/
abbrev GoMap (V : Type) := List (String × V)

/-- The lookup `v, exists := m[k]`. -/
def mapLookup {V : Type} (m : GoMap V) (k : String) : Option V :=
  match m with
  | [] => none
  | (k', v) :: rest => if k' = k then some v else mapLookup rest k

/-- The assignment `m[k] = v`. -/
def mapStore {V : Type} (m : GoMap V) (k : String) (v : V) : GoMap V :=
  match m with
  | [] => [(k, v)]
  | (k', v') :: rest => if k' = k then (k, v) :: rest else (k', v') :: mapStore rest k v

/-- The values met by `for _, v := range m`, here in insertion order. -/
def mapValues {V : Type} (m : GoMap V) : List V := m.map Prod.snd

/-- The call `sort.Slice(xs, less)`, as a stable insertion sort. -/
def sortSlice {α : Type} (less : α → α → Bool) (xs : List α) : List α :=
  xs.insertionSort (fun a b => less b a = false)

/-! ## transform.go -/

/-- The function `tagKey` of transform.go. -/
def tagKey (std : GoStd) (userID tagName : String) : String :=
  userID ++ "|" ++ toLower std (trimSpace tagName)

/-- The variables `tagMap` and `duplicateTagCount` that the closure `putTag` captures. -/
structure TagState where
  tagMap : GoMap TagRow
  duplicateTagCount : Nat

/-- The closure `putTag` of `TransformExport`. -/
def putTag (std : GoStd) (st : TagState) (tag : TagRow) : TagState :=
  let key := tagKey std tag.UserID tag.Name
  match mapLookup st.tagMap key with
  | none => { st with tagMap := mapStore st.tagMap key tag }
  | some existing =>
    let st := { st with duplicateTagCount := st.duplicateTagCount + 1 }
    if tag.CreatedAt < existing.CreatedAt then
      { st with tagMap := mapStore st.tagMap key tag }
    else st

/-- The body of the loop over `exported.Collections["users"]`. -/
def userStep (std : GoStd) (now : Time) (users : List UserRow) (userDoc : FirestoreDocument) :
    List UserRow :=
  let createdAt := parseTime std (field userDoc.Data "createdAt") now
  let updatedAt := parseTime std (field userDoc.Data "updatedAt") createdAt
  users ++ [{ ID := userDoc.ID
              Email := parseStringPtr (field userDoc.Data "email")
              DisplayName := parseStringPtr (field userDoc.Data "displayName")
              CreatedAt := createdAt
              UpdatedAt := updatedAt }]

/-- The body of the loop over `exported.Collections["tags"]`. -/
def tagStep (std : GoStd) (now : Time) (st : TagState) (tagDoc : FirestoreDocument) : TagState :=
  let userID := parseString (field tagDoc.Data "userId")
  let name := sanitizeTagName (parseString (field tagDoc.Data "name"))
  if userID = "" ∨ name = "" then st
  else
    putTag std st
      { ID := tagDoc.ID
        UserID := userID
        Name := name
        CreatedAt := parseTime std (field tagDoc.Data "createdAt") now }

/-- The variables the loop over the links assigns. -/
structure LinkState where
  Links : List LinkRow
  tagMap : GoMap TagRow
  linkTagMap : GoMap LinkTagRow
  TimelineEntries : List TimelineEntryRow

/-- The body of the loop over `toSlice(linkDoc.Data["tags"])`. -/
def linkTagStep (std : GoStd) (linkID userID : String) (createdAt : Time)
    (st : GoMap TagRow × GoMap LinkTagRow) (tagAny : Val) : GoMap TagRow × GoMap LinkTagRow :=
  let name := sanitizeTagName (parseString tagAny)
  if name = "" then st
  else
    let key := tagKey std userID name
    let found : TagRow × GoMap TagRow :=
      match mapLookup st.1 key with
      | some tag => (tag, st.1)
      | none =>
        let tag : TagRow :=
          { ID := deterministicTagID std userID name
            UserID := userID
            Name := name
            CreatedAt := createdAt }
        (tag, mapStore st.1 key tag)
    let tag := found.1
    let linkTagKey := linkID ++ "|" ++ tag.ID
    (found.2, mapStore st.2 linkTagKey
      { LinkID := linkID, TagID := tag.ID, CreatedAt := createdAt })

/-- The body of the loop over `toSlice(linkDoc.Data["timeline"])`. -/
def timelineStep (std : GoStd) (linkID : String) (createdAt : Time)
    (entries : List TimelineEntryRow) (ie : Nat × Val) : List TimelineEntryRow :=
  let index := ie.1
  let entry := toMap ie.2
  let content := trimSpace (parseString (field entry "content"))
  if content = "" then entries
  else
    let entryType := trimSpace (parseString (field entry "type"))
    let entryType := if entryType ≠ "note" ∧ entryType ≠ "summary" then "note" else entryType
    entries ++ [{ ID := linkID ++ "_" ++ Nat.repr index
                  LinkID := linkID
                  Type' := entryType
                  Content := content
                  CreatedAt := parseTime std (field entry "createdAt") createdAt }]

/-- The body of the loop over `exported.Collections["links"]`. -/
def linkStep (std : GoStd) (now : Time) (st : LinkState) (linkDoc : FirestoreDocument) :
    LinkState :=
  let userID := parseString (field linkDoc.Data "userId")
  let url := trimSpace (parseString (field linkDoc.Data "url"))
  let title := trimSpace (parseString (field linkDoc.Data "title"))
  if userID = "" ∨ url = "" then st
  else
    let title := if title = "" then url else title
    let createdAt := parseTime std (field linkDoc.Data "createdAt") now
    let links := st.Links ++
      [{ ID := linkDoc.ID
         UserID := userID
         URL := url
         Title := title
         IsArchived := parseBool (field linkDoc.Data "isArchived") false
         Summary := parseStringPtr (field linkDoc.Data "summary")
         CreatedAt := createdAt
         UpdatedAt := parseTime std (field linkDoc.Data "updatedAt") createdAt }]
    let maps := (toSlice (field linkDoc.Data "tags")).foldl
      (linkTagStep std linkDoc.ID userID createdAt) (st.tagMap, st.linkTagMap)
    let entries := (toSlice (field linkDoc.Data "timeline")).enum.foldl
      (timelineStep std linkDoc.ID createdAt) st.TimelineEntries
    { Links := links, tagMap := maps.1, linkTagMap := maps.2, TimelineEntries := entries }

/-- The body of the loop over `exported.Collections["developers"]`. -/
def developerStep (std : GoStd) (now : Time) (developers : List DeveloperRow)
    (developerDoc : FirestoreDocument) : List DeveloperRow :=
  let data := developerDoc.Data
  let email := trimSpace (parseString (field data "email"))
  if email = "" then developers
  else
    let deletedAt : Option Time :=
      if parseBool (field data "deleted") false then
        match parseTimePtr std (field data "deletedAt") with
        | none => some now
        | some t => some t
      else parseTimePtr std (field data "deletedAt")
    developers ++ [{ UID := developerDoc.ID
                     Email := email
                     AddedAt := parseTime std (field data "addedAt") now
                     DeletedAt := deletedAt }]

/-- The body of the loop over `exported.Collections["maintenanceLogs"]`. -/
def logStep (std : GoStd) (now : Time) (logs : List MaintenanceLogRow)
    (logDoc : FirestoreDocument) : List MaintenanceLogRow :=
  let data := logDoc.Data
  let action := trimSpace (parseString (field data "action"))
  let action := if action ≠ "enabled" ∧ action ≠ "disabled" then "disabled" else action
  logs ++ [{ ID := logDoc.ID
             Action := action
             Reason := parseStringPtr (field data "reason")
             PerformedBy := trimSpace (parseString (field data "performedBy"))
             PerformedByUID := trimSpace (parseString (field data "performedByUid"))
             Timestamp := parseTime std (field data "timestamp") now
             PreviousStatus := parseBool (field data "previousStatus") false }]

/-- The row `transformed.MaintenanceStatus`. -/
def maintenanceStatus (std : GoStd) (exported : FirestoreExport) : MaintenanceStatusRow :=
  match exported.MaintenanceCurrent with
  | some doc =>
    { ID := "current"
      IsMaintenanceMode := parseBool (field doc.Data "isMaintenanceMode") false
      Reason := parseStringPtr (field doc.Data "reason")
      StartedAt := parseTimePtr std (field doc.Data "startedAt")
      StartedBy := parseStringPtr (field doc.Data "startedBy") }
  | none =>
    { ID := "current", IsMaintenanceMode := false, Reason := none, StartedAt := none,
      StartedBy := none }

/-- The state after the loop over the top-level tags. -/
def tagsLoop (std : GoStd) (now : Time) (exported : FirestoreExport) : TagState :=
  (exported.collection "tags").foldl (tagStep std now) { tagMap := [], duplicateTagCount := 0 }

/-- The state after the loop over the links. -/
def linksLoop (std : GoStd) (now : Time) (exported : FirestoreExport) : LinkState :=
  (exported.collection "links").foldl (linkStep std now)
    { Links := [], tagMap := (tagsLoop std now exported).tagMap, linkTagMap := [],
      TimelineEntries := [] }

/-- The function `TransformExport` of transform.go, from the decoded export to
the value handed to `writeJSON`. -/
def TransformExport (std : GoStd) (now : Time) (exported : FirestoreExport) : TransformedData :=
  let users := (exported.collection "users").foldl (userStep std now) []
  let tagState := tagsLoop std now exported
  let linkState := linksLoop std now exported
  let tags := mapValues linkState.tagMap
  let linkTags := mapValues linkState.linkTagMap
  let developers := (exported.collection "developers").foldl (developerStep std now) []
  let logs := (exported.collection "maintenanceLogs").foldl (logStep std now) []
  let users := sortSlice (fun a b => decide (a.ID < b.ID)) users
  let links := sortSlice (fun (a b : LinkRow) => decide (a.CreatedAt > b.CreatedAt)) linkState.Links
  let tags := sortSlice (fun (a b : TagRow) =>
    if a.UserID = b.UserID then decide (a.Name < b.Name) else decide (a.UserID < b.UserID)) tags
  let linkTags := sortSlice (fun (a b : LinkTagRow) =>
    if a.LinkID = b.LinkID then decide (a.TagID < b.TagID) else decide (a.LinkID < b.LinkID))
    linkTags
  let entries := sortSlice (fun (a b : TimelineEntryRow) =>
    if a.LinkID = b.LinkID then decide (a.CreatedAt < b.CreatedAt)
    else decide (a.LinkID < b.LinkID)) linkState.TimelineEntries
  let developers := sortSlice (fun (a b : DeveloperRow) => decide (a.UID < b.UID)) developers
  let logs := sortSlice (fun (a b : MaintenanceLogRow) => decide (a.Timestamp > b.Timestamp)) logs
  { GeneratedAt := now
    Users := users
    Links := links
    Tags := tags
    LinkTags := linkTags
    TimelineEntries := entries
    MaintenanceStatus := maintenanceStatus std exported
    Developers := developers
    MaintenanceLogs := logs
    Report :=
      [ "users: " ++ Nat.repr users.length,
        "links: " ++ Nat.repr links.length,
        "tags: " ++ Nat.repr tags.length,
        "link_tags: " ++ Nat.repr linkTags.length,
        "timeline_entries: " ++ Nat.repr entries.length,
        "developers: " ++ Nat.repr developers.length,
        "maintenance_logs: " ++ Nat.repr logs.length,
        "duplicate_tags_merged: " ++ Nat.repr tagState.duplicateTagCount ] }

/-! ## Derived notions used in the statements -/

/-- The tables with no letter outside ASCII and no string accepted as a timestamp;
the concrete examples use ASCII strings and leave timestamps out. -/
def asciiStd : GoStd :=
  { unicodeToLower := fun c => c
    parseRFC3339Nano := fun _ => none
    parseRFC3339 := fun _ => none }

/-- The condition under which the loop over the links skips a document
(`userID == "" || url == ""`). -/
def linkDropped (d : FirestoreDocument) : Prop :=
  parseString (field d.Data "userId") = "" ∨ trimSpace (parseString (field d.Data "url")) = ""

instance (d : FirestoreDocument) : Decidable (linkDropped d) :=
  inferInstanceAs (Decidable (_ ∨ _))

/-- The condition under which the loop over the top-level tags skips a document
(`userID == "" || name == ""`). -/
def tagDropped (d : FirestoreDocument) : Prop :=
  parseString (field d.Data "userId") = "" ∨
    sanitizeTagName (parseString (field d.Data "name")) = ""

instance (d : FirestoreDocument) : Decidable (tagDropped d) :=
  inferInstanceAs (Decidable (_ ∨ _))

/-- A map whose keys are distinct and whose every value is stored under the key
computed from it. -/
def Keyed {V : Type} (key : V → String) (m : GoMap V) : Prop :=
  (m.map Prod.fst).Nodup ∧ ∀ p ∈ m, p.1 = key p.2

/-- The key under which `tagMap` holds a row. -/
def tagRowKey (std : GoStd) (r : TagRow) : String := tagKey std r.UserID r.Name

/-- The key under which `linkTagMap` holds a row. -/
def linkTagRowKey (r : LinkTagRow) : String := r.LinkID ++ "|" ++ r.TagID

/-- The row the loop over the top-level tags hands to `putTag`. -/
def tagRowOf (std : GoStd) (now : Time) (d : FirestoreDocument) : TagRow :=
  { ID := d.ID
    UserID := parseString (field d.Data "userId")
    Name := sanitizeTagName (parseString (field d.Data "name"))
    CreatedAt := parseTime std (field d.Data "createdAt") now }

/-- The tag the loop over a link's tags synthesizes for a name that has no entry. -/
def synthTag (std : GoStd) (userID name : String) (createdAt : Time) : TagRow :=
  { ID := deterministicTagID std userID name
    UserID := userID
    Name := name
    CreatedAt := createdAt }

/-- The creation time the loop over the links gives a link. -/
def linkCreatedAt (std : GoStd) (now : Time) (d : FirestoreDocument) : Time :=
  parseTime std (field d.Data "createdAt") now

/-- The row the loop over the links appends for a document it keeps. -/
def linkRowOf (std : GoStd) (now : Time) (d : FirestoreDocument) : LinkRow :=
  { ID := d.ID
    UserID := parseString (field d.Data "userId")
    URL := trimSpace (parseString (field d.Data "url"))
    Title :=
      if trimSpace (parseString (field d.Data "title")) = "" then
        trimSpace (parseString (field d.Data "url"))
      else trimSpace (parseString (field d.Data "title"))
    IsArchived := parseBool (field d.Data "isArchived") false
    Summary := parseStringPtr (field d.Data "summary")
    CreatedAt := linkCreatedAt std now d
    UpdatedAt := parseTime std (field d.Data "updatedAt") (linkCreatedAt std now d) }

/-- The two maps after the loop over the tags of one kept link. -/
def linkTagsMaps (std : GoStd) (now : Time) (st : LinkState) (d : FirestoreDocument) :
    GoMap TagRow × GoMap LinkTagRow :=
  (toSlice (field d.Data "tags")).foldl
    (linkTagStep std d.ID (parseString (field d.Data "userId")) (linkCreatedAt std now d))
    (st.tagMap, st.linkTagMap)

/-- Two valid tag documents of two users whose keys `userId|lower(trim(name))`
are the same string. -/
def collidingTags : FirestoreExport :=
  { ExportedAt := 0
    Collections := [("tags",
      [{ ID := "t1", Data := [("userId", Val.str "a|b"), ("name", Val.str "c")] },
       { ID := "t2", Data := [("userId", Val.str "a"), ("name", Val.str "b|c")] }])]
    MaintenanceCurrent := none }

/-- A tag document of user `a|b` and two links of user `a` that embed the tag
name `b|c`. -/
def collidingLinks : FirestoreExport :=
  { ExportedAt := 0
    Collections :=
      [("tags", [{ ID := "t1", Data := [("userId", Val.str "a|b"), ("name", Val.str "c")] }]),
       ("links",
        [{ ID := "l1", Data := [("userId", Val.str "a"), ("url", Val.str "http://x"),
            ("tags", Val.arr [Val.str "b|c"])] },
         { ID := "l2", Data := [("userId", Val.str "a"), ("url", Val.str "http://y"),
            ("tags", Val.arr [Val.str "b|c"])] }])]
    MaintenanceCurrent := none }

/-- Where a row of `tagMap` comes from: a kept top-level tag document, or a
name embedded in a kept link. -/
def TagProvenance (std : GoStd) (now : Time) (exported : FirestoreExport) (r : TagRow) : Prop :=
  (∃ d ∈ exported.collection "tags", ¬ tagDropped d ∧ r = tagRowOf std now d) ∨
  (∃ d ∈ exported.collection "links", ¬ linkDropped d ∧
    ∃ tagAny ∈ toSlice (field d.Data "tags"),
      sanitizeTagName (parseString tagAny) ≠ "" ∧
      r = synthTag std (parseString (field d.Data "userId"))
        (sanitizeTagName (parseString tagAny)) (linkCreatedAt std now d))

/-- The snapshot of the end-to-end scenario: one user `u1` and one link `l1` with
url `http://x`, an empty title and the tags `"A"` and `"a "`. -/
def scenario : FirestoreExport :=
  { ExportedAt := 0
    Collections :=
      [("users", [{ ID := "u1", Data := [] }]),
       ("links",
        [{ ID := "l1", Data := [("userId", Val.str "u1"), ("url", Val.str "http://x"),
            ("title", Val.str ""), ("tags", Val.arr [Val.str "A", Val.str "a "])] }])]
    MaintenanceCurrent := none }

/-- The row the loop over a link's timeline appends for the entry at a position,
`none` when it skips the entry. -/
def timelineRowOf (std : GoStd) (linkID : String) (createdAt : Time) (ie : Nat × Val) :
    Option TimelineEntryRow :=
  if trimSpace (parseString (field (toMap ie.2) "content")) = "" then none
  else
    some
      { ID := linkID ++ "_" ++ Nat.repr ie.1
        LinkID := linkID
        Type' :=
          if trimSpace (parseString (field (toMap ie.2) "type")) ≠ "note" ∧
              trimSpace (parseString (field (toMap ie.2) "type")) ≠ "summary" then "note"
          else trimSpace (parseString (field (toMap ie.2) "type"))
        Content := trimSpace (parseString (field (toMap ie.2) "content"))
        CreatedAt := parseTime std (field (toMap ie.2) "createdAt") createdAt }

/-- The timeline rows of one kept link, in the order of its timeline array. -/
def linkTimelineRows (std : GoStd) (now : Time) (d : FirestoreDocument) :
    List TimelineEntryRow :=
  (toSlice (field d.Data "timeline")).enum.filterMap
    (timelineRowOf std d.ID (linkCreatedAt std now d))

/-- A link document that is kept, with one timeline entry. -/
def keptDoc : FirestoreDocument :=
  { ID := "L"
    Data := [("userId", Val.str "u"), ("url", Val.str "http://x"),
      ("timeline", Val.arr [Val.obj [("content", Val.str "c")]])] }

/-- A link document without url, with a tag and a timeline entry; its id is the
id that the first timeline entry of `keptDoc` is given. -/
def droppedDoc : FirestoreDocument :=
  { ID := "L_0"
    Data := [("userId", Val.str "u"), ("tags", Val.arr [Val.str "t"]),
      ("timeline", Val.arr [Val.obj [("content", Val.str "z")]])] }

/-- The snapshot with the links `keptDoc` and `droppedDoc`. -/
def timelineIdAlias : FirestoreExport :=
  { ExportedAt := 0
    Collections := [("links", [keptDoc, droppedDoc])]
    MaintenanceCurrent := none }

/-- The key of the row of a top-level tag document. -/
def tagDocKey (std : GoStd) (d : FirestoreDocument) : String :=
  tagKey std (parseString (field d.Data "userId"))
    (sanitizeTagName (parseString (field d.Data "name")))

/-- The state of the loop over the top-level tags after the documents `pre`:
the map is keyed, every entry is the row of a kept document of `pre` and no kept
document of `pre` with its key was created earlier, every kept document of `pre`
has its key in the map, and the counter counts the kept documents that did not
add a key. -/
def TagsInv (std : GoStd) (now : Time) (pre : List FirestoreDocument) (st : TagState) : Prop :=
  Keyed (tagRowKey std) st.tagMap ∧
  (∀ p ∈ st.tagMap, ∃ d0 ∈ pre, ¬ tagDropped d0 ∧ p.2 = tagRowOf std now d0 ∧
    ∀ d' ∈ pre, ¬ tagDropped d' → tagDocKey std d' = p.1 →
      p.2.CreatedAt ≤ (tagRowOf std now d').CreatedAt) ∧
  (∀ d ∈ pre, ¬ tagDropped d → tagDocKey std d ∈ st.tagMap.map Prod.fst) ∧
  st.duplicateTagCount + st.tagMap.length =
    (pre.filter (fun d => decide (¬ tagDropped d))).length

/-- Two tag documents of user `u1`: "Work", created at 20, and "work ", created at 10. -/
def workTags : FirestoreExport :=
  { ExportedAt := 0
    Collections := [("tags",
      [{ ID := "t1", Data := [("userId", Val.str "u1"), ("name", Val.str "Work"),
          ("createdAt", Val.time 20)] },
       { ID := "t2", Data := [("userId", Val.str "u1"), ("name", Val.str "work "),
          ("createdAt", Val.time 10)] }])]
    MaintenanceCurrent := none }

/-! ## Further derived notions -/

/-- A link whose only timeline entry has the type " summary ", with spaces. -/
def paddedSummaryLink : FirestoreDocument :=
  { ID := "l1"
    Data := [("userId", Val.str "u1"), ("url", Val.str "http://x"),
      ("timeline",
        Val.arr [Val.obj [("content", Val.str "x"), ("type", Val.str " summary ")]])] }

/-- The snapshot with the one link `paddedSummaryLink`. -/
def paddedSummary : FirestoreExport :=
  { ExportedAt := 0
    Collections := [("links", [paddedSummaryLink])]
    MaintenanceCurrent := none }

/-- The condition under which the loop over the developers skips a document
(`email == ""`, on the trimmed email). -/
def developerDropped (d : FirestoreDocument) : Prop :=
  trimSpace (parseString (field d.Data "email")) = ""

instance (d : FirestoreDocument) : Decidable (developerDropped d) :=
  inferInstanceAs (Decidable (_ = _))

/-- The row the loop over the developers appends for a document it keeps. -/
def developerRowOf (std : GoStd) (now : Time) (d : FirestoreDocument) : DeveloperRow :=
  { UID := d.ID
    Email := trimSpace (parseString (field d.Data "email"))
    AddedAt := parseTime std (field d.Data "addedAt") now
    DeletedAt :=
      if parseBool (field d.Data "deleted") false then
        match parseTimePtr std (field d.Data "deletedAt") with
        | none => some now
        | some t => some t
      else parseTimePtr std (field d.Data "deletedAt") }

/-- The row the loop over the maintenance logs appends for a document. -/
def logRowOf (std : GoStd) (now : Time) (d : FirestoreDocument) : MaintenanceLogRow :=
  { ID := d.ID
    Action :=
      if trimSpace (parseString (field d.Data "action")) ≠ "enabled" ∧
          trimSpace (parseString (field d.Data "action")) ≠ "disabled" then "disabled"
      else trimSpace (parseString (field d.Data "action"))
    Reason := parseStringPtr (field d.Data "reason")
    PerformedBy := trimSpace (parseString (field d.Data "performedBy"))
    PerformedByUID := trimSpace (parseString (field d.Data "performedByUid"))
    Timestamp := parseTime std (field d.Data "timestamp") now
    PreviousStatus := parseBool (field d.Data "previousStatus") false }

/-- A maintenance log whose action is " enabled ", with spaces. -/
def paddedEnabledLog : FirestoreDocument :=
  { ID := "m1", Data := [("action", Val.str " enabled ")] }

/-- The snapshot with the one maintenance log `paddedEnabledLog`. -/
def paddedEnabled : FirestoreExport :=
  { ExportedAt := 0
    Collections := [("maintenanceLogs", [paddedEnabledLog])]
    MaintenanceCurrent := none }

/-- A developer document whose email is one space. -/
def blankEmailDeveloper : FirestoreDocument :=
  { ID := "d1", Data := [("email", Val.str " ")] }

/-- The snapshot with the one developer `blankEmailDeveloper`. -/
def blankEmail : FirestoreExport :=
  { ExportedAt := 0
    Collections := [("developers", [blankEmailDeveloper])]
    MaintenanceCurrent := none }

/-- The comparison function of the sort of the Tags list. -/
def tagLess (a b : TagRow) : Bool :=
  if a.UserID = b.UserID then decide (a.Name < b.Name) else decide (a.UserID < b.UserID)

/-- The comparison function of the sort of the LinkTags list. -/
def linkTagLess (a b : LinkTagRow) : Bool :=
  if a.LinkID = b.LinkID then decide (a.TagID < b.TagID) else decide (a.LinkID < b.LinkID)

/-- The comparison function of the sort of the TimelineEntries list. -/
def entryLess (a b : TimelineEntryRow) : Bool :=
  if a.LinkID = b.LinkID then decide (a.CreatedAt < b.CreatedAt)
  else decide (a.LinkID < b.LinkID)

/-- The function `TransformExport` with the order made explicit in which the two
loops `for _, tag := range tagMap` and `for _, linkTag := range linkTagMap`
deliver the values of the maps: `tagsIter` and `linkTagsIter` are the values of
`tagMap` and of `linkTagMap` in the order of one run. -/
def TransformExportIter (std : GoStd) (now : Time) (exported : FirestoreExport)
    (tagsIter : List TagRow) (linkTagsIter : List LinkTagRow) : TransformedData :=
  let users := (exported.collection "users").foldl (userStep std now) []
  let tagState := tagsLoop std now exported
  let linkState := linksLoop std now exported
  let tags := tagsIter
  let linkTags := linkTagsIter
  let developers := (exported.collection "developers").foldl (developerStep std now) []
  let logs := (exported.collection "maintenanceLogs").foldl (logStep std now) []
  let users := sortSlice (fun a b => decide (a.ID < b.ID)) users
  let links := sortSlice (fun (a b : LinkRow) => decide (a.CreatedAt > b.CreatedAt)) linkState.Links
  let tags := sortSlice (fun (a b : TagRow) =>
    if a.UserID = b.UserID then decide (a.Name < b.Name) else decide (a.UserID < b.UserID)) tags
  let linkTags := sortSlice (fun (a b : LinkTagRow) =>
    if a.LinkID = b.LinkID then decide (a.TagID < b.TagID) else decide (a.LinkID < b.LinkID))
    linkTags
  let entries := sortSlice (fun (a b : TimelineEntryRow) =>
    if a.LinkID = b.LinkID then decide (a.CreatedAt < b.CreatedAt)
    else decide (a.LinkID < b.LinkID)) linkState.TimelineEntries
  let developers := sortSlice (fun (a b : DeveloperRow) => decide (a.UID < b.UID)) developers
  let logs := sortSlice (fun (a b : MaintenanceLogRow) => decide (a.Timestamp > b.Timestamp)) logs
  { GeneratedAt := now
    Users := users
    Links := links
    Tags := tags
    LinkTags := linkTags
    TimelineEntries := entries
    MaintenanceStatus := maintenanceStatus std exported
    Developers := developers
    MaintenanceLogs := logs
    Report :=
      [ "users: " ++ Nat.repr users.length,
        "links: " ++ Nat.repr links.length,
        "tags: " ++ Nat.repr tags.length,
        "link_tags: " ++ Nat.repr linkTags.length,
        "timeline_entries: " ++ Nat.repr entries.length,
        "developers: " ++ Nat.repr developers.length,
        "maintenance_logs: " ++ Nat.repr logs.length,
        "duplicate_tags_merged: " ++ Nat.repr tagState.duplicateTagCount ] }

/-- Two tag documents of one user with different names. -/
def twoTags : FirestoreExport :=
  { ExportedAt := 0
    Collections := [("tags",
      [{ ID := "t1", Data := [("userId", Val.str "u1"), ("name", Val.str "b")] },
       { ID := "t2", Data := [("userId", Val.str "u1"), ("name", Val.str "a")] }])]
    MaintenanceCurrent := none }

/-- Two tag documents of one user with the same dedup key and no createdAt. -/
def tiedTags : FirestoreExport :=
  { ExportedAt := 0
    Collections := [("tags",
      [{ ID := "t1", Data := [("userId", Val.str "u1"), ("name", Val.str "Work")] },
       { ID := "t2", Data := [("userId", Val.str "u1"), ("name", Val.str "work")] }])]
    MaintenanceCurrent := none }

/-- The snapshot `tiedTags` with its two tag documents in the other order. -/
def tiedTagsSwapped : FirestoreExport :=
  { ExportedAt := 0
    Collections := [("tags",
      [{ ID := "t2", Data := [("userId", Val.str "u1"), ("name", Val.str "work")] },
       { ID := "t1", Data := [("userId", Val.str "u1"), ("name", Val.str "Work")] }])]
    MaintenanceCurrent := none }

/-- The snapshot `workTags` with its two tag documents in the other order. -/
def workTagsSwapped : FirestoreExport :=
  { ExportedAt := 0
    Collections := [("tags",
      [{ ID := "t2", Data := [("userId", Val.str "u1"), ("name", Val.str "work "),
          ("createdAt", Val.time 10)] },
       { ID := "t1", Data := [("userId", Val.str "u1"), ("name", Val.str "Work"),
          ("createdAt", Val.time 20)] }])]
    MaintenanceCurrent := none }

/-- Two states of the loop over the links that differ only in the order of the
entries of `tagMap`. -/
def LinkStateEquiv (st st' : LinkState) : Prop :=
  st.Links = st'.Links ∧ st.tagMap.Perm st'.tagMap ∧ st.linkTagMap = st'.linkTagMap ∧
    st.TimelineEntries = st'.TimelineEntries ∧ (st.tagMap.map Prod.fst).Nodup

/-- The pairs of a kept link and an embedded name that a state of the loop over
the links accounts for: every row of `linkTagMap` joins a kept link with the tag
that `tagMap` holds under the key of one of the link's names. -/
def LinkTagOrigin (std : GoStd) (now : Time) (exported : FirestoreExport)
    (tagMap : GoMap TagRow) (lt : LinkTagRow) : Prop :=
  ∃ d ∈ exported.collection "links", ¬ linkDropped d ∧
    ∃ tagAny ∈ toSlice (field d.Data "tags"),
      sanitizeTagName (parseString tagAny) ≠ "" ∧
      ∃ t, (tagKey std (parseString (field d.Data "userId"))
            (sanitizeTagName (parseString tagAny)), t) ∈ tagMap ∧
        lt = LinkTagRow.mk d.ID t.ID (linkCreatedAt std now d)

/-- Two links of user `u1` that embed the names "A" and "a", created at 10 and
at 20. -/
def sharedName : FirestoreExport :=
  { ExportedAt := 0
    Collections :=
      [("links",
        [{ ID := "l1", Data := [("userId", Val.str "u1"), ("url", Val.str "http://x"),
            ("tags", Val.arr [Val.str "A"]), ("createdAt", Val.time 10)] },
         { ID := "l2", Data := [("userId", Val.str "u1"), ("url", Val.str "http://y"),
            ("tags", Val.arr [Val.str "a"]), ("createdAt", Val.time 20)] }])]
    MaintenanceCurrent := none }

/-- The snapshot `sharedName` with its two link documents in the other order. -/
def sharedNameSwapped : FirestoreExport :=
  { ExportedAt := 0
    Collections :=
      [("links",
        [{ ID := "l2", Data := [("userId", Val.str "u1"), ("url", Val.str "http://y"),
            ("tags", Val.arr [Val.str "a"]), ("createdAt", Val.time 20)] },
         { ID := "l1", Data := [("userId", Val.str "u1"), ("url", Val.str "http://x"),
            ("tags", Val.arr [Val.str "A"]), ("createdAt", Val.time 10)] }])]
    MaintenanceCurrent := none }

/-- What of a Tag row does not depend on the order of the links: the id, the
user id and the lower-cased name. -/
def tagIdentity (std : GoStd) (r : TagRow) : String × String × String :=
  (r.ID, r.UserID, toLower std r.Name)

/-! ## `parseTime` with locations, and further inputs -/

/-- A `time.Time` value as Go holds it: the instant and the name of the location
in which it is expressed. -/
structure GoTime where
  instant : Time
  location : String
  deriving DecidableEq, Repr

/-- The method `Time.UTC`: the same instant with the location set to UTC. -/
def GoTime.UTC (t : GoTime) : GoTime :=
  { instant := t.instant, location := "UTC" }

/-- The function `parseTime` of util.go with the locations written out.
`nativeLocation` is the location of the native timestamp that `v` holds and
`parsedLocation` the location `time.Parse` gives the instant it reads from a
string; every return goes through `UTC`. -/
def parseTimeIn (std : GoStd) (nativeLocation : String) (parsedLocation : String → String)
    (v : Val) (fallback : GoTime) : GoTime :=
  match v with
  | Val.time t => GoTime.UTC { instant := t, location := nativeLocation }
  | Val.str t =>
    if t = "" then fallback.UTC
    else
      match std.parseRFC3339Nano t with
      | some parsed => GoTime.UTC { instant := parsed, location := parsedLocation t }
      | none =>
        match std.parseRFC3339 t with
        | some parsed => GoTime.UTC { instant := parsed, location := parsedLocation t }
        | none => fallback.UTC
  | _ => fallback.UTC

/-- Two links of the users `a:b` and `a` that embed the names `c` and `b:c`. -/
def colonLinks : FirestoreExport :=
  { ExportedAt := 0
    Collections :=
      [("links",
        [{ ID := "l1", Data := [("userId", Val.str "a:b"), ("url", Val.str "http://x"),
            ("tags", Val.arr [Val.str "c"])] },
         { ID := "l2", Data := [("userId", Val.str "a"), ("url", Val.str "http://y"),
            ("tags", Val.arr [Val.str "b:c"])] }])]
    MaintenanceCurrent := none }

/-! ## Errors -/

/-- A Go `error` value: the status code of the failed call, when it has one
(`NotFound`, `Unavailable`, `PermissionDenied`, a SQLSTATE), and its text. -/
structure GoError where
  code : String
  message : String
  deriving DecidableEq, Repr

/-- The call `fmt.Errorf(text + ": %w", err)`: the text is put in front and the
wrapped error keeps its code. -/
def wrapError (text : String) (err : GoError) : GoError :=
  { code := err.code, message := text ++ ": " ++ err.message }

/-! ## export.go -/

/-- What the Firestore client gives one run of the export. -/
structure FirestoreEnv where
  /-- The error of `firestore.NewClient`, if any. -/
  newClient : Option GoError
  /-- What the iterator of a collection yields, call by call, before `iterator.Done`. -/
  documents : String → List (Except GoError FirestoreDocument)
  /-- The result of `client.Collection(collection).Doc(id).Get(ctx)`. -/
  get : String → String → Except GoError FirestoreDocument
  /-- The value of `time.Now().UTC()`. -/
  now : Time
  /-- The error of `writeJSON(outPath, exportPayload)`, if any. -/
  writeJSON : FirestoreExport → Option GoError

/-- The loop of `fetchCollection` of export.go, `result` being the slice built
so far. -/
def fetchCollectionLoop (result : List FirestoreDocument) :
    List (Except GoError FirestoreDocument) → Except GoError (List FirestoreDocument)
  | [] => .ok result
  | .error err :: _ => .error err
  | .ok doc :: rest => fetchCollectionLoop (result ++ [doc]) rest

/-- The function `fetchCollection` of export.go. -/
def fetchCollection (env : FirestoreEnv) (collection : String) :
    Except GoError (List FirestoreDocument) :=
  fetchCollectionLoop [] (env.documents collection)

/-- The function `fetchDocument` of export.go: the pair (document, error) it
returns, as a result.  Whatever the error of `Get`, it returns `nil, nil`. -/
def fetchDocument (env : FirestoreEnv) (collection id : String) :
    Except GoError (Option FirestoreDocument) :=
  match env.get collection id with
  | .error _ => .ok none
  | .ok doc => .ok (some doc)

/-- The loop over `collections` of `ExportFromFirestore`. -/
def exportCollections (env : FirestoreEnv) (data : GoMap (List FirestoreDocument)) :
    List String → Except GoError (GoMap (List FirestoreDocument))
  | [] => .ok data
  | collection :: rest =>
    match fetchCollection env collection with
    | .error err => .error (wrapError ("failed to export collection " ++ collection) err)
    | .ok docs => exportCollections env (mapStore data collection docs) rest

/-- The function `ExportFromFirestore` of export.go: the error it returns, or
the payload it has written to `outPath`. -/
def ExportFromFirestore (env : FirestoreEnv) : Except GoError FirestoreExport :=
  match env.newClient with
  | some err => .error (wrapError "failed to create firestore client" err)
  | none =>
    match exportCollections env []
        ["users", "links", "tags", "developers", "maintenanceLogs"] with
    | .error err => .error err
    | .ok data =>
      match fetchDocument env "maintenance" "current" with
      | .error err => .error (wrapError "failed to export maintenance/current" err)
      | .ok maintenanceDoc =>
        let exportPayload : FirestoreExport :=
          { ExportedAt := env.now, Collections := data, MaintenanceCurrent := maintenanceDoc }
        match env.writeJSON exportPayload with
        | some err => .error (wrapError "failed to write export file" err)
        | none => .ok exportPayload

/-- A run in which the collections are empty, the singleton document exists and
its read fails because the service cannot be reached. -/
def outage : FirestoreEnv :=
  { newClient := none
    documents := fun _ => []
    get := fun _ _ => .error { code := "Unavailable", message := "connection refused" }
    now := 1000
    writeJSON := fun _ => none }

/-- The run `outage` with the failure in the read of the collection `users`. -/
def outageOfCollection : FirestoreEnv :=
  { newClient := none
    documents := fun c =>
      if c = "users" then [.error { code := "Unavailable", message := "connection refused" }]
      else []
    get := fun _ _ => .error { code := "NotFound", message := "no such document" }
    now := 1000
    writeJSON := fun _ => none }

/-! ## verify.go -/

/-- The struct `VerificationSummary`. -/
structure VerificationSummary where
  Expected : GoMap Nat
  Actual : GoMap Nat
  Matched : Bool
  deriving DecidableEq, Repr

/-- What the files and the destination give one run of the verification.  A
count is the result of `SELECT COUNT(*)`, which is not negative. -/
structure VerifyEnv where
  /-- The result of `readJSON(transformedPath, &transformed)`. -/
  readTransformed : Except GoError TransformedData
  /-- The error of `pgxpool.New`, if any. -/
  connect : Option GoError
  /-- The result of `pool.QueryRow(ctx, query).Scan(&count)`, by the text of the query. -/
  queryCount : String → Except GoError Nat
  /-- The error of `writeJSON(reportPath, summary)`, if any. -/
  writeJSON : VerificationSummary → Option GoError

/-- The map `expected` of `VerifyImport`. -/
def expectedCounts (transformed : TransformedData) : GoMap Nat :=
  [("users", transformed.Users.length),
   ("links", transformed.Links.length),
   ("tags", transformed.Tags.length),
   ("link_tags", transformed.LinkTags.length),
   ("timeline_entries", transformed.TimelineEntries.length),
   ("developers", transformed.Developers.length),
   ("maintenance_logs", transformed.MaintenanceLogs.length),
   ("maintenance_status", 1)]

/-- The map `countQueries` of `VerifyImport`. -/
def countQueries : GoMap String :=
  [("users", "SELECT COUNT(*) FROM users"),
   ("links", "SELECT COUNT(*) FROM links"),
   ("tags", "SELECT COUNT(*) FROM tags"),
   ("link_tags", "SELECT COUNT(*) FROM link_tags"),
   ("timeline_entries", "SELECT COUNT(*) FROM timeline_entries"),
   ("developers", "SELECT COUNT(*) FROM developers"),
   ("maintenance_logs", "SELECT COUNT(*) FROM maintenance_logs"),
   ("maintenance_status", "SELECT COUNT(*) FROM maintenance_status WHERE id = 'current'")]

/-- The query of `VerifyImport` that counts the link_tags rows without a link or
without a tag. -/
def orphanQuery : String :=
  "\n\t\tSELECT COUNT(*)\n\t\tFROM link_tags lt\n\t\tLEFT JOIN links l ON l.id = lt.link_id\n\t\tLEFT JOIN tags t ON t.id = lt.tag_id\n\t\tWHERE l.id IS NULL OR t.id IS NULL\n\t"

/-- The loop over `countQueries` of `VerifyImport`, in the order `queries` in
which the map is iterated. -/
def countLoop (env : VerifyEnv) (actual : GoMap Nat) :
    List (String × String) → Except GoError (GoMap Nat)
  | [] => .ok actual
  | (key, query) :: rest =>
    match env.queryCount query with
    | .error err => .error (wrapError ("failed to count " ++ key) err)
    | .ok count => countLoop env (mapStore actual key count) rest

/-- The body of the loop over `expected` of `VerifyImport`; `actual[key]` is 0
for a key that the map does not have. -/
def matchStep (actual : GoMap Nat) (matched : Bool) (entry : String × Nat) : Bool :=
  if (mapLookup actual entry.1).getD 0 ≠ entry.2 then false else matched

/-- The function `VerifyImport` of verify.go, with the orders in which the maps
`countQueries` and `expected` are iterated as arguments. -/
def VerifyImportIter (env : VerifyEnv) (reportPath : String)
    (queriesIter : List (String × String))
    (expectedIter : TransformedData → List (String × Nat)) :
    Except GoError VerificationSummary :=
  match env.readTransformed with
  | .error err => .error (wrapError "failed to read transformed file" err)
  | .ok transformed =>
    let expected := expectedCounts transformed
    match env.connect with
    | some err => .error (wrapError "failed to connect postgres" err)
    | none =>
      match countLoop env [] queriesIter with
      | .error err => .error err
      | .ok actual =>
        match env.queryCount orphanQuery with
        | .error err => .error (wrapError "failed to validate link_tags relations" err)
        | .ok orphanLinkTags =>
          let actual := mapStore actual "orphan_link_tags" orphanLinkTags
          let matched := (expectedIter transformed).foldl (matchStep actual) true
          let matched := if orphanLinkTags > 0 then false else matched
          let summary : VerificationSummary :=
            { Expected := expected, Actual := actual, Matched := matched }
          if reportPath ≠ "" then
            match env.writeJSON summary with
            | some err => .error (wrapError "failed to write verification report" err)
            | none => .ok summary
          else .ok summary

/-- The function `VerifyImport` of verify.go, the maps iterated in the order in
which they are written. -/
def VerifyImport (env : VerifyEnv) (reportPath : String) :
    Except GoError VerificationSummary :=
  VerifyImportIter env reportPath countQueries expectedCounts

/-- The counts that a destination holding exactly the rows of the scenario gives. -/
def scenarioCounts (key : String) : Nat :=
  if key = "users" ∨ key = "links" ∨ key = "tags" ∨ key = "link_tags" ∨
    key = "maintenance_status" then 1 else 0

/-- A run of the verification on the transformed scenario, against a destination
that holds exactly its rows. -/
def scenarioVerify : VerifyEnv :=
  { readTransformed := .ok (TransformExport asciiStd 1000 scenario)
    connect := none
    queryCount := fun query =>
      .ok (((countQueries.filter (fun p => p.2 = query)).map
        (fun p => scenarioCounts p.1)).headD 0)
    writeJSON := fun _ => none }

/-- Two links whose ids, `a` and `a_1`, hold an underscore and a digit; the first
has two timeline entries and the second has one. -/
def underscoreLinks : FirestoreExport :=
  { ExportedAt := 0
    Collections :=
      [("links",
        [{ ID := "a", Data := [("userId", Val.str "u1"), ("url", Val.str "http://x"),
            ("timeline", Val.arr [Val.obj [("content", Val.str "p")],
              Val.obj [("content", Val.str "q")]])] },
         { ID := "a_1", Data := [("userId", Val.str "u1"), ("url", Val.str "http://y"),
            ("timeline", Val.arr [Val.obj [("content", Val.str "r")]])] }])]
    MaintenanceCurrent := none }

/-! ## Decimal numerals -/

/-- The number that a list of decimal digits writes, after the digits `acc`. -/
def decimalValue (acc : Nat) (ds : List Char) : Nat :=
  ds.foldl (fun n c => 10 * n + (c.toNat - 48)) acc

/-! ## import.go -/

/-- A row of the table maintenance_status: the columns that the struct
`MaintenanceStatusRow` has, and updated_at. -/
structure MaintenanceStatusRecord where
  row : MaintenanceStatusRow
  UpdatedAt : Time
  deriving DecidableEq, Repr

/-- The rows of the eight tables of the destination. -/
structure Database where
  users : List UserRow
  links : List LinkRow
  tags : List TagRow
  linkTags : List LinkTagRow
  timelineEntries : List TimelineEntryRow
  maintenanceStatus : List MaintenanceStatusRecord
  developers : List DeveloperRow
  maintenanceLogs : List MaintenanceLogRow
  deriving DecidableEq, Repr

/-- The destination without rows. -/
def emptyDatabase : Database :=
  { users := [], links := [], tags := [], linkTags := [], timelineEntries := [],
    maintenanceStatus := [], developers := [], maintenanceLogs := [] }

/-- Modelled from the spec: what the source does not fix of the destination schema,
whose migrations are not among the source files.  The spec names users as the
parents of links and tags without saying that a foreign key enforces it; the two
fields say whether links.user_id and tags.user_id refer to users.id. -/
structure Schema where
  linksReferUsers : Bool
  tagsReferUsers : Bool
  deriving DecidableEq, Repr

/-- The error of a statement that violates a foreign key (SQLSTATE 23503). -/
def foreignKeyViolation (table : String) : GoError :=
  { code := "23503"
    message := "insert or update on table " ++ table ++ " violates foreign key constraint" }

/-- The error of a statement that violates a unique constraint (SQLSTATE 23505). -/
def uniqueViolation (table : String) : GoError :=
  { code := "23505"
    message := "duplicate key value violates unique constraint of table " ++ table }

/-- The statement `INSERT ... ON CONFLICT (key) DO UPDATE SET ...` on one table:
the row that has the key of the new row, if there is one, becomes
`merge existing new`; otherwise the new row is added. -/
def upsert {α : Type} (key : α → List String) (merge : α → α → α) (table : List α)
    (row : α) : List α :=
  if key row ∈ table.map key then
    table.map (fun existing => if key existing = key row then merge existing row else existing)
  else table ++ [row]

/-- The conflict target `(id)` of users. -/
def userKey (r : UserRow) : List String := [r.ID]

/-- The conflict target `(id)` of links. -/
def linkKey (r : LinkRow) : List String := [r.ID]

/-- The conflict target `(user_id, name)` of tags. -/
def tagConflictKey (r : TagRow) : List String := [r.UserID, r.Name]

/-- Modelled from the spec: the primary key `(id)` of tags, "conflict key is
(userId, name) (not id)"; the schema is not among the source files. -/
def tagPrimaryKey (r : TagRow) : List String := [r.ID]

/-- The conflict target `(link_id, tag_id)` of link_tags. -/
def linkTagConflictKey (r : LinkTagRow) : List String := [r.LinkID, r.TagID]

/-- The conflict target `(id)` of timeline_entries. -/
def timelineEntryKey (r : TimelineEntryRow) : List String := [r.ID]

/-- The conflict target `(id)` of maintenance_status. -/
def maintenanceStatusKey (r : MaintenanceStatusRecord) : List String := [r.row.ID]

/-- The conflict target `(uid)` of developers. -/
def developerKey (r : DeveloperRow) : List String := [r.UID]

/-- The conflict target `(id)` of maintenance_logs. -/
def maintenanceLogKey (r : MaintenanceLogRow) : List String := [r.ID]

/-- The clause `DO UPDATE SET` of the statement on users: email, display_name
and updated_at are set to the new values. -/
def mergeUser (existing new : UserRow) : UserRow :=
  { existing with
    Email := new.Email, DisplayName := new.DisplayName, UpdatedAt := new.UpdatedAt }

/-- The clause `DO UPDATE SET` of the statement on links: every column but id is
set to the new value. -/
def mergeLink (existing new : LinkRow) : LinkRow :=
  { existing with
    UserID := new.UserID, URL := new.URL, Title := new.Title,
    IsArchived := new.IsArchived, Summary := new.Summary,
    CreatedAt := new.CreatedAt, UpdatedAt := new.UpdatedAt }

/-- The clause `DO UPDATE SET` of the statement on tags: created_at becomes
LEAST(tags.created_at, EXCLUDED.created_at) and nothing else changes. -/
def mergeTag (existing new : TagRow) : TagRow :=
  { existing with CreatedAt := min existing.CreatedAt new.CreatedAt }

/-- The clause `DO UPDATE SET` of the statement on timeline_entries: every
column but id is set to the new value. -/
def mergeTimelineEntry (existing new : TimelineEntryRow) : TimelineEntryRow :=
  { existing with
    LinkID := new.LinkID, Type' := new.Type', Content := new.Content,
    CreatedAt := new.CreatedAt }

/-- The clause `DO UPDATE SET` of the statement on maintenance_status: every
column but id is set to the new value, updated_at to `NOW()`. -/
def mergeMaintenanceStatus (now : Time) (existing new : MaintenanceStatusRecord) :
    MaintenanceStatusRecord :=
  { row := { existing.row with
      IsMaintenanceMode := new.row.IsMaintenanceMode, Reason := new.row.Reason,
      StartedAt := new.row.StartedAt, StartedBy := new.row.StartedBy }
    UpdatedAt := now }

/-- The clause `DO UPDATE SET` of the statement on developers: email and
deleted_at are set to the new values and added_at becomes
LEAST(developers.added_at, EXCLUDED.added_at). -/
def mergeDeveloper (existing new : DeveloperRow) : DeveloperRow :=
  { existing with
    Email := new.Email, AddedAt := min existing.AddedAt new.AddedAt,
    DeletedAt := new.DeletedAt }

/-- The clause `DO UPDATE SET` of the statement on maintenance_logs: every
column but id is set to the new value. -/
def mergeMaintenanceLog (existing new : MaintenanceLogRow) : MaintenanceLogRow :=
  { existing with
    Action := new.Action, Reason := new.Reason, PerformedBy := new.PerformedBy,
    PerformedByUID := new.PerformedByUID, Timestamp := new.Timestamp,
    PreviousStatus := new.PreviousStatus }

/-- The instant that the destination holds for a `time.Time` bound to a
parameter of a timestamp column (the repository reads these columns as
`pgtype.Timestamptz`): pgx sends the whole microseconds of the instant and
PostgreSQL keeps microseconds, so what is past the last whole microsecond is cut
off. -/
def pgTimestamp (t : Time) : Time := t - t % 1000

/-- The row of users that the parameters of the statement hold in the destination. -/
def storedUser (user : UserRow) : UserRow :=
  { user with
    CreatedAt := pgTimestamp user.CreatedAt, UpdatedAt := pgTimestamp user.UpdatedAt }

/-- The row of links that the parameters of the statement hold in the destination. -/
def storedLink (link : LinkRow) : LinkRow :=
  { link with
    CreatedAt := pgTimestamp link.CreatedAt, UpdatedAt := pgTimestamp link.UpdatedAt }

/-- The row of tags that the parameters of the statement hold in the destination. -/
def storedTag (tag : TagRow) : TagRow :=
  { tag with CreatedAt := pgTimestamp tag.CreatedAt }

/-- The row of link_tags that the parameters of the statement hold in the
destination. -/
def storedLinkTag (linkTag : LinkTagRow) : LinkTagRow :=
  { linkTag with CreatedAt := pgTimestamp linkTag.CreatedAt }

/-- The row of timeline_entries that the parameters of the statement hold in the
destination. -/
def storedTimelineEntry (entry : TimelineEntryRow) : TimelineEntryRow :=
  { entry with CreatedAt := pgTimestamp entry.CreatedAt }

/-- The columns of maintenance_status that the parameters of the statement hold
in the destination. -/
def storedMaintenanceStatus (status : MaintenanceStatusRow) : MaintenanceStatusRow :=
  { status with StartedAt := status.StartedAt.map pgTimestamp }

/-- The row of developers that the parameters of the statement hold in the
destination. -/
def storedDeveloper (developer : DeveloperRow) : DeveloperRow :=
  { developer with
    AddedAt := pgTimestamp developer.AddedAt
    DeletedAt := developer.DeletedAt.map pgTimestamp }

/-- The row of maintenance_logs that the parameters of the statement hold in the
destination. -/
def storedMaintenanceLog (logEntry : MaintenanceLogRow) : MaintenanceLogRow :=
  { logEntry with Timestamp := pgTimestamp logEntry.Timestamp }

/-- The statement of the loop over `transformed.Users`. -/
def execUser (db : Database) (user : UserRow) : Except GoError Database :=
  .ok { db with users := upsert userKey mergeUser db.users (storedUser user) }

/-- Modelled from the spec: the constraint that a row written to links can
violate, the schema not being among the source files: links.user_id refers to
users.id, when the schema says so, and no user has the id. -/
def linkViolation (schema : Schema) (db : Database) (link : LinkRow) : Option GoError :=
  if schema.linksReferUsers = true ∧ [link.UserID] ∉ db.users.map userKey then
    some (foreignKeyViolation "links")
  else none

/-- The statement of the loop over `transformed.Links`. -/
def execLink (schema : Schema) (db : Database) (link : LinkRow) : Except GoError Database :=
  match linkViolation schema db link with
  | some err => .error err
  | none => .ok { db with links := upsert linkKey mergeLink db.links (storedLink link) }

/-- Modelled from the spec: the constraints that a row written to tags can
violate, the schema not being among the source files.  With a conflict on
(user_id, name) nothing is inserted; without one the insert fails when a row has
the id already, and when tags.user_id refers to users.id, if the schema says so,
and no user has the id. -/
def tagViolation (schema : Schema) (db : Database) (tag : TagRow) : Option GoError :=
  if tagConflictKey tag ∈ db.tags.map tagConflictKey then none
  else if tagPrimaryKey tag ∈ db.tags.map tagPrimaryKey then some (uniqueViolation "tags")
  else if schema.tagsReferUsers = true ∧ [tag.UserID] ∉ db.users.map userKey then
    some (foreignKeyViolation "tags")
  else none

/-- The statement of the loop over `transformed.Tags`, with the conflict target
(user_id, name). -/
def execTag (schema : Schema) (db : Database) (tag : TagRow) : Except GoError Database :=
  match tagViolation schema db tag with
  | some err => .error err
  | none => .ok { db with tags := upsert tagConflictKey mergeTag db.tags (storedTag tag) }

/-- Modelled from the spec: the constraint that a row inserted into link_tags
can violate, the schema not being among the source files: no link has the
link_id or no tag has the tag_id. -/
def linkTagViolation (db : Database) (linkTag : LinkTagRow) : Option GoError :=
  if [linkTag.LinkID] ∉ db.links.map linkKey ∨
      [linkTag.TagID] ∉ db.tags.map tagPrimaryKey then
    some (foreignKeyViolation "link_tags")
  else none

/-- The statement of the loop over `transformed.LinkTags`: on conflict nothing
is done. -/
def execLinkTag (db : Database) (linkTag : LinkTagRow) : Except GoError Database :=
  if linkTagConflictKey linkTag ∈ db.linkTags.map linkTagConflictKey then .ok db
  else
    match linkTagViolation db linkTag with
    | some err => .error err
    | none => .ok { db with linkTags := db.linkTags ++ [storedLinkTag linkTag] }

/-- Modelled from the spec: the constraint that a row written to
timeline_entries can violate, the schema not being among the source files: no
link has the link_id. -/
def timelineEntryViolation (db : Database) (entry : TimelineEntryRow) : Option GoError :=
  if [entry.LinkID] ∉ db.links.map linkKey then some (foreignKeyViolation "timeline_entries")
  else none

/-- The statement of the loop over `transformed.TimelineEntries`. -/
def execTimelineEntry (db : Database) (entry : TimelineEntryRow) : Except GoError Database :=
  match timelineEntryViolation db entry with
  | some err => .error err
  | none =>
    .ok { db with
      timelineEntries := upsert timelineEntryKey mergeTimelineEntry db.timelineEntries
        (storedTimelineEntry entry) }

/-- The statement on maintenance_status; the column updated_at is `NOW()`. -/
def execMaintenanceStatus (now : Time) (db : Database) (status : MaintenanceStatusRow) :
    Except GoError Database :=
  .ok { db with
    maintenanceStatus := upsert maintenanceStatusKey (mergeMaintenanceStatus now)
      db.maintenanceStatus { row := storedMaintenanceStatus status, UpdatedAt := now } }

/-- The statement of the loop over `transformed.Developers`. -/
def execDeveloper (db : Database) (developer : DeveloperRow) : Except GoError Database :=
  .ok { db with
    developers := upsert developerKey mergeDeveloper db.developers (storedDeveloper developer) }

/-- The statement of the loop over `transformed.MaintenanceLogs`. -/
def execMaintenanceLog (db : Database) (logEntry : MaintenanceLogRow) :
    Except GoError Database :=
  .ok { db with
    maintenanceLogs := upsert maintenanceLogKey mergeMaintenanceLog db.maintenanceLogs
      (storedMaintenanceLog logEntry) }

/-- One loop of `ImportToPostgres`: the statement is executed row by row on
what the transaction sees, and the first error ends the run.  The result is the
error, if any, and what the transaction sees at that point. -/
def execEach {α : Type} (exec : Database → α → Except GoError Database)
    (describe : α → String) : Database → List α → Option GoError × Database
  | db, [] => (none, db)
  | db, row :: rest =>
    match exec db row with
    | .error err => (some (wrapError (describe row) err), db)
    | .ok db' => execEach exec describe db' rest

/-- The statements of `ImportToPostgres` between `SET TIME ZONE` and the commit,
in their order: the error, if any, and what the transaction sees at the end. -/
def importStatements (schema : Schema) (now : Time) (transformed : TransformedData)
    (db : Database) : Option GoError × Database :=
  match execEach execUser (fun user => "failed to import user " ++ user.ID)
      db transformed.Users with
  | (some err, db) => (some err, db)
  | (none, db) =>
  match execEach (execLink schema) (fun link => "failed to import link " ++ link.ID)
      db transformed.Links with
  | (some err, db) => (some err, db)
  | (none, db) =>
  match execEach (execTag schema) (fun tag => "failed to import tag " ++ tag.ID)
      db transformed.Tags with
  | (some err, db) => (some err, db)
  | (none, db) =>
  match execEach execLinkTag
      (fun linkTag => "failed to import link_tag (" ++ linkTag.LinkID ++ "," ++
        linkTag.TagID ++ ")")
      db transformed.LinkTags with
  | (some err, db) => (some err, db)
  | (none, db) =>
  match execEach execTimelineEntry
      (fun entry => "failed to import timeline entry " ++ entry.ID)
      db transformed.TimelineEntries with
  | (some err, db) => (some err, db)
  | (none, db) =>
  match execMaintenanceStatus now db transformed.MaintenanceStatus with
  | .error err => (some (wrapError "failed to import maintenance status" err), db)
  | .ok db =>
  match execEach execDeveloper
      (fun developer => "failed to import developer " ++ developer.UID)
      db transformed.Developers with
  | (some err, db) => (some err, db)
  | (none, db) =>
  execEach execMaintenanceLog
    (fun logEntry => "failed to import maintenance log " ++ logEntry.ID)
    db transformed.MaintenanceLogs

/-- A connection with an open transaction: what the destination holds and what
the transaction sees. -/
structure Session where
  committed : Database
  pending : Database
  deriving DecidableEq, Repr

/-- The call `pool.Begin`: the transaction starts from what the destination holds. -/
def Session.begin (db : Database) : Session :=
  { committed := db, pending := db }

/-- The call `tx.Commit`: when it fails the destination is left as it is, when it
succeeds the destination holds what the transaction saw. -/
def Session.commit (s : Session) (failure : Option GoError) : Option GoError × Session :=
  match failure with
  | some err => (some err, s)
  | none => (none, { committed := s.pending, pending := s.pending })

/-- The call `tx.Rollback`: what the transaction wrote is dropped; after a commit
nothing is left to drop. -/
def Session.rollback (s : Session) : Session :=
  { committed := s.committed, pending := s.committed }

/-- What the file and the destination give one run of the import. -/
structure ImportEnv where
  /-- The result of `readJSON(transformedPath, &transformed)`. -/
  readTransformed : Except GoError TransformedData
  /-- The error of `pgxpool.New`, if any. -/
  connect : Option GoError
  /-- The error of `pool.Begin`, if any. -/
  beginTx : Option GoError
  /-- The error of the statement `SET TIME ZONE 'UTC'`, if any. -/
  setTimeZone : Option GoError
  /-- The value of `NOW()` in the transaction, which PostgreSQL gives in whole
  microseconds. -/
  now : Time
  /-- The error of `tx.Commit`, if any. -/
  commit : Option GoError

/-- The part of `ImportToPostgres` that runs in the transaction, from
`SET TIME ZONE` to the commit. -/
def importTransaction (schema : Schema) (env : ImportEnv) (transformed : TransformedData)
    (tx : Session) : Option GoError × Session :=
  match env.setTimeZone with
  | some err => (some (wrapError "failed to set timezone" err), tx)
  | none =>
    match importStatements schema env.now transformed tx.pending with
    | (some err, pending) => (some err, { tx with pending := pending })
    | (none, pending) =>
      match Session.commit { tx with pending := pending } env.commit with
      | (some err, tx) => (some (wrapError "failed to commit import transaction" err), tx)
      | (none, tx) => (none, tx)

/-- The function `ImportToPostgres` of import.go: the error it returns, if any,
and what the destination holds afterwards.  The deferred `tx.Rollback` runs at
every return that follows `pool.Begin`. -/
def ImportToPostgres (schema : Schema) (env : ImportEnv) (db : Database) :
    Option GoError × Database :=
  match env.readTransformed with
  | .error err => (some (wrapError "failed to read transformed file" err), db)
  | .ok transformed =>
    match env.connect with
    | some err => (some (wrapError "failed to connect postgres" err), db)
    | none =>
      match env.beginTx with
      | some err => (some (wrapError "failed to begin transaction" err), db)
      | none =>
        let result := importTransaction schema env transformed (Session.begin db)
        (result.1, result.2.rollback.committed)

/-- The number of rows of every table. -/
def rowCounts (db : Database) : List (String × Nat) :=
  [("users", db.users.length), ("links", db.links.length), ("tags", db.tags.length),
   ("link_tags", db.linkTags.length), ("timeline_entries", db.timelineEntries.length),
   ("maintenance_status", db.maintenanceStatus.length),
   ("developers", db.developers.length), ("maintenance_logs", db.maintenanceLogs.length)]

/-- The indexes of the destination: the conflict targets of the statements and
the primary key of tags. -/
inductive Index where
  | userID
  | linkID
  | tagUserName
  | tagID
  | linkTag
  | timelineEntryID
  | maintenanceStatusID
  | developerUID
  | maintenanceLogID
  deriving DecidableEq, Repr

/-- The keys that an index holds, in the order of the rows. -/
def indexKeys (db : Database) : Index → List (List String)
  | .userID => db.users.map userKey
  | .linkID => db.links.map linkKey
  | .tagUserName => db.tags.map tagConflictKey
  | .tagID => db.tags.map tagPrimaryKey
  | .linkTag => db.linkTags.map linkTagConflictKey
  | .timelineEntryID => db.timelineEntries.map timelineEntryKey
  | .maintenanceStatusID => db.maintenanceStatus.map maintenanceStatusKey
  | .developerUID => db.developers.map developerKey
  | .maintenanceLogID => db.maintenanceLogs.map maintenanceLogKey

/-- A run of the import on the transformed scenario in which every call succeeds. -/
def scenarioImport : ImportEnv :=
  { readTransformed := .ok (TransformExport asciiStd 1000 scenario)
    connect := none, beginTx := none, setTimeZone := none, now := 2000, commit := none }

/-- The run `scenarioImport` with a commit that fails. -/
def scenarioImportNoCommit : ImportEnv :=
  { readTransformed := .ok (TransformExport asciiStd 1000 scenario)
    connect := none, beginTx := none, setTimeZone := none, now := 2000
    commit := some { code := "08006", message := "connection failure" } }

/-- One statement of the import with the row it writes. -/
inductive Statement where
  | user (row : UserRow)
  | link (row : LinkRow)
  | tag (row : TagRow)
  | linkTag (row : LinkTagRow)
  | timelineEntry (row : TimelineEntryRow)
  | maintenanceStatus (row : MaintenanceStatusRow)
  | developer (row : DeveloperRow)
  | maintenanceLog (row : MaintenanceLogRow)
  deriving DecidableEq, Repr

/-- The text that `ImportToPostgres` puts in front of the error of a statement. -/
def Statement.describe : Statement → String
  | .user row => "failed to import user " ++ row.ID
  | .link row => "failed to import link " ++ row.ID
  | .tag row => "failed to import tag " ++ row.ID
  | .linkTag row => "failed to import link_tag (" ++ row.LinkID ++ "," ++ row.TagID ++ ")"
  | .timelineEntry row => "failed to import timeline entry " ++ row.ID
  | .maintenanceStatus _ => "failed to import maintenance status"
  | .developer row => "failed to import developer " ++ row.UID
  | .maintenanceLog row => "failed to import maintenance log " ++ row.ID

/-- What a statement does to what the transaction sees. -/
def Statement.run (schema : Schema) (now : Time) (db : Database) :
    Statement → Except GoError Database
  | .user row => execUser db row
  | .link row => execLink schema db row
  | .tag row => execTag schema db row
  | .linkTag row => execLinkTag db row
  | .timelineEntry row => execTimelineEntry db row
  | .maintenanceStatus row => execMaintenanceStatus now db row
  | .developer row => execDeveloper db row
  | .maintenanceLog row => execMaintenanceLog db row

/-- The statements of one run of the import, in the order in which they are
executed. -/
def statements (transformed : TransformedData) : List Statement :=
  transformed.Users.map Statement.user ++ (transformed.Links.map Statement.link ++
    (transformed.Tags.map Statement.tag ++ (transformed.LinkTags.map Statement.linkTag ++
      (transformed.TimelineEntries.map Statement.timelineEntry ++
        (Statement.maintenanceStatus transformed.MaintenanceStatus ::
          (transformed.Developers.map Statement.developer ++
            transformed.MaintenanceLogs.map Statement.maintenanceLog))))))

/-- A list of statements executed one after the other, up to the first error. -/
def runAll (schema : Schema) (now : Time) :
    Database → List Statement → Option GoError × Database
  | db, [] => (none, db)
  | db, s :: rest =>
    match s.run schema now db with
    | .error err => (some (wrapError s.describe err), db)
    | .ok db' => runAll schema now db' rest

/-- The destination `db'` has every key that `db` has, in every index. -/
def KeyLe (db db' : Database) : Prop :=
  ∀ i k, k ∈ indexKeys db i → k ∈ indexKeys db' i

/-- The row of a statement is in the destination already, by its conflict target,
and so are the rows it refers to. -/
def Statement.ready (schema : Schema) (db : Database) : Statement → Prop
  | .user row => userKey row ∈ indexKeys db .userID
  | .link row => linkKey row ∈ indexKeys db .linkID ∧
      (schema.linksReferUsers = true → [row.UserID] ∈ indexKeys db .userID)
  | .tag row => tagConflictKey row ∈ indexKeys db .tagUserName
  | .linkTag row => linkTagConflictKey row ∈ indexKeys db .linkTag
  | .timelineEntry row => timelineEntryKey row ∈ indexKeys db .timelineEntryID ∧
      [row.LinkID] ∈ indexKeys db .linkID
  | .maintenanceStatus row => [row.ID] ∈ indexKeys db .maintenanceStatusID
  | .developer row => developerKey row ∈ indexKeys db .developerUID
  | .maintenanceLog row => maintenanceLogKey row ∈ indexKeys db .maintenanceLogID

/-- No stored tag is lost or gets a later created_at: every tag row of `db` is in
`db'` with its id, user id and name, and a created_at that is not later. -/
def TagsNotLater (db db' : Database) : Prop :=
  ∀ e ∈ db.tags, ∃ e' ∈ db'.tags,
    e'.ID = e.ID ∧ e'.UserID = e.UserID ∧ e'.Name = e.Name ∧ e'.CreatedAt ≤ e.CreatedAt

/-- A sequence of runs of the import, each on what the run before left. -/
def importMany (schema : Schema) (runs : List ImportEnv) (db : Database) : Database :=
  runs.foldl (fun d env => (ImportToPostgres schema env d).2) db

/-- What the destination holds after the run `scenarioImport` on the empty
destination. -/
def scenarioDatabase : Database :=
  (ImportToPostgres { linksReferUsers := true, tagsReferUsers := true } scenarioImport
    emptyDatabase).2

/-- A second run of the import on the transformed scenario, at a later time. -/
def scenarioImportAgain : ImportEnv :=
  { readTransformed := .ok (TransformExport asciiStd 1000 scenario)
    connect := none, beginTx := none, setTimeZone := none, now := 3000, commit := none }

/-- A transformed file whose link_tags row refers to a link that does not exist. -/
def danglingImport : ImportEnv :=
  { readTransformed := .ok
      { GeneratedAt := 1000
        Users := [{ ID := "u1", Email := none, DisplayName := none, CreatedAt := 1000,
                    UpdatedAt := 1000 }]
        Links := [], Tags := []
        LinkTags := [{ LinkID := "l9", TagID := "t9", CreatedAt := 1000 }]
        TimelineEntries := []
        MaintenanceStatus := { ID := "current", IsMaintenanceMode := false, Reason := none,
                               StartedAt := none, StartedBy := none }
        Developers := [], MaintenanceLogs := [], Report := [] }
    connect := none, beginTx := none, setTimeZone := none, now := 2000, commit := none }

/-- A destination with one tag of user `u1`, created at 20000. -/
def oneTag : Database :=
  { emptyDatabase with
    tags := [{ ID := "t1", UserID := "u1", Name := "Work", CreatedAt := 20000 }] }

/-- The created_at that a stored tag row has after the tag statements of the
rows `incoming`: the least of its own created_at and of the instants that the
destination holds for the incoming rows with its (user_id, name). -/
def leastCreatedAt (e : TagRow) (incoming : List TagRow) : Time :=
  (incoming.filter (fun r => decide (tagConflictKey r = tagConflictKey e))).foldl
    (fun c r => min c (pgTimestamp r.CreatedAt)) e.CreatedAt

/-- The rows of the tag statements of a list of statements, in their order. -/
def tagRows (l : List Statement) : List TagRow :=
  l.filterMap (fun s => match s with
    | .tag row => some row
    | _ => none)

/-- A destination with one tag of user `u1`, created 2000 nanoseconds (two whole
microseconds) after the zero time. -/
def wholeMicroTag : Database :=
  { emptyDatabase with
    tags := [{ ID := "t1", UserID := "u1", Name := "Work", CreatedAt := 2000 }] }

/-- A transformed file with one tag of user `u1` and the same name, created
1999 nanoseconds after the zero time, one nanosecond before the stored tag. -/
def subMicroData : TransformedData :=
  { GeneratedAt := 5000
    Users := [], Links := []
    Tags := [{ ID := "t9", UserID := "u1", Name := "Work", CreatedAt := 1999 }]
    LinkTags := [], TimelineEntries := []
    MaintenanceStatus := { ID := "current", IsMaintenanceMode := false, Reason := none,
                           StartedAt := none, StartedBy := none }
    Developers := [], MaintenanceLogs := [], Report := [] }

/-- A run of the import on `subMicroData` in which every call succeeds. -/
def subMicroImport : ImportEnv :=
  { readTransformed := .ok subMicroData
    connect := none, beginTx := none, setTimeZone := none, now := 6000, commit := none }

/-- What the destination `wholeMicroTag` holds after the run `subMicroImport`: the
stored tag with the created_at 1000, and the row of maintenance_status. -/
def subMicroResult : Database :=
  { emptyDatabase with
    tags := [{ ID := "t1", UserID := "u1", Name := "Work", CreatedAt := 1000 }]
    maintenanceStatus :=
      [{ row := { ID := "current", IsMaintenanceMode := false, Reason := none,
                  StartedAt := none, StartedBy := none }
         UpdatedAt := 6000 }] }

/-! ## The names embedded in the links, in order -/

/-- The entry the loop over a link's tags synthesizes for one element of the
tags array when `tagMap` has nothing under its key: nothing for a blank name. -/
def embeddedTag (std : GoStd) (userID : String) (createdAt : Time) (tagAny : Val) :
    List (String × TagRow) :=
  if sanitizeTagName (parseString tagAny) = "" then []
  else
    [(tagKey std userID (sanitizeTagName (parseString tagAny)),
      synthTag std userID (sanitizeTagName (parseString tagAny)) createdAt)]

/-- The names embedded in one link, in the order of its tags array, each with
its key and the tag the loop would synthesize for it. -/
def embeddedTags (std : GoStd) (now : Time) (d : FirestoreDocument) : List (String × TagRow) :=
  (toSlice (field d.Data "tags")).flatMap
    (embeddedTag std (parseString (field d.Data "userId")) (linkCreatedAt std now d))

/-- The names embedded in the kept links, in the order of the links collection
and, within a link, of its tags array.  `mapLookup` on this list gives the first
occurrence of a key. -/
def embeddedTagsAll (std : GoStd) (now : Time) (exported : FirestoreExport) :
    List (String × TagRow) :=
  (exported.collection "links").flatMap
    (fun d => if linkDropped d then [] else embeddedTags std now d)

/-- A tag document "work" of user `u1` and a link of `u1` whose tags array holds
"Work" and "WORK". -/
def namedByDocument : FirestoreExport :=
  { ExportedAt := 0
    Collections :=
      [("tags", [{ ID := "t1", Data := [("userId", Val.str "u1"), ("name", Val.str "work")] }]),
       ("links",
        [{ ID := "l1", Data := [("userId", Val.str "u1"), ("url", Val.str "http://x"),
            ("tags", Val.arr [Val.str "Work", Val.str "WORK"])] }])]
    MaintenanceCurrent := none }

/-- The link document of `namedByDocument`. -/
def namedByDocumentLink : FirestoreDocument :=
  { ID := "l1", Data := [("userId", Val.str "u1"), ("url", Val.str "http://x"),
      ("tags", Val.arr [Val.str "Work", Val.str "WORK"])] }

/-! ## Example snapshot for the MaintenanceStatus row -/

/-- A snapshot whose singleton document sets the maintenance mode, with a reason
and a name that have blanks around them. -/
def maintenanceOn : FirestoreExport :=
  { ExportedAt := 0
    Collections := []
    MaintenanceCurrent := some
      { ID := "current"
        Data := [("isMaintenanceMode", Val.bool true), ("reason", Val.str " upgrade "),
          ("startedAt", Val.time 5), ("startedBy", Val.str "admin ")] } }

/-! ## Lemmas on folds, maps and sorting -/

theorem foldl_invariant {σ α : Type} (P : σ → Prop) (f : σ → α → σ) (l : List α) (init : σ)
    (h0 : P init) (hstep : ∀ s a, a ∈ l → P s → P (f s a)) : P (l.foldl f init) := by
  induction l generalizing init with
  | nil => simpa using h0
  | cons x xs ih =>
    simp only [List.foldl_cons]
    apply ih
    · exact hstep init x (List.mem_cons_self _ _) h0
    · intro s a ha hs
      exact hstep s a (List.mem_cons_of_mem _ ha) hs

theorem mem_mapStore {V : Type} {m : GoMap V} {k : String} {v : V} {p : String × V}
    (h : p ∈ mapStore m k v) : p = (k, v) ∨ p ∈ m := by
  induction m with
  | nil => simpa [mapStore] using h
  | cons q rest ih =>
    obtain ⟨k', v'⟩ := q
    unfold mapStore at h
    split at h
    · rcases List.mem_cons.1 h with h | h
      · exact Or.inl h
      · exact Or.inr (List.mem_cons_of_mem _ h)
    · rcases List.mem_cons.1 h with h | h
      · exact Or.inr (h ▸ List.mem_cons_self _ _)
      · rcases ih h with h | h
        · exact Or.inl h
        · exact Or.inr (List.mem_cons_of_mem _ h)

theorem mapStore_keys {V : Type} (m : GoMap V) (k : String) (v : V) :
    (mapStore m k v).map Prod.fst =
      if k ∈ m.map Prod.fst then m.map Prod.fst else m.map Prod.fst ++ [k] := by
  induction m with
  | nil => simp [mapStore]
  | cons q rest ih =>
    obtain ⟨k', v'⟩ := q
    unfold mapStore
    by_cases hk : k' = k
    · subst hk; simp
    · have hk' : ¬ k = k' := fun h => hk h.symm
      simp only [hk, if_false, List.map_cons, ih, List.mem_cons, hk', false_or]
      split <;> simp

theorem mapStore_nodup {V : Type} {m : GoMap V} (k : String) (v : V)
    (h : (m.map Prod.fst).Nodup) : ((mapStore m k v).map Prod.fst).Nodup := by
  rw [mapStore_keys]
  split
  · exact h
  · rename_i hk
    exact List.Nodup.append h (List.nodup_singleton k) (by simpa using hk)

theorem mapLookup_eq_none {V : Type} {m : GoMap V} {k : String} :
    mapLookup m k = none ↔ k ∉ m.map Prod.fst := by
  induction m with
  | nil => simp [mapLookup]
  | cons q rest ih =>
    obtain ⟨k', v'⟩ := q
    unfold mapLookup
    by_cases hk : k' = k
    · simp [hk]
    · have hk' : ¬ k = k' := fun h => hk h.symm
      simp [hk, hk', ih]

theorem mapLookup_mem {V : Type} {m : GoMap V} {k : String} {v : V}
    (h : mapLookup m k = some v) : (k, v) ∈ m := by
  induction m with
  | nil => simp [mapLookup] at h
  | cons q rest ih =>
    obtain ⟨k', v'⟩ := q
    unfold mapLookup at h
    by_cases hk : k' = k
    · simp [hk] at h; simp [hk, h]
    · simp [hk] at h
      exact List.mem_cons_of_mem _ (ih h)

theorem mapLookup_of_mem {V : Type} {m : GoMap V} {k : String} {v : V}
    (hnd : (m.map Prod.fst).Nodup) (h : (k, v) ∈ m) : mapLookup m k = some v := by
  induction m with
  | nil => simp at h
  | cons q rest ih =>
    obtain ⟨k', v'⟩ := q
    simp only [List.map_cons, List.nodup_cons, List.mem_map, not_exists, not_and] at hnd
    unfold mapLookup
    rcases List.mem_cons.1 h with h | h
    · cases h; simp
    · have hk : k' ≠ k := fun e => hnd.1 (k, v) h e.symm
      simp [hk, ih hnd.2 h]

theorem Keyed.nil {V : Type} (key : V → String) : Keyed key ([] : GoMap V) := by
  simp [Keyed]

theorem Keyed.store {V : Type} {key : V → String} {m : GoMap V} (h : Keyed key m) (v : V) :
    Keyed key (mapStore m (key v) v) := by
  refine ⟨mapStore_nodup _ _ h.1, ?_⟩
  intro p hp
  rcases mem_mapStore hp with hp | hp
  · rw [hp]
  · exact h.2 p hp

theorem Keyed.pairwise_values {V : Type} {key : V → String} {m : GoMap V} (h : Keyed key m) :
    (mapValues m).Pairwise (fun a b => key a ≠ key b) := by
  have h1 : m.Pairwise (fun p q => p.1 ≠ q.1) := List.pairwise_map.1 h.1
  unfold mapValues
  rw [List.pairwise_map]
  refine List.Pairwise.imp_of_mem ?_ h1
  intro p q hp hq hpq
  rw [← h.2 p hp, ← h.2 q hq]
  exact hpq

theorem sortSlice_perm {α : Type} (less : α → α → Bool) (xs : List α) :
    (sortSlice less xs).Perm xs :=
  List.perm_insertionSort _ xs

theorem mem_sortSlice {α : Type} {less : α → α → Bool} {xs : List α} {x : α} :
    x ∈ sortSlice less xs ↔ x ∈ xs :=
  (sortSlice_perm less xs).mem_iff

theorem length_sortSlice {α : Type} (less : α → α → Bool) (xs : List α) :
    (sortSlice less xs).length = xs.length :=
  (sortSlice_perm less xs).length_eq

/-! ## SHA-1 on the test vectors of FIPS 180 -/

set_option maxRecDepth 100000 in
theorem sha1Sum_abc :
    hexEncodeToString (sha1Sum (stringBytes "abc")) =
      "a9993e364706816aba3e25717850c26c9cd0d89d" := by
  decide!

set_option maxRecDepth 100000 in
theorem sha1Sum_two_blocks :
    hexEncodeToString (sha1Sum (stringBytes
      "abcdbcdecdefdefgefghfghighijhijkijkljklmklmnlmnomnopnopq")) =
      "84983e441c3bd26ebaae4aa1f95129e5e54670f1" := by
  decide!

set_option maxRecDepth 100000 in
theorem sha1Sum_utf8 :
    hexEncodeToString (sha1Sum (stringBytes "é€😀")) =
      "c18ebd62bacc0aac83670707d9204486ec605731" := by
  decide!

/-! ## The two maps stay keyed -/

theorem putTag_none {std : GoStd} {st : TagState} {tag : TagRow}
    (h : mapLookup st.tagMap (tagKey std tag.UserID tag.Name) = none) :
    putTag std st tag =
      { tagMap := mapStore st.tagMap (tagKey std tag.UserID tag.Name) tag
        duplicateTagCount := st.duplicateTagCount } := by
  simp [putTag, h]

theorem putTag_some_lt {std : GoStd} {st : TagState} {tag existing : TagRow}
    (h : mapLookup st.tagMap (tagKey std tag.UserID tag.Name) = some existing)
    (hlt : tag.CreatedAt < existing.CreatedAt) :
    putTag std st tag =
      { tagMap := mapStore st.tagMap (tagKey std tag.UserID tag.Name) tag
        duplicateTagCount := st.duplicateTagCount + 1 } := by
  simp [putTag, h, hlt]

theorem putTag_some_ge {std : GoStd} {st : TagState} {tag existing : TagRow}
    (h : mapLookup st.tagMap (tagKey std tag.UserID tag.Name) = some existing)
    (hge : ¬ tag.CreatedAt < existing.CreatedAt) :
    putTag std st tag =
      { tagMap := st.tagMap, duplicateTagCount := st.duplicateTagCount + 1 } := by
  simp [putTag, h, hge]

theorem tagStep_dropped {std : GoStd} {now : Time} {st : TagState} {d : FirestoreDocument}
    (h : tagDropped d) : tagStep std now st d = st := by
  unfold tagDropped at h
  simp [tagStep, h]

theorem tagStep_kept {std : GoStd} {now : Time} {st : TagState} {d : FirestoreDocument}
    (h : ¬ tagDropped d) : tagStep std now st d = putTag std st (tagRowOf std now d) := by
  unfold tagDropped at h
  simp [tagStep, h, tagRowOf]

theorem linkTagStep_blank {std : GoStd} {linkID userID : String} {createdAt : Time}
    {st : GoMap TagRow × GoMap LinkTagRow} {tagAny : Val}
    (h : sanitizeTagName (parseString tagAny) = "") :
    linkTagStep std linkID userID createdAt st tagAny = st := by
  simp [linkTagStep, h]

theorem linkTagStep_found {std : GoStd} {linkID userID : String} {createdAt : Time}
    {st : GoMap TagRow × GoMap LinkTagRow} {tagAny : Val} {tag : TagRow}
    (h : sanitizeTagName (parseString tagAny) ≠ "")
    (hl : mapLookup st.1 (tagKey std userID (sanitizeTagName (parseString tagAny))) = some tag) :
    linkTagStep std linkID userID createdAt st tagAny =
      (st.1, mapStore st.2 (linkID ++ "|" ++ tag.ID)
        { LinkID := linkID, TagID := tag.ID, CreatedAt := createdAt }) := by
  simp [linkTagStep, h, hl]

theorem linkTagStep_new {std : GoStd} {linkID userID : String} {createdAt : Time}
    {st : GoMap TagRow × GoMap LinkTagRow} {tagAny : Val}
    (h : sanitizeTagName (parseString tagAny) ≠ "")
    (hl : mapLookup st.1 (tagKey std userID (sanitizeTagName (parseString tagAny))) = none) :
    linkTagStep std linkID userID createdAt st tagAny =
      (mapStore st.1 (tagKey std userID (sanitizeTagName (parseString tagAny)))
          (synthTag std userID (sanitizeTagName (parseString tagAny)) createdAt),
        mapStore st.2
          (linkID ++ "|" ++ deterministicTagID std userID (sanitizeTagName (parseString tagAny)))
          { LinkID := linkID
            TagID := deterministicTagID std userID (sanitizeTagName (parseString tagAny))
            CreatedAt := createdAt }) := by
  simp [linkTagStep, h, hl, synthTag]

theorem linkStep_dropped {std : GoStd} {now : Time} {st : LinkState} {d : FirestoreDocument}
    (h : linkDropped d) : linkStep std now st d = st := by
  unfold linkDropped at h
  simp [linkStep, h]

theorem linkStep_kept {std : GoStd} {now : Time} {st : LinkState} {d : FirestoreDocument}
    (h : ¬ linkDropped d) :
    linkStep std now st d =
      { Links := st.Links ++ [linkRowOf std now d]
        tagMap := (linkTagsMaps std now st d).1
        linkTagMap := (linkTagsMaps std now st d).2
        TimelineEntries := (toSlice (field d.Data "timeline")).enum.foldl
          (timelineStep std d.ID (linkCreatedAt std now d)) st.TimelineEntries } := by
  unfold linkDropped at h
  simp [linkStep, h, linkRowOf, linkTagsMaps, linkCreatedAt]

theorem putTag_keyed (std : GoStd) (st : TagState) (tag : TagRow)
    (h : Keyed (tagRowKey std) st.tagMap) : Keyed (tagRowKey std) (putTag std st tag).tagMap := by
  cases hl : mapLookup st.tagMap (tagKey std tag.UserID tag.Name) with
  | none => rw [putTag_none hl]; exact Keyed.store h tag
  | some existing =>
    by_cases hlt : tag.CreatedAt < existing.CreatedAt
    · rw [putTag_some_lt hl hlt]; exact Keyed.store h tag
    · rw [putTag_some_ge hl hlt]; exact h

theorem tagStep_keyed (std : GoStd) (now : Time) (st : TagState) (d : FirestoreDocument)
    (h : Keyed (tagRowKey std) st.tagMap) :
    Keyed (tagRowKey std) (tagStep std now st d).tagMap := by
  by_cases hd : tagDropped d
  · rw [tagStep_dropped hd]; exact h
  · rw [tagStep_kept hd]; exact putTag_keyed std st _ h

theorem tagsLoop_keyed (std : GoStd) (now : Time) (exported : FirestoreExport) :
    Keyed (tagRowKey std) (tagsLoop std now exported).tagMap :=
  foldl_invariant (fun st => Keyed (tagRowKey std) st.tagMap) _ _ _ (Keyed.nil _)
    (fun st d _ h => tagStep_keyed std now st d h)

theorem linkTagStep_keyed (std : GoStd) (linkID userID : String) (createdAt : Time)
    (st : GoMap TagRow × GoMap LinkTagRow) (tagAny : Val)
    (h : Keyed (tagRowKey std) st.1 ∧ Keyed linkTagRowKey st.2) :
    Keyed (tagRowKey std) (linkTagStep std linkID userID createdAt st tagAny).1 ∧
      Keyed linkTagRowKey (linkTagStep std linkID userID createdAt st tagAny).2 := by
  by_cases hn : sanitizeTagName (parseString tagAny) = ""
  · rw [linkTagStep_blank hn]; exact h
  · cases hl : mapLookup st.1 (tagKey std userID (sanitizeTagName (parseString tagAny))) with
    | none =>
      rw [linkTagStep_new hn hl]
      exact ⟨Keyed.store h.1 (synthTag std userID _ createdAt),
        Keyed.store h.2 { LinkID := linkID, TagID := _, CreatedAt := createdAt }⟩
    | some tag =>
      rw [linkTagStep_found hn hl]
      exact ⟨h.1, Keyed.store h.2 { LinkID := linkID, TagID := tag.ID, CreatedAt := createdAt }⟩

theorem linkStep_keyed (std : GoStd) (now : Time) (st : LinkState) (d : FirestoreDocument)
    (h : Keyed (tagRowKey std) st.tagMap ∧ Keyed linkTagRowKey st.linkTagMap) :
    Keyed (tagRowKey std) (linkStep std now st d).tagMap ∧
      Keyed linkTagRowKey (linkStep std now st d).linkTagMap := by
  by_cases hd : linkDropped d
  · rw [linkStep_dropped hd]; exact h
  · rw [linkStep_kept hd]
    exact foldl_invariant (fun (m : GoMap TagRow × GoMap LinkTagRow) =>
      Keyed (tagRowKey std) m.1 ∧ Keyed linkTagRowKey m.2) _ _ _ h
      (fun m a _ hm => linkTagStep_keyed std _ _ _ m a hm)

theorem linksLoop_keyed (std : GoStd) (now : Time) (exported : FirestoreExport) :
    Keyed (tagRowKey std) (linksLoop std now exported).tagMap ∧
      Keyed linkTagRowKey (linksLoop std now exported).linkTagMap :=
  foldl_invariant (fun (st : LinkState) =>
    Keyed (tagRowKey std) st.tagMap ∧ Keyed linkTagRowKey st.linkTagMap) _ _ _
    ⟨tagsLoop_keyed std now exported, Keyed.nil _⟩
    (fun st d _ h => linkStep_keyed std now st d h)

/-! ## The fields of the output -/

theorem mem_Tags {std : GoStd} {now : Time} {exported : FirestoreExport} {r : TagRow} :
    r ∈ (TransformExport std now exported).Tags ↔
      r ∈ mapValues (linksLoop std now exported).tagMap := by
  unfold TransformExport
  exact mem_sortSlice

theorem mem_LinkTags {std : GoStd} {now : Time} {exported : FirestoreExport} {r : LinkTagRow} :
    r ∈ (TransformExport std now exported).LinkTags ↔
      r ∈ mapValues (linksLoop std now exported).linkTagMap := by
  unfold TransformExport
  exact mem_sortSlice

theorem mem_Links {std : GoStd} {now : Time} {exported : FirestoreExport} {r : LinkRow} :
    r ∈ (TransformExport std now exported).Links ↔ r ∈ (linksLoop std now exported).Links := by
  unfold TransformExport
  exact mem_sortSlice

theorem mem_TimelineEntries {std : GoStd} {now : Time} {exported : FirestoreExport}
    {r : TimelineEntryRow} :
    r ∈ (TransformExport std now exported).TimelineEntries ↔
      r ∈ (linksLoop std now exported).TimelineEntries := by
  unfold TransformExport
  exact mem_sortSlice

theorem Tags_perm (std : GoStd) (now : Time) (exported : FirestoreExport) :
    (TransformExport std now exported).Tags.Perm
      (mapValues (linksLoop std now exported).tagMap) := by
  unfold TransformExport
  exact sortSlice_perm _ _

theorem LinkTags_perm (std : GoStd) (now : Time) (exported : FirestoreExport) :
    (TransformExport std now exported).LinkTags.Perm
      (mapValues (linksLoop std now exported).linkTagMap) := by
  unfold TransformExport
  exact sortSlice_perm _ _

/-! ## C1 -/

/-- C1. In the Tags list of every transformed dataset no two rows (rows at two
different positions) have the same userId and the same lower(trim(name)). -/
theorem tags_unique_per_user_and_normalized_name (std : GoStd) (now : Time)
    (exported : FirestoreExport) :
    (TransformExport std now exported).Tags.Pairwise (fun a b =>
      ¬ (a.UserID = b.UserID ∧
          toLower std (trimSpace a.Name) = toLower std (trimSpace b.Name))) := by
  have hk := (linksLoop_keyed std now exported).1.pairwise_values
  have hp : (mapValues (linksLoop std now exported).tagMap).Pairwise (fun a b =>
      ¬ (a.UserID = b.UserID ∧
          toLower std (trimSpace a.Name) = toLower std (trimSpace b.Name))) := by
    refine hk.imp ?_
    intro a b hab hex
    apply hab
    unfold tagRowKey tagKey
    rw [hex.1, hex.2]
  refine ((Tags_perm std now exported).pairwise_iff ?_).2 hp
  intro a b hab hex
  exact hab ⟨hex.1.symm, hex.2.symm⟩

/-! ## C2, C3, C4: the key string does not determine the pair -/

theorem tagsLoop_collidingTags (std : GoStd) (now : Time) :
    tagsLoop std now collidingTags =
      { tagMap := [("a|b|c", { ID := "t1", UserID := "a|b", Name := "c", CreatedAt := now })]
        duplicateTagCount := 1 } := by
  have e : tagsLoop std now collidingTags =
      tagStep std now
        (tagStep std now { tagMap := [], duplicateTagCount := 0 }
          { ID := "t1", Data := [("userId", Val.str "a|b"), ("name", Val.str "c")] })
        { ID := "t2", Data := [("userId", Val.str "a"), ("name", Val.str "b|c")] } := rfl
  have s1 : tagStep std now { tagMap := [], duplicateTagCount := 0 }
      { ID := "t1", Data := [("userId", Val.str "a|b"), ("name", Val.str "c")] } =
      { tagMap := [("a|b|c", { ID := "t1", UserID := "a|b", Name := "c", CreatedAt := now })]
        duplicateTagCount := 0 } := rfl
  have h2 : ¬ tagDropped
      { ID := "t2", Data := [("userId", Val.str "a"), ("name", Val.str "b|c")] } := by
    decide
  rw [e, s1, tagStep_kept h2]
  have hl : mapLookup
      [("a|b|c", ({ ID := "t1", UserID := "a|b", Name := "c", CreatedAt := now } : TagRow))]
      (tagKey std "a" "b|c") =
      some { ID := "t1", UserID := "a|b", Name := "c", CreatedAt := now } := rfl
  exact putTag_some_ge hl (lt_irrefl _)

theorem linksLoop_collidingTags (std : GoStd) (now : Time) :
    linksLoop std now collidingTags =
      { Links := [], tagMap := (tagsLoop std now collidingTags).tagMap, linkTagMap := [],
        TimelineEntries := [] } := rfl

/-- C2, at the failing input.  The documents `t1` (user `a|b`, name `c`) and `t2`
(user `a`, name `b|c`) are both valid and belong to different users, and the
only Tag row kept is that of `t1`: the document `t2`, alone with its pair
(userId, lower(trim(name))), has no Tag row. -/
theorem colliding_tag_documents_keep_one_row (std : GoStd) (now : Time) :
    (TransformExport std now collidingTags).Tags =
      [{ ID := "t1", UserID := "a|b", Name := "c", CreatedAt := now }] := by
  unfold TransformExport
  simp only [linksLoop_collidingTags, tagsLoop_collidingTags]
  rfl

/-- C3, at the failing input.  Both tag documents are valid and their pairs
(userId, lower(trim(name))) differ, so no document loses a collision of pairs;
the last line of the report still counts one merged duplicate. -/
theorem colliding_tag_documents_count_one_duplicate (std : GoStd) (now : Time) :
    (∀ d ∈ collidingTags.collection "tags", ¬ tagDropped d) ∧
    ((collidingTags.collection "tags").map (fun d =>
        (parseString (field d.Data "userId"),
          toLower std (trimSpace (parseString (field d.Data "name")))))).Nodup ∧
    (TransformExport std now collidingTags).Report.getLast? =
      some "duplicate_tags_merged: 1" := by
  refine ⟨by decide, ?_, ?_⟩
  · have e : (collidingTags.collection "tags").map (fun d =>
        (parseString (field d.Data "userId"),
          toLower std (trimSpace (parseString (field d.Data "name"))))) =
        [("a|b", "c"), ("a", "b|c")] := rfl
    rw [e]
    decide
  · unfold TransformExport
    simp only [tagsLoop_collidingTags]
    rfl

theorem linksLoop_collidingLinks (std : GoStd) (now : Time) :
    linksLoop std now collidingLinks =
      { Links := [linkRowOf std now { ID := "l1", Data := [("userId", Val.str "a"),
            ("url", Val.str "http://x"), ("tags", Val.arr [Val.str "b|c"])] },
          linkRowOf std now { ID := "l2", Data := [("userId", Val.str "a"),
            ("url", Val.str "http://y"), ("tags", Val.arr [Val.str "b|c"])] }]
        tagMap := [("a|b|c", { ID := "t1", UserID := "a|b", Name := "c", CreatedAt := now })]
        linkTagMap := [("l1|t1", { LinkID := "l1", TagID := "t1", CreatedAt := now }),
          ("l2|t1", { LinkID := "l2", TagID := "t1", CreatedAt := now })]
        TimelineEntries := [] } := rfl

/-- C4, at the failing input.  The two kept links `l1` and `l2` of user `a` both
embed the name `b|c`; their LinkTag rows carry the same tagId `t1`, the tag of
user `a|b`, and the Tags list has no row of user `a` at all. -/
theorem colliding_link_tags_use_other_users_tag (std : GoStd) (now : Time) :
    (TransformExport std now collidingLinks).Tags =
      [{ ID := "t1", UserID := "a|b", Name := "c", CreatedAt := now }] ∧
    (TransformExport std now collidingLinks).LinkTags =
      [{ LinkID := "l1", TagID := "t1", CreatedAt := now },
       { LinkID := "l2", TagID := "t1", CreatedAt := now }] := by
  unfold TransformExport
  simp only [linksLoop_collidingLinks]
  constructor
  · rfl
  · simp [sortSlice, mapValues, List.insertionSort, List.orderedInsert]
    decide

/-! ## C5, C6: the synthesized tag id -/

theorem putTag_mem {std : GoStd} {st : TagState} {tag : TagRow} {p : String × TagRow}
    (h : p ∈ (putTag std st tag).tagMap) : p.2 = tag ∨ p ∈ st.tagMap := by
  cases hl : mapLookup st.tagMap (tagKey std tag.UserID tag.Name) with
  | none =>
    rw [putTag_none hl] at h
    rcases mem_mapStore h with h | h
    · exact Or.inl (by rw [h])
    · exact Or.inr h
  | some existing =>
    by_cases hlt : tag.CreatedAt < existing.CreatedAt
    · rw [putTag_some_lt hl hlt] at h
      rcases mem_mapStore h with h | h
      · exact Or.inl (by rw [h])
      · exact Or.inr h
    · rw [putTag_some_ge hl hlt] at h
      exact Or.inr h

theorem tagsLoop_provenance (std : GoStd) (now : Time) (exported : FirestoreExport) :
    ∀ p ∈ (tagsLoop std now exported).tagMap,
      ∃ d ∈ exported.collection "tags", ¬ tagDropped d ∧ p.2 = tagRowOf std now d := by
  refine foldl_invariant (fun (st : TagState) => ∀ p ∈ st.tagMap,
    ∃ d ∈ exported.collection "tags", ¬ tagDropped d ∧ p.2 = tagRowOf std now d) _ _ _ ?_ ?_
  · intro p hp
    simp at hp
  · intro st d hd ih p hp
    by_cases hdrop : tagDropped d
    · rw [tagStep_dropped hdrop] at hp
      exact ih p hp
    · rw [tagStep_kept hdrop] at hp
      rcases putTag_mem hp with h | h
      · exact ⟨d, hd, hdrop, h⟩
      · exact ih p h

theorem linkTagStep_mem_tagMap {std : GoStd} {linkID userID : String} {createdAt : Time}
    {st : GoMap TagRow × GoMap LinkTagRow} {tagAny : Val} {p : String × TagRow}
    (h : p ∈ (linkTagStep std linkID userID createdAt st tagAny).1) :
    p ∈ st.1 ∨ (sanitizeTagName (parseString tagAny) ≠ "" ∧
      p.2 = synthTag std userID (sanitizeTagName (parseString tagAny)) createdAt) := by
  by_cases hn : sanitizeTagName (parseString tagAny) = ""
  · rw [linkTagStep_blank hn] at h
    exact Or.inl h
  · cases hl : mapLookup st.1 (tagKey std userID (sanitizeTagName (parseString tagAny))) with
    | none =>
      rw [linkTagStep_new hn hl] at h
      rcases mem_mapStore h with h | h
      · exact Or.inr ⟨hn, by rw [h]⟩
      · exact Or.inl h
    | some tag =>
      rw [linkTagStep_found hn hl] at h
      exact Or.inl h

theorem linksLoop_provenance (std : GoStd) (now : Time) (exported : FirestoreExport) :
    ∀ p ∈ (linksLoop std now exported).tagMap, TagProvenance std now exported p.2 := by
  refine foldl_invariant (fun (st : LinkState) => ∀ p ∈ st.tagMap,
    TagProvenance std now exported p.2) _ _ _ ?_ ?_
  · intro p hp
    exact Or.inl (tagsLoop_provenance std now exported p hp)
  · intro st d hd ih
    by_cases hdrop : linkDropped d
    · rw [linkStep_dropped hdrop]
      exact ih
    · rw [linkStep_kept hdrop]
      refine foldl_invariant (fun (m : GoMap TagRow × GoMap LinkTagRow) => ∀ p ∈ m.1,
        TagProvenance std now exported p.2) _ _ _ ih ?_
      intro m tagAny htag ihm p hp
      rcases linkTagStep_mem_tagMap hp with h | h
      · exact ihm p h
      · exact Or.inr ⟨d, hd, hdrop, tagAny, htag, h.1, h.2⟩

theorem length_beBytes (k x : Nat) : (beBytes k x).length = k := by
  induction k with
  | zero => rfl
  | succ k ih => simp [beBytes, ih]

theorem length_sha1Sum (msg : List Nat) : (sha1Sum msg).length = 20 := by
  simp [sha1Sum, length_beBytes]

theorem length_hexEncodeToString (bs : List Nat) :
    (hexEncodeToString bs).data.length = 2 * bs.length := by
  unfold hexEncodeToString
  induction bs with
  | nil => rfl
  | cons b bs ih =>
    simp only [List.flatMap_cons, List.length_append, List.length_cons, List.length_nil] at ih ⊢
    omega

theorem length_deterministicTagID (std : GoStd) (userID tagName : String) :
    (deterministicTagID std userID tagName).length = 24 := by
  unfold deterministicTagID
  simp only [String.length_append, String.length, List.length_take,
    length_hexEncodeToString, length_sha1Sum]
  rfl

theorem hexDigit_mem (n : Nat) (h : n < 16) : hexDigit n ∈ "0123456789abcdef".data := by
  interval_cases n <;> decide

theorem hexEncodeToString_lower (bs : List Nat) :
    ∀ c ∈ (hexEncodeToString bs).data, c ∈ "0123456789abcdef".data := by
  intro c hc
  unfold hexEncodeToString at hc
  simp only [List.mem_flatMap, List.mem_cons, List.mem_singleton, List.not_mem_nil,
    or_false] at hc
  obtain ⟨b, _, hb⟩ := hc
  rcases hb with hb | hb
  · rw [hb]; exact hexDigit_mem _ (Nat.mod_lt _ (by norm_num))
  · rw [hb]; exact hexDigit_mem _ (Nat.mod_lt _ (by norm_num))

/-- C5. Every row of the Tags list is either the row of a kept top-level tag
document or was synthesized from a name embedded in a kept link; in the second
case its id is "tag_" followed by the first 20 characters of the lower-case
hexadecimal SHA-1 digest of userId + ":" + lower(trim(name)), so it has 24
characters, the last 20 of them in 0-9a-f, and is a function of the userId and
of lower(trim(name)) alone. -/
theorem synthesized_tag_id (std : GoStd) (now : Time) (exported : FirestoreExport)
    (r : TagRow) (hr : r ∈ (TransformExport std now exported).Tags) :
    (∃ d ∈ exported.collection "tags", ¬ tagDropped d ∧ r = tagRowOf std now d) ∨
    (∃ d ∈ exported.collection "links", ¬ linkDropped d ∧
      ∃ tagAny ∈ toSlice (field d.Data "tags"),
        trimSpace (parseString tagAny) ≠ "" ∧
        r.UserID = parseString (field d.Data "userId") ∧
        r.Name = trimSpace (parseString tagAny) ∧
        r.ID = "tag_" ++ String.mk ((hexEncodeToString (sha1Sum (stringBytes
          (parseString (field d.Data "userId") ++ ":" ++
            toLower std (trimSpace (parseString tagAny)))))).data.take 20) ∧
        r.ID.length = 24 ∧
        ∀ c ∈ r.ID.data.drop 4, c ∈ "0123456789abcdef".data) := by
  rw [mem_Tags] at hr
  unfold mapValues at hr
  obtain ⟨p, hp, rfl⟩ := List.mem_map.1 hr
  rcases linksLoop_provenance std now exported p hp with h | h
  · exact Or.inl h
  · obtain ⟨d, hd, hdrop, tagAny, htag, hn, hrow⟩ := h
    refine Or.inr ⟨d, hd, hdrop, tagAny, htag, hn, ?_, ?_, ?_, ?_, ?_⟩
    · rw [hrow]; rfl
    · rw [hrow]; rfl
    · rw [hrow]; rfl
    · rw [hrow]; exact length_deterministicTagID std _ _
    · rw [hrow]
      intro c hc
      have hc' : c ∈ ((hexEncodeToString (sha1Sum (stringBytes
          (parseString (field d.Data "userId") ++ ":" ++
            toLower std (sanitizeTagName (parseString tagAny)))))).data.take 20) := by
        simpa [synthTag, deterministicTagID] using hc
      exact hexEncodeToString_lower _ c (List.mem_of_mem_take hc')

set_option maxRecDepth 100000 in
/-- C5, at the scenario: the tag of user `u1` synthesized from the name `"A"`. -/
theorem synthesized_tag_id_witness :
    ({ ID := "tag_e2f779ecdceb66ea4865", UserID := "u1", Name := "A", CreatedAt := 1000 } :
        TagRow) ∈ (TransformExport asciiStd 1000 scenario).Tags ∧
    ((∃ d ∈ scenario.collection "tags", ¬ tagDropped d ∧
        ({ ID := "tag_e2f779ecdceb66ea4865", UserID := "u1", Name := "A", CreatedAt := 1000 } :
          TagRow) = tagRowOf asciiStd 1000 d) ∨
    (∃ d ∈ scenario.collection "links", ¬ linkDropped d ∧
      ∃ tagAny ∈ toSlice (field d.Data "tags"),
        trimSpace (parseString tagAny) ≠ "" ∧
        "u1" = parseString (field d.Data "userId") ∧
        "A" = trimSpace (parseString tagAny) ∧
        "tag_e2f779ecdceb66ea4865" = "tag_" ++ String.mk ((hexEncodeToString (sha1Sum (stringBytes
          (parseString (field d.Data "userId") ++ ":" ++
            toLower asciiStd (trimSpace (parseString tagAny)))))).data.take 20) ∧
        "tag_e2f779ecdceb66ea4865".length = 24 ∧
        ∀ c ∈ "tag_e2f779ecdceb66ea4865".data.drop 4, c ∈ "0123456789abcdef".data)) :=
  ⟨by decide!, synthesized_tag_id asciiStd 1000 scenario _ (by decide!)⟩

set_option maxRecDepth 100000 in
/-- C6, as stated, fails: the names "a" and " a" have the same lower(trim(name))
and `deterministicTagID`, which lower-cases its argument without trimming it,
gives them different ids. -/
theorem deterministicTagID_does_not_trim :
    ¬ ∀ (std : GoStd) (userID n1 n2 : String),
        toLower std (trimSpace n1) = toLower std (trimSpace n2) →
        deterministicTagID std userID n1 = deterministicTagID std userID n2 := by
  intro h
  have h1 := h asciiStd "u" "a" " a" (by decide)
  revert h1
  decide!

/-- C6, amended. On names that went through `sanitizeTagName`, as every name
`TransformExport` passes, the id depends on lower(trim(name)) only. -/
theorem deterministicTagID_of_sanitized (std : GoStd) (userID n1 n2 : String)
    (h : toLower std (trimSpace n1) = toLower std (trimSpace n2)) :
    deterministicTagID std userID (sanitizeTagName n1) =
      deterministicTagID std userID (sanitizeTagName n2) := by
  unfold deterministicTagID sanitizeTagName
  rw [h]

set_option maxRecDepth 100000 in
/-- C6, amended, at the names "A " and " a". -/
theorem deterministicTagID_of_sanitized_witness :
    toLower asciiStd (trimSpace "A ") = toLower asciiStd (trimSpace " a") ∧
    deterministicTagID asciiStd "u" (sanitizeTagName "A ") =
      deterministicTagID asciiStd "u" (sanitizeTagName " a") :=
  ⟨by decide, deterministicTagID_of_sanitized asciiStd "u" "A " " a" (by decide)⟩

/-! ## The rows of the loop over the links -/

theorem timelineStep_eq (std : GoStd) (linkID : String) (createdAt : Time)
    (entries : List TimelineEntryRow) (ie : Nat × Val) :
    timelineStep std linkID createdAt entries ie =
      entries ++ (timelineRowOf std linkID createdAt ie).toList := by
  unfold timelineStep timelineRowOf
  by_cases h : trimSpace (parseString (field (toMap ie.2) "content")) = ""
  · simp [h]
  · simp [h]

theorem timeline_foldl (std : GoStd) (linkID : String) (createdAt : Time)
    (l : List (Nat × Val)) (acc : List TimelineEntryRow) :
    l.foldl (timelineStep std linkID createdAt) acc =
      acc ++ l.filterMap (timelineRowOf std linkID createdAt) := by
  induction l generalizing acc with
  | nil => simp
  | cons ie l ih =>
    rw [List.foldl_cons, ih, timelineStep_eq]
    cases h : timelineRowOf std linkID createdAt ie with
    | none => simp [List.filterMap_cons, h]
    | some r => simp [List.filterMap_cons, h]

theorem linkStep_fold_Links (std : GoStd) (now : Time) (l : List FirestoreDocument)
    (st : LinkState) :
    (l.foldl (linkStep std now) st).Links =
      st.Links ++ (l.filter (fun d => decide (¬ linkDropped d))).map (linkRowOf std now) := by
  induction l generalizing st with
  | nil => simp
  | cons d l ih =>
    rw [List.foldl_cons, ih]
    by_cases h : linkDropped d
    · rw [linkStep_dropped h]
      simp [List.filter_cons, h]
    · rw [linkStep_kept h]
      simp [List.filter_cons, h]

theorem linkStep_fold_TimelineEntries (std : GoStd) (now : Time) (l : List FirestoreDocument)
    (st : LinkState) :
    (l.foldl (linkStep std now) st).TimelineEntries =
      st.TimelineEntries ++
        (l.filter (fun d => decide (¬ linkDropped d))).flatMap (linkTimelineRows std now) := by
  induction l generalizing st with
  | nil => simp
  | cons d l ih =>
    rw [List.foldl_cons, ih]
    by_cases h : linkDropped d
    · rw [linkStep_dropped h]
      simp [List.filter_cons, h]
    · rw [linkStep_kept h]
      simp [List.filter_cons, h, timeline_foldl, linkTimelineRows]

theorem linksLoop_Links (std : GoStd) (now : Time) (exported : FirestoreExport) :
    (linksLoop std now exported).Links =
      ((exported.collection "links").filter (fun d => decide (¬ linkDropped d))).map
        (linkRowOf std now) := by
  unfold linksLoop
  rw [linkStep_fold_Links]
  rfl

theorem linksLoop_TimelineEntries (std : GoStd) (now : Time) (exported : FirestoreExport) :
    (linksLoop std now exported).TimelineEntries =
      ((exported.collection "links").filter (fun d => decide (¬ linkDropped d))).flatMap
        (linkTimelineRows std now) := by
  unfold linksLoop
  rw [linkStep_fold_TimelineEntries]
  rfl

theorem linkTagStep_mem_linkTagMap {std : GoStd} {linkID userID : String} {createdAt : Time}
    {st : GoMap TagRow × GoMap LinkTagRow} {tagAny : Val} {p : String × LinkTagRow}
    (h : p ∈ (linkTagStep std linkID userID createdAt st tagAny).2) :
    p ∈ st.2 ∨ p.2.LinkID = linkID := by
  by_cases hn : sanitizeTagName (parseString tagAny) = ""
  · rw [linkTagStep_blank hn] at h
    exact Or.inl h
  · cases hl : mapLookup st.1 (tagKey std userID (sanitizeTagName (parseString tagAny))) with
    | none =>
      rw [linkTagStep_new hn hl] at h
      rcases mem_mapStore h with h | h
      · exact Or.inr (by rw [h])
      · exact Or.inl h
    | some tag =>
      rw [linkTagStep_found hn hl] at h
      rcases mem_mapStore h with h | h
      · exact Or.inr (by rw [h])
      · exact Or.inl h

theorem linksLoop_linkTag_provenance (std : GoStd) (now : Time) (exported : FirestoreExport) :
    ∀ p ∈ (linksLoop std now exported).linkTagMap,
      ∃ d ∈ exported.collection "links", ¬ linkDropped d ∧ p.2.LinkID = d.ID := by
  refine foldl_invariant (fun (st : LinkState) => ∀ p ∈ st.linkTagMap,
    ∃ d ∈ exported.collection "links", ¬ linkDropped d ∧ p.2.LinkID = d.ID) _ _ _ ?_ ?_
  · intro p hp
    simp at hp
  · intro st d hd ih
    by_cases hdrop : linkDropped d
    · rw [linkStep_dropped hdrop]
      exact ih
    · rw [linkStep_kept hdrop]
      refine foldl_invariant (fun (m : GoMap TagRow × GoMap LinkTagRow) => ∀ p ∈ m.2,
        ∃ d ∈ exported.collection "links", ¬ linkDropped d ∧ p.2.LinkID = d.ID) _ _ _ ih ?_
      intro m tagAny _ ihm p hp
      rcases linkTagStep_mem_linkTagMap hp with h | h
      · exact ihm p h
      · exact ⟨d, hd, hdrop, h⟩

theorem mem_linkTimelineRows {std : GoStd} {now : Time} {d : FirestoreDocument}
    {r : TimelineEntryRow} :
    r ∈ linkTimelineRows std now d ↔
      ∃ i entryAny, (toSlice (field d.Data "timeline"))[i]? = some entryAny ∧
        timelineRowOf std d.ID (linkCreatedAt std now d) (i, entryAny) = some r := by
  unfold linkTimelineRows
  rw [List.mem_filterMap]
  constructor
  · rintro ⟨⟨i, v⟩, hmem, hrow⟩
    exact ⟨i, v, List.mk_mem_enum_iff_getElem?.1 hmem, hrow⟩
  · rintro ⟨i, v, hget, hrow⟩
    exact ⟨(i, v), List.mk_mem_enum_iff_getElem?.2 hget, hrow⟩

theorem mem_TimelineEntries_iff {std : GoStd} {now : Time} {exported : FirestoreExport}
    {r : TimelineEntryRow} :
    r ∈ (TransformExport std now exported).TimelineEntries ↔
      ∃ d ∈ exported.collection "links", ¬ linkDropped d ∧ r ∈ linkTimelineRows std now d := by
  rw [mem_TimelineEntries, linksLoop_TimelineEntries]
  simp only [List.mem_flatMap, List.mem_filter, decide_eq_true_eq]
  constructor
  · rintro ⟨d, ⟨hd, hk⟩, hr⟩
    exact ⟨d, hd, hk, hr⟩
  · rintro ⟨d, hd, hk, hr⟩
    exact ⟨d, ⟨hd, hk⟩, hr⟩

theorem mem_Links_iff {std : GoStd} {now : Time} {exported : FirestoreExport} {r : LinkRow} :
    r ∈ (TransformExport std now exported).Links ↔
      ∃ d ∈ exported.collection "links", ¬ linkDropped d ∧ r = linkRowOf std now d := by
  rw [mem_Links, linksLoop_Links]
  simp only [List.mem_map, List.mem_filter, decide_eq_true_eq]
  constructor
  · rintro ⟨d, ⟨hd, hk⟩, hr⟩
    exact ⟨d, hd, hk, hr.symm⟩
  · rintro ⟨d, hd, hk, hr⟩
    exact ⟨d, ⟨hd, hk⟩, hr.symm⟩

/-! ## C7: the Link rows -/

theorem trimSpace_empty : trimSpace "" = "" := rfl

theorem parseString_of_not_str {v : Val} (h : ∀ s, v ≠ Val.str s) : parseString v = "" := by
  cases v with
  | str s => exact absurd rfl (h s)
  | _ => rfl

/-- C7. Every Link row has a non-empty userId, a non-empty url and a non-empty
title, and comes from a link document whose userId it carries and whose trimmed
url is its url; its title is its url when the source title is blank after
trimming, in particular when it is absent or not a string, and the trimmed
source title otherwise.  The Links list has exactly one row per link document
with a non-empty userId and a non-empty trimmed url, so a document that fails
this produces no row; the transformation is a total function, it has no error
result. -/
theorem link_rows_valid (std : GoStd) (now : Time) (exported : FirestoreExport) :
    (∀ r ∈ (TransformExport std now exported).Links,
      r.UserID ≠ "" ∧ r.URL ≠ "" ∧ r.Title ≠ "" ∧
      ∃ d ∈ exported.collection "links",
        r.ID = d.ID ∧
        r.UserID = parseString (field d.Data "userId") ∧
        r.URL = trimSpace (parseString (field d.Data "url")) ∧
        (trimSpace (parseString (field d.Data "title")) = "" → r.Title = r.URL) ∧
        ((∀ s, field d.Data "title" ≠ Val.str s) → r.Title = r.URL) ∧
        (trimSpace (parseString (field d.Data "title")) ≠ "" →
          r.Title = trimSpace (parseString (field d.Data "title")))) ∧
    (TransformExport std now exported).Links.length =
      ((exported.collection "links").filter (fun d =>
        decide (¬ (parseString (field d.Data "userId") = "" ∨
          trimSpace (parseString (field d.Data "url")) = "")))).length := by
  constructor
  · intro r hr
    obtain ⟨d, hd, hk, rfl⟩ := mem_Links_iff.1 hr
    have hk' : ¬ (parseString (field d.Data "userId") = "" ∨
        trimSpace (parseString (field d.Data "url")) = "") := hk
    have hu : parseString (field d.Data "userId") ≠ "" := fun h => hk' (Or.inl h)
    have hurl : trimSpace (parseString (field d.Data "url")) ≠ "" := fun h => hk' (Or.inr h)
    have hblank : trimSpace (parseString (field d.Data "title")) = "" →
        (linkRowOf std now d).Title = (linkRowOf std now d).URL := by
      intro h
      simp [linkRowOf, h]
    refine ⟨hu, hurl, ?_, d, hd, rfl, rfl, rfl, hblank, ?_, ?_⟩
    · by_cases ht : trimSpace (parseString (field d.Data "title")) = ""
      · rw [hblank ht]; exact hurl
      · simp [linkRowOf, ht]
    · intro h
      apply hblank
      rw [parseString_of_not_str h]
      exact trimSpace_empty
    · intro ht
      simp [linkRowOf, ht]
  · have hlen : (TransformExport std now exported).Links.length =
        (linksLoop std now exported).Links.length := by
      unfold TransformExport
      exact length_sortSlice _ _
    rw [hlen, linksLoop_Links, List.length_map]
    rfl

/-! ## C8: a dropped link leaves no row -/

theorem timelineRowOf_LinkID {std : GoStd} {linkID : String} {createdAt : Time}
    {ie : Nat × Val} {r : TimelineEntryRow}
    (h : timelineRowOf std linkID createdAt ie = some r) : r.LinkID = linkID := by
  unfold timelineRowOf at h
  split at h
  · cases h
  · cases h; rfl

/-- C8, as stated, fails: in `timelineIdAlias` the link `L_0` is dropped, no other
link document has its id, and the output has a TimelineEntry row whose id is
`L_0`, the entry at position 0 of the kept link `L`. -/
theorem dropped_link_id_on_timeline_entry :
    ¬ ∀ (std : GoStd) (now : Time) (exported : FirestoreExport) (d : FirestoreDocument),
        d ∈ exported.collection "links" → linkDropped d →
        (∀ d' ∈ exported.collection "links", d' ≠ d → d'.ID ≠ d.ID) →
        (∀ r ∈ (TransformExport std now exported).Links, r.ID ≠ d.ID) ∧
        (∀ r ∈ (TransformExport std now exported).LinkTags, r.LinkID ≠ d.ID) ∧
        (∀ r ∈ (TransformExport std now exported).TimelineEntries,
          r.ID ≠ d.ID ∧ r.LinkID ≠ d.ID) := by
  intro h
  have hc : timelineIdAlias.collection "links" = [keptDoc, droppedDoc] := rfl
  have hother : ∀ d' ∈ timelineIdAlias.collection "links", d' ≠ droppedDoc →
      d'.ID ≠ droppedDoc.ID := by
    intro d' hd' hne
    rw [hc] at hd'
    simp only [List.mem_cons, List.mem_singleton, List.not_mem_nil, or_false] at hd'
    rcases hd' with rfl | rfl
    · decide
    · exact absurd rfl hne
  have hmem : droppedDoc ∈ timelineIdAlias.collection "links" := by
    rw [hc]; simp
  have h3 := (h asciiStd 1000 timelineIdAlias droppedDoc hmem (by decide) hother).2.2
  have hrow : TimelineEntryRow.mk "L_0" "L" "note" "c" 1000 ∈
      (TransformExport asciiStd 1000 timelineIdAlias).TimelineEntries := by decide
  exact (h3 _ hrow).1 rfl

/-- C8, amended. A dropped link document, when every link document with its id
is dropped (so when no other link document has its id), has no Link row with
its id and no LinkTag row and no TimelineEntry row with its id as linkId, whatever
its tags and timeline arrays hold.  Nothing is said of the id of a TimelineEntry
row, which is synthesized from another link's id and a position. -/
theorem dropped_link_leaves_no_row (std : GoStd) (now : Time) (exported : FirestoreExport)
    (d : FirestoreDocument) (_hd : d ∈ exported.collection "links") (_hdrop : linkDropped d)
    (hid : ∀ d' ∈ exported.collection "links", d'.ID = d.ID → linkDropped d') :
    (∀ r ∈ (TransformExport std now exported).Links, r.ID ≠ d.ID) ∧
    (∀ r ∈ (TransformExport std now exported).LinkTags, r.LinkID ≠ d.ID) ∧
    (∀ r ∈ (TransformExport std now exported).TimelineEntries, r.LinkID ≠ d.ID) := by
  refine ⟨?_, ?_, ?_⟩
  · intro r hr heq
    obtain ⟨d', hd', hk, rfl⟩ := mem_Links_iff.1 hr
    exact hk (hid d' hd' heq)
  · intro r hr heq
    rw [mem_LinkTags] at hr
    unfold mapValues at hr
    obtain ⟨p, hp, rfl⟩ := List.mem_map.1 hr
    obtain ⟨d', hd', hk, hpid⟩ := linksLoop_linkTag_provenance std now exported p hp
    exact hk (hid d' hd' (hpid ▸ heq))
  · intro r hr heq
    obtain ⟨d', hd', hk, hrow⟩ := mem_TimelineEntries_iff.1 hr
    obtain ⟨i, v, _, hri⟩ := mem_linkTimelineRows.1 hrow
    exact hk (hid d' hd' ((timelineRowOf_LinkID hri) ▸ heq))

/-- C8, amended, at the dropped link `L_0` of `timelineIdAlias`. -/
theorem dropped_link_leaves_no_row_witness :
    droppedDoc ∈ timelineIdAlias.collection "links" ∧ linkDropped droppedDoc ∧
    ((∀ r ∈ (TransformExport asciiStd 1000 timelineIdAlias).Links, r.ID ≠ droppedDoc.ID) ∧
     (∀ r ∈ (TransformExport asciiStd 1000 timelineIdAlias).LinkTags,
        r.LinkID ≠ droppedDoc.ID) ∧
     (∀ r ∈ (TransformExport asciiStd 1000 timelineIdAlias).TimelineEntries,
        r.LinkID ≠ droppedDoc.ID)) := by
  have hc : timelineIdAlias.collection "links" = [keptDoc, droppedDoc] := rfl
  have hmem : droppedDoc ∈ timelineIdAlias.collection "links" := by
    rw [hc]; simp
  refine ⟨hmem, by decide,
    dropped_link_leaves_no_row asciiStd 1000 timelineIdAlias droppedDoc hmem (by decide) ?_⟩
  intro d' hd' hid
  rw [hc] at hd'
  simp only [List.mem_cons, List.mem_singleton, List.not_mem_nil, or_false] at hd'
  rcases hd' with rfl | rfl
  · exact absurd hid (by decide)
  · decide

/-! ## The loop over the links at the end-to-end scenario -/

theorem deterministicTagID_std (std : GoStd) :
    deterministicTagID std "u1" "A" = deterministicTagID asciiStd "u1" "A" := rfl

set_option maxRecDepth 100000 in
theorem deterministicTagID_u1_A (std : GoStd) :
    deterministicTagID std "u1" "A" = "tag_e2f779ecdceb66ea4865" := by
  rw [deterministicTagID_std]
  decide!

theorem linksLoop_scenario (std : GoStd) (now : Time) :
    linksLoop std now scenario =
      { Links := [{ ID := "l1", UserID := "u1", URL := "http://x", Title := "http://x",
                    IsArchived := false, Summary := none, CreatedAt := now, UpdatedAt := now }]
        tagMap := [("u1|a", { ID := "tag_e2f779ecdceb66ea4865", UserID := "u1", Name := "A",
                              CreatedAt := now })]
        linkTagMap := [("l1|tag_e2f779ecdceb66ea4865",
          { LinkID := "l1", TagID := "tag_e2f779ecdceb66ea4865", CreatedAt := now })]
        TimelineEntries := [] } := by
  have e : linksLoop std now scenario =
      { Links := [{ ID := "l1", UserID := "u1", URL := "http://x", Title := "http://x",
                    IsArchived := false, Summary := none, CreatedAt := now, UpdatedAt := now }]
        tagMap := (linkTagStep std "l1" "u1" now
          (linkTagStep std "l1" "u1" now ([], []) (Val.str "A")) (Val.str "a ")).1
        linkTagMap := (linkTagStep std "l1" "u1" now
          (linkTagStep std "l1" "u1" now ([], []) (Val.str "A")) (Val.str "a ")).2
        TimelineEntries := [] } := rfl
  have s1 : linkTagStep std "l1" "u1" now ([], []) (Val.str "A") =
      ([("u1|a", TagRow.mk (deterministicTagID std "u1" "A") "u1" "A" now)],
       [("l1|" ++ deterministicTagID std "u1" "A",
          LinkTagRow.mk "l1" (deterministicTagID std "u1" "A") now)]) := rfl
  rw [e, s1, deterministicTagID_u1_A]
  rfl

/-! ## C10: the TimelineEntry rows -/

theorem trimSpace_parseString_ne {v : Val}
    (h : trimSpace (parseString v) ≠ "") : ∃ s, v = Val.str s ∧ trimSpace s ≠ "" := by
  cases v with
  | str s => exact ⟨s, rfl, h⟩
  | null => exact absurd trimSpace_empty h
  | bool b => exact absurd trimSpace_empty h
  | num n => exact absurd trimSpace_empty h
  | time t => exact absurd trimSpace_empty h
  | arr l => exact absurd trimSpace_empty h
  | obj m => exact absurd trimSpace_empty h

theorem timelineRowOf_some {std : GoStd} {linkID : String} {createdAt : Time}
    {ie : Nat × Val} {r : TimelineEntryRow}
    (h : timelineRowOf std linkID createdAt ie = some r) :
    trimSpace (parseString (field (toMap ie.2) "content")) ≠ "" ∧
      r.ID = linkID ++ "_" ++ Nat.repr ie.1 ∧ r.LinkID = linkID ∧
      r.Content = trimSpace (parseString (field (toMap ie.2) "content")) := by
  unfold timelineRowOf at h
  split at h
  · cases h
  · rename_i hc
    cases h
    exact ⟨hc, rfl, rfl, rfl⟩

theorem timelineRowOf_isSome (std : GoStd) (linkID : String) (createdAt : Time)
    (ie : Nat × Val) (hc : trimSpace (parseString (field (toMap ie.2) "content")) ≠ "") :
    ∃ r, timelineRowOf std linkID createdAt ie = some r := by
  unfold timelineRowOf
  rw [if_neg hc]
  exact ⟨_, rfl⟩

theorem length_filterMap_enumFrom (std : GoStd) (linkID : String) (createdAt : Time)
    (l : List Val) (n : Nat) :
    ((l.enumFrom n).filterMap (timelineRowOf std linkID createdAt)).length =
      (l.filter (fun v =>
        decide (trimSpace (parseString (field (toMap v) "content")) ≠ ""))).length := by
  induction l generalizing n with
  | nil => rfl
  | cons v l ih =>
    rw [List.enumFrom_cons, List.filterMap_cons, List.filter_cons]
    by_cases hc : trimSpace (parseString (field (toMap v) "content")) = ""
    · simp [timelineRowOf, hc, ih]
    · simp [timelineRowOf, hc, ih]

theorem length_linkTimelineRows (std : GoStd) (now : Time) (d : FirestoreDocument) :
    (linkTimelineRows std now d).length =
      ((toSlice (field d.Data "timeline")).filter (fun v =>
        decide (trimSpace (parseString (field (toMap v) "content")) ≠ ""))).length := by
  unfold linkTimelineRows List.enum
  exact length_filterMap_enumFrom std _ _ _ 0

theorem length_flatMap_eq_sum {α β : Type} (f : α → List β) (l : List α) :
    (l.flatMap f).length = (l.map (fun a => (f a).length)).sum := by
  induction l with
  | nil => rfl
  | cons a l ih => simp [List.flatMap_cons, ih]

/-- C10. For a kept link document and a position `i` of its timeline array, a
TimelineEntry row is emitted for position `i` exactly when the entry is an object
whose content is a string that is non-empty after trimming; the row has the id
linkId + "_" + decimal(i), with `i` the position in the original array, the
link's id as linkId and the trimmed content.  Three parts: every row of the output
is the row of such a position; every such position has its row; and the number
of rows is the number of such positions over all kept links. -/
theorem timeline_entries_by_position (std : GoStd) (now : Time)
    (exported : FirestoreExport) :
    (∀ r ∈ (TransformExport std now exported).TimelineEntries,
      ∃ d ∈ exported.collection "links", ¬ linkDropped d ∧
        ∃ i entryAny s, (toSlice (field d.Data "timeline"))[i]? = some entryAny ∧
          field (toMap entryAny) "content" = Val.str s ∧ trimSpace s ≠ "" ∧
          r.ID = d.ID ++ "_" ++ Nat.repr i ∧ r.LinkID = d.ID ∧ r.Content = trimSpace s) ∧
    (∀ d ∈ exported.collection "links", ¬ linkDropped d →
      ∀ i entryAny s, (toSlice (field d.Data "timeline"))[i]? = some entryAny →
        field (toMap entryAny) "content" = Val.str s → trimSpace s ≠ "" →
        ∃ r ∈ (TransformExport std now exported).TimelineEntries,
          r.ID = d.ID ++ "_" ++ Nat.repr i ∧ r.LinkID = d.ID ∧ r.Content = trimSpace s) ∧
    (TransformExport std now exported).TimelineEntries.length =
      (((exported.collection "links").filter (fun d => decide (¬ linkDropped d))).map
        (fun d => ((toSlice (field d.Data "timeline")).filter (fun v =>
          decide (trimSpace (parseString (field (toMap v) "content")) ≠ ""))).length)).sum := by
  refine ⟨?_, ?_, ?_⟩
  · intro r hr
    obtain ⟨d, hd, hk, hrow⟩ := mem_TimelineEntries_iff.1 hr
    obtain ⟨i, v, hget, hri⟩ := mem_linkTimelineRows.1 hrow
    obtain ⟨hc, hid, hlink, hcontent⟩ := timelineRowOf_some hri
    obtain ⟨s, hs, hne⟩ := trimSpace_parseString_ne hc
    refine ⟨d, hd, hk, i, v, s, hget, hs, hne, hid, hlink, ?_⟩
    rw [hcontent]
    show trimSpace (parseString (field (toMap v) "content")) = trimSpace s
    rw [hs]
    rfl
  · intro d hd hk i v s hget hs hne
    have hc : trimSpace (parseString (field (toMap (i, v).2) "content")) ≠ "" := by
      show trimSpace (parseString (field (toMap v) "content")) ≠ ""
      rw [hs]
      exact hne
    obtain ⟨r, hr⟩ := timelineRowOf_isSome std d.ID (linkCreatedAt std now d) (i, v) hc
    obtain ⟨_, hid, hlink, hcontent⟩ := timelineRowOf_some hr
    refine ⟨r, mem_TimelineEntries_iff.2 ⟨d, hd, hk, mem_linkTimelineRows.2 ⟨i, v, hget, hr⟩⟩,
      hid, hlink, ?_⟩
    rw [hcontent]
    show trimSpace (parseString (field (toMap v) "content")) = trimSpace s
    rw [hs]
    rfl
  · have hlen : (TransformExport std now exported).TimelineEntries.length =
        (linksLoop std now exported).TimelineEntries.length := by
      unfold TransformExport
      exact length_sortSlice _ _
    rw [hlen, linksLoop_TimelineEntries, length_flatMap_eq_sum]
    congr 1
    apply List.map_congr_left
    intro d _
    exact length_linkTimelineRows std now d

/-! ## What the loop over the top-level tags does, by key string

The statements of C2 and C3 hold when the documents are grouped by the string
`tagKey` instead of the pair (userId, lower(trim(name))). -/

theorem foldl_prefix_invariant {σ α : Type} (P : List α → σ → Prop) (f : σ → α → σ)
    (l : List α) (init : σ) (h0 : P [] init)
    (hstep : ∀ pre s a, P pre s → P (pre ++ [a]) (f s a)) : P l (l.foldl f init) := by
  have key : ∀ (l pre : List α) (s : σ), P pre s → P (pre ++ l) (l.foldl f s) := by
    intro l
    induction l with
    | nil => intro pre s h; simpa using h
    | cons a l ih =>
      intro pre s h
      have h' := ih (pre ++ [a]) (f s a) (hstep pre s a h)
      simpa using h'
  simpa using key l [] init h0

theorem mem_mapStore_self {V : Type} (m : GoMap V) (k : String) (v : V) :
    (k, v) ∈ mapStore m k v := by
  induction m with
  | nil => simp [mapStore]
  | cons q rest ih =>
    obtain ⟨k', v'⟩ := q
    unfold mapStore
    split
    · exact List.mem_cons_self _ _
    · exact List.mem_cons_of_mem _ ih

theorem mem_mapStore_of_ne {V : Type} {m : GoMap V} {k : String} {v : V} {p : String × V}
    (h : p ∈ m) (hne : p.1 ≠ k) : p ∈ mapStore m k v := by
  induction m with
  | nil => simp at h
  | cons q rest ih =>
    obtain ⟨k', v'⟩ := q
    unfold mapStore
    rcases List.mem_cons.1 h with h | h
    · split
      · rename_i hk
        rw [h] at hne
        exact absurd hk hne
      · rw [h]; exact List.mem_cons_self _ _
    · split
      · exact List.mem_cons_of_mem _ h
      · exact List.mem_cons_of_mem _ (ih h)

theorem length_mapStore {V : Type} (m : GoMap V) (k : String) (v : V) :
    (mapStore m k v).length = if k ∈ m.map Prod.fst then m.length else m.length + 1 := by
  have h := congrArg List.length (mapStore_keys m k v)
  rw [List.length_map] at h
  rw [h]
  split <;> simp

theorem mapLookup_key_mem {V : Type} {m : GoMap V} {k : String} {v : V}
    (h : mapLookup m k = some v) : k ∈ m.map Prod.fst :=
  List.mem_map.2 ⟨(k, v), mapLookup_mem h, rfl⟩

theorem Keyed.eq_of_key_eq {V : Type} {key : V → String} {m : GoMap V} (h : Keyed key m)
    {p q : String × V} (hp : p ∈ m) (hq : q ∈ m) (hpq : p.1 = q.1) : p = q :=
  List.inj_on_of_nodup_map h.1 hp hq hpq

theorem tagStep_inv (std : GoStd) (now : Time) (pre : List FirestoreDocument) (st : TagState)
    (d : FirestoreDocument) (h : TagsInv std now pre st) :
    TagsInv std now (pre ++ [d]) (tagStep std now st d) := by
  obtain ⟨hkeyed, hrows, hcover, hcount⟩ := h
  by_cases hdrop : tagDropped d
  · rw [tagStep_dropped hdrop]
    refine ⟨hkeyed, ?_, ?_, ?_⟩
    · intro p hp
      obtain ⟨d0, hd0, hk0, hrow, hmin⟩ := hrows p hp
      refine ⟨d0, List.mem_append_left _ hd0, hk0, hrow, ?_⟩
      intro d' hd' hk' hkey
      rcases List.mem_append.1 hd' with hd' | hd'
      · exact hmin d' hd' hk' hkey
      · rw [List.mem_singleton.1 hd'] at hk'
        exact absurd hdrop hk'
    · intro d' hd' hk'
      rcases List.mem_append.1 hd' with hd' | hd'
      · exact hcover d' hd' hk'
      · rw [List.mem_singleton.1 hd'] at hk'
        exact absurd hdrop hk'
    · rw [hcount]
      simp [List.filter_append, List.filter_cons, hdrop]
  · rw [tagStep_kept hdrop]
    have hkeyed' := putTag_keyed std st (tagRowOf std now d) hkeyed
    have hkd : tagKey std (tagRowOf std now d).UserID (tagRowOf std now d).Name =
        tagDocKey std d := rfl
    have hfilter : ((pre ++ [d]).filter (fun d => decide (¬ tagDropped d))).length =
        (pre.filter (fun d => decide (¬ tagDropped d))).length + 1 := by
      simp [List.filter_append, List.filter_cons, hdrop]
    cases hl : mapLookup st.tagMap (tagKey std (tagRowOf std now d).UserID
        (tagRowOf std now d).Name) with
    | none =>
      have hnot : tagDocKey std d ∉ st.tagMap.map Prod.fst := by
        rw [← hkd]; exact mapLookup_eq_none.1 hl
      rw [putTag_none hl]
      refine ⟨by rw [← putTag_none hl]; exact hkeyed', ?_, ?_, ?_⟩
      · intro p hp
        rcases mem_mapStore hp with hp | hp
        · refine ⟨d, by simp, hdrop, by rw [hp], ?_⟩
          intro d' hd' hk' hkey
          rcases List.mem_append.1 hd' with hd' | hd'
          · rw [hp] at hkey
            exact absurd (hkey ▸ hcover d' hd' hk') (by rw [hkd]; exact hnot)
          · rw [List.mem_singleton.1 hd', hp]
        · obtain ⟨d0, hd0, hk0, hrow, hmin⟩ := hrows p hp
          refine ⟨d0, List.mem_append_left _ hd0, hk0, hrow, ?_⟩
          intro d' hd' hk' hkey
          rcases List.mem_append.1 hd' with hd' | hd'
          · exact hmin d' hd' hk' hkey
          · rw [List.mem_singleton.1 hd'] at hkey
            exact absurd (List.mem_map.2 ⟨p, hp, hkey.symm⟩) hnot
      · intro d' hd' hk'
        rw [mapStore_keys, hkd, if_neg hnot]
        rcases List.mem_append.1 hd' with hd' | hd'
        · exact List.mem_append_left _ (hcover d' hd' hk')
        · rw [List.mem_singleton.1 hd']; simp
      · rw [hfilter, ← hcount]
        show st.duplicateTagCount + (mapStore st.tagMap _ _).length = _
        rw [length_mapStore, hkd, if_neg hnot]
        omega
    | some existing =>
      have hex : (tagDocKey std d, existing) ∈ st.tagMap := by
        rw [← hkd]; exact mapLookup_mem hl
      have hin : tagDocKey std d ∈ st.tagMap.map Prod.fst := by
        rw [← hkd]; exact mapLookup_key_mem hl
      by_cases hlt : (tagRowOf std now d).CreatedAt < existing.CreatedAt
      · rw [putTag_some_lt hl hlt]
        have hkeyed'' : Keyed (tagRowKey std)
            (mapStore st.tagMap (tagKey std (tagRowOf std now d).UserID
              (tagRowOf std now d).Name) (tagRowOf std now d)) := by
          have := hkeyed'
          rw [putTag_some_lt hl hlt] at this
          exact this
        refine ⟨hkeyed'', ?_, ?_, ?_⟩
        · intro p hp
          by_cases hpk : p.1 = tagDocKey std d
          · have hp' : p = (tagDocKey std d, tagRowOf std now d) :=
              hkeyed''.eq_of_key_eq hp (by rw [← hkd]; exact mem_mapStore_self _ _ _) hpk
            refine ⟨d, by simp, hdrop, by rw [hp'], ?_⟩
            intro d' hd' hk' hkey
            rcases List.mem_append.1 hd' with hd' | hd'
            · obtain ⟨_, _, _, _, hmin⟩ := hrows _ hex
              have h1 := hmin d' hd' hk' (by rw [hkey, hpk])
              rw [hp']
              exact le_trans (le_of_lt hlt) h1
            · rw [List.mem_singleton.1 hd', hp']
          · rcases mem_mapStore hp with hp' | hp'
            · exact absurd (by rw [hp', hkd]) hpk
            · obtain ⟨d0, hd0, hk0, hrow, hmin⟩ := hrows p hp'
              refine ⟨d0, List.mem_append_left _ hd0, hk0, hrow, ?_⟩
              intro d' hd' hk' hkey
              rcases List.mem_append.1 hd' with hd' | hd'
              · exact hmin d' hd' hk' hkey
              · rw [List.mem_singleton.1 hd'] at hkey
                exact absurd hkey.symm hpk
        · intro d' hd' hk'
          rw [mapStore_keys, hkd, if_pos hin]
          rcases List.mem_append.1 hd' with hd' | hd'
          · exact hcover d' hd' hk'
          · rw [List.mem_singleton.1 hd']; exact hin
        · rw [hfilter, ← hcount]
          show st.duplicateTagCount + 1 + (mapStore st.tagMap _ _).length = _
          rw [length_mapStore, hkd, if_pos hin]
          omega
      · rw [putTag_some_ge hl hlt]
        refine ⟨hkeyed, ?_, ?_, ?_⟩
        · intro p hp
          obtain ⟨d0, hd0, hk0, hrow, hmin⟩ := hrows p hp
          refine ⟨d0, List.mem_append_left _ hd0, hk0, hrow, ?_⟩
          intro d' hd' hk' hkey
          rcases List.mem_append.1 hd' with hd' | hd'
          · exact hmin d' hd' hk' hkey
          · rw [List.mem_singleton.1 hd'] at hkey ⊢
            have hp' : p = (tagDocKey std d, existing) :=
              hkeyed.eq_of_key_eq hp hex hkey.symm
            rw [hp']
            exact not_lt.1 hlt
        · intro d' hd' hk'
          rcases List.mem_append.1 hd' with hd' | hd'
          · exact hcover d' hd' hk'
          · rw [List.mem_singleton.1 hd']; exact hin
        · rw [hfilter, ← hcount]
          show st.duplicateTagCount + 1 + st.tagMap.length = _
          omega

theorem tagsLoop_inv (std : GoStd) (now : Time) (exported : FirestoreExport) :
    TagsInv std now (exported.collection "tags") (tagsLoop std now exported) := by
  unfold tagsLoop
  refine foldl_prefix_invariant (TagsInv std now) _ _ _ ?_ (tagStep_inv std now)
  exact ⟨Keyed.nil _, by simp, by simp, by simp⟩

theorem linkTagStep_tagMap_mono {std : GoStd} {linkID userID : String} {createdAt : Time}
    {st : GoMap TagRow × GoMap LinkTagRow} {tagAny : Val} {p : String × TagRow}
    (h : p ∈ st.1) : p ∈ (linkTagStep std linkID userID createdAt st tagAny).1 := by
  by_cases hn : sanitizeTagName (parseString tagAny) = ""
  · rw [linkTagStep_blank hn]; exact h
  · cases hl : mapLookup st.1 (tagKey std userID (sanitizeTagName (parseString tagAny))) with
    | none =>
      rw [linkTagStep_new hn hl]
      apply mem_mapStore_of_ne h
      intro hk
      exact mapLookup_eq_none.1 hl (List.mem_map.2 ⟨p, h, hk⟩)
    | some tag =>
      rw [linkTagStep_found hn hl]; exact h

theorem linkStep_tagMap_mono {std : GoStd} {now : Time} {st : LinkState}
    {d : FirestoreDocument} {p : String × TagRow}
    (h : p ∈ st.tagMap) : p ∈ (linkStep std now st d).tagMap := by
  by_cases hdrop : linkDropped d
  · rw [linkStep_dropped hdrop]; exact h
  · rw [linkStep_kept hdrop]
    exact foldl_invariant (fun (m : GoMap TagRow × GoMap LinkTagRow) => p ∈ m.1) _ _ _ h
      (fun m a _ hm => linkTagStep_tagMap_mono hm)

theorem linksLoop_tagMap_mono {std : GoStd} {now : Time} {exported : FirestoreExport}
    {p : String × TagRow} (h : p ∈ (tagsLoop std now exported).tagMap) :
    p ∈ (linksLoop std now exported).tagMap :=
  foldl_invariant (fun (st : LinkState) => p ∈ st.tagMap) _ _ _ h
    (fun _ _ _ hst => linkStep_tagMap_mono hst)

/-- The rule of `putTag`, by key string. For every kept top-level tag document
the Tags list has exactly one row with the document's key `tagKey`; that row is
the row of a kept tag document with this key, and no kept tag document with this
key has an earlier createdAt. -/
theorem earliest_tag_document_wins (std : GoStd) (now : Time) (exported : FirestoreExport)
    (d : FirestoreDocument) (hd : d ∈ exported.collection "tags") (hk : ¬ tagDropped d) :
    ∃ r ∈ (TransformExport std now exported).Tags,
      tagKey std r.UserID r.Name = tagDocKey std d ∧
      (∀ r' ∈ (TransformExport std now exported).Tags,
        tagKey std r'.UserID r'.Name = tagDocKey std d → r' = r) ∧
      (∃ d0 ∈ exported.collection "tags", ¬ tagDropped d0 ∧
        tagDocKey std d0 = tagDocKey std d ∧ r = tagRowOf std now d0) ∧
      ∀ d' ∈ exported.collection "tags", ¬ tagDropped d' →
        tagDocKey std d' = tagDocKey std d →
        r.CreatedAt ≤ (tagRowOf std now d').CreatedAt := by
  obtain ⟨hkeyed, hrows, hcover, _⟩ := tagsLoop_inv std now exported
  obtain ⟨p, hp, hpk⟩ := List.mem_map.1 (hcover d hd hk)
  obtain ⟨d0, hd0, hk0, hrow, hmin⟩ := hrows p hp
  have hp' := linksLoop_tagMap_mono hp
  have hkeyed' := (linksLoop_keyed std now exported).1
  have hkey : tagKey std p.2.UserID p.2.Name = tagDocKey std d := by
    rw [← hpk]; exact (hkeyed.2 p hp).symm
  refine ⟨p.2, mem_Tags.2 (List.mem_map.2 ⟨p, hp', rfl⟩), hkey, ?_, ?_, ?_⟩
  · intro r' hr' hkey'
    obtain ⟨q, hq, rfl⟩ := List.mem_map.1 (mem_Tags.1 hr')
    have hqp : q = p := by
      apply hkeyed'.eq_of_key_eq hq hp'
      rw [hkeyed'.2 q hq, hkeyed'.2 p hp']
      exact hkey'.trans hkey.symm
    rw [hqp]
  · refine ⟨d0, hd0, hk0, ?_, hrow⟩
    rw [← hkey, hrow]
    rfl
  · intro d' hd' hk' hkey'
    exact hmin d' hd' hk' (by rw [hkey', hpk])

/-- The example of the dedup rule: the documents "Work" (created at 20) and
"work " (created at 10) of user `u1` give one Tag row, that of the earlier
document, and one merged duplicate. -/
theorem workTags_one_row (std : GoStd) (now : Time) :
    (TransformExport std now workTags).Tags =
      [{ ID := "t2", UserID := "u1", Name := "work", CreatedAt := 10 }] ∧
    (TransformExport std now workTags).Report.getLast? =
      some "duplicate_tags_merged: 1" := by
  have h : tagsLoop std now workTags =
      { tagMap := [("u1|work", { ID := "t2", UserID := "u1", Name := "work", CreatedAt := 10 })]
        duplicateTagCount := 1 } := rfl
  refine ⟨rfl, ?_⟩
  unfold TransformExport
  simp only [h]
  rfl

/-- The count of `putTag`, by key string. The last line of the report gives the
number of kept top-level tag documents minus the number of distinct keys `tagKey`
among them. -/
theorem duplicate_count_by_key (std : GoStd) (now : Time) (exported : FirestoreExport) :
    (TransformExport std now exported).Report.getLast? =
      some ("duplicate_tags_merged: " ++ Nat.repr
        (((exported.collection "tags").filter (fun d => decide (¬ tagDropped d))).length -
          ((((exported.collection "tags").filter (fun d => decide (¬ tagDropped d))).map
            (tagDocKey std)).dedup).length)) := by
  obtain ⟨hkeyed, hrows, hcover, hcount⟩ := tagsLoop_inv std now exported
  have hperm : ((tagsLoop std now exported).tagMap.map Prod.fst).Perm
      ((((exported.collection "tags").filter (fun d => decide (¬ tagDropped d))).map
        (tagDocKey std)).dedup) := by
    rw [List.perm_ext_iff_of_nodup hkeyed.1 (List.nodup_dedup _)]
    intro k
    rw [List.mem_dedup]
    constructor
    · intro hkm
      obtain ⟨p, hp, rfl⟩ := List.mem_map.1 hkm
      obtain ⟨d0, hd0, hk0, hrow, _⟩ := hrows p hp
      refine List.mem_map.2 ⟨d0, List.mem_filter.2 ⟨hd0, by simpa using hk0⟩, ?_⟩
      rw [hkeyed.2 p hp, hrow]
      rfl
    · intro hkm
      obtain ⟨d, hd, rfl⟩ := List.mem_map.1 hkm
      obtain ⟨hd1, hd2⟩ := List.mem_filter.1 hd
      exact hcover d hd1 (by simpa using hd2)
  have hlen := hperm.length_eq
  rw [List.length_map] at hlen
  have hdup : (tagsLoop std now exported).duplicateTagCount =
      ((exported.collection "tags").filter (fun d => decide (¬ tagDropped d))).length -
        ((((exported.collection "tags").filter (fun d => decide (¬ tagDropped d))).map
          (tagDocKey std)).dedup).length := by
    omega
  rw [← hdup]
  rfl

/-! ## What the loop over a link's tags does, by key string

The statement of C4 holds for the row stored under the key string `tagKey`. -/

theorem foldl_established {σ α : Type} (Q : σ → Prop) (f : σ → α → σ) (l : List α) (init : σ)
    (a : α) (ha : a ∈ l) (hest : ∀ s, Q (f s a)) (hpers : ∀ s b, Q s → Q (f s b)) :
    Q (l.foldl f init) := by
  induction l generalizing init with
  | nil => simp at ha
  | cons x xs ih =>
    rw [List.foldl_cons]
    rcases List.mem_cons.1 ha with h | h
    · rw [← h]
      exact foldl_invariant Q f xs _ (hest init) (fun s b _ hs => hpers s b hs)
    · exact ih _ h

theorem mapStore_key_mono {V : Type} {m : GoMap V} {k k' : String} {v : V}
    (h : k' ∈ m.map Prod.fst) : k' ∈ (mapStore m k v).map Prod.fst := by
  rw [mapStore_keys]
  split
  · exact h
  · exact List.mem_append_left _ h

theorem mapStore_key_self {V : Type} (m : GoMap V) (k : String) (v : V) :
    k ∈ (mapStore m k v).map Prod.fst :=
  List.mem_map.2 ⟨(k, v), mem_mapStore_self m k v, rfl⟩

theorem linkTagStep_linkTag_key_mono {std : GoStd} {linkID userID : String} {createdAt : Time}
    {st : GoMap TagRow × GoMap LinkTagRow} {tagAny : Val} {k : String}
    (h : k ∈ st.2.map Prod.fst) :
    k ∈ (linkTagStep std linkID userID createdAt st tagAny).2.map Prod.fst := by
  by_cases hn : sanitizeTagName (parseString tagAny) = ""
  · rw [linkTagStep_blank hn]; exact h
  · cases hl : mapLookup st.1 (tagKey std userID (sanitizeTagName (parseString tagAny))) with
    | none => rw [linkTagStep_new hn hl]; exact mapStore_key_mono h
    | some tag => rw [linkTagStep_found hn hl]; exact mapStore_key_mono h

theorem linkTagStep_resolved_persists {std : GoStd} {linkID userID : String} {createdAt : Time}
    {st : GoMap TagRow × GoMap LinkTagRow} {tagAny : Val} {k l : String}
    (h : ∃ r, (k, r) ∈ st.1 ∧ (l ++ "|" ++ r.ID) ∈ st.2.map Prod.fst) :
    ∃ r, (k, r) ∈ (linkTagStep std linkID userID createdAt st tagAny).1 ∧
      (l ++ "|" ++ r.ID) ∈ (linkTagStep std linkID userID createdAt st tagAny).2.map Prod.fst := by
  obtain ⟨r, hr, hkey⟩ := h
  exact ⟨r, linkTagStep_tagMap_mono hr, linkTagStep_linkTag_key_mono hkey⟩

theorem linkTagStep_resolves (std : GoStd) (linkID userID : String) (createdAt : Time)
    (st : GoMap TagRow × GoMap LinkTagRow) (tagAny : Val)
    (hn : sanitizeTagName (parseString tagAny) ≠ "") :
    ∃ r, (tagKey std userID (sanitizeTagName (parseString tagAny)), r) ∈
        (linkTagStep std linkID userID createdAt st tagAny).1 ∧
      (linkID ++ "|" ++ r.ID) ∈
        (linkTagStep std linkID userID createdAt st tagAny).2.map Prod.fst := by
  cases hl : mapLookup st.1 (tagKey std userID (sanitizeTagName (parseString tagAny))) with
  | none =>
    rw [linkTagStep_new hn hl]
    exact ⟨_, mem_mapStore_self _ _ _, mapStore_key_self _ _ _⟩
  | some tag =>
    rw [linkTagStep_found hn hl]
    exact ⟨tag, mapLookup_mem hl, mapStore_key_self _ _ _⟩

theorem linkStep_resolved_persists {std : GoStd} {now : Time} {st : LinkState}
    {d : FirestoreDocument} {k l : String}
    (h : ∃ r, (k, r) ∈ st.tagMap ∧ (l ++ "|" ++ r.ID) ∈ st.linkTagMap.map Prod.fst) :
    ∃ r, (k, r) ∈ (linkStep std now st d).tagMap ∧
      (l ++ "|" ++ r.ID) ∈ (linkStep std now st d).linkTagMap.map Prod.fst := by
  by_cases hdrop : linkDropped d
  · rw [linkStep_dropped hdrop]; exact h
  · rw [linkStep_kept hdrop]
    exact foldl_invariant (fun (m : GoMap TagRow × GoMap LinkTagRow) =>
      ∃ r, (k, r) ∈ m.1 ∧ (l ++ "|" ++ r.ID) ∈ m.2.map Prod.fst) _ _ _ h
      (fun _ _ _ hm => linkTagStep_resolved_persists hm)

/-- The rule of the loop over a link's tags, by key string. For every kept link
and every name of its tags array that is not blank, the Tags list has exactly one
row under the key `tagKey` of the link's user and the name, and the LinkTags
list has a row stored under the key string linkId + "|" + id of that Tag row.
The Tag row is determined by the key string alone, so two links whose names
have the same key string are given the same tagId. -/
theorem embedded_tag_resolves (std : GoStd) (now : Time) (exported : FirestoreExport)
    (d : FirestoreDocument) (tagAny : Val) (hd : d ∈ exported.collection "links")
    (hk : ¬ linkDropped d) (ht : tagAny ∈ toSlice (field d.Data "tags"))
    (hn : sanitizeTagName (parseString tagAny) ≠ "") :
    ∃ r ∈ (TransformExport std now exported).Tags,
      tagKey std r.UserID r.Name =
        tagKey std (parseString (field d.Data "userId"))
          (sanitizeTagName (parseString tagAny)) ∧
      (∀ r' ∈ (TransformExport std now exported).Tags,
        tagKey std r'.UserID r'.Name =
          tagKey std (parseString (field d.Data "userId"))
            (sanitizeTagName (parseString tagAny)) → r' = r) ∧
      ∃ lt ∈ (TransformExport std now exported).LinkTags,
        lt.LinkID ++ "|" ++ lt.TagID = d.ID ++ "|" ++ r.ID := by
  have hres : ∃ r, (tagKey std (parseString (field d.Data "userId"))
        (sanitizeTagName (parseString tagAny)), r) ∈ (linksLoop std now exported).tagMap ∧
      (d.ID ++ "|" ++ r.ID) ∈ (linksLoop std now exported).linkTagMap.map Prod.fst := by
    unfold linksLoop
    refine foldl_established (fun (st : LinkState) =>
      ∃ r, (tagKey std (parseString (field d.Data "userId"))
          (sanitizeTagName (parseString tagAny)), r) ∈ st.tagMap ∧
        (d.ID ++ "|" ++ r.ID) ∈ st.linkTagMap.map Prod.fst) _ _ _ d hd ?_ ?_
    · intro st
      rw [linkStep_kept hk]
      exact foldl_established (fun (m : GoMap TagRow × GoMap LinkTagRow) =>
        ∃ r, (tagKey std (parseString (field d.Data "userId"))
            (sanitizeTagName (parseString tagAny)), r) ∈ m.1 ∧
          (d.ID ++ "|" ++ r.ID) ∈ m.2.map Prod.fst) _ _ _ tagAny ht
        (fun m => linkTagStep_resolves std _ _ _ m tagAny hn)
        (fun _ _ hm => linkTagStep_resolved_persists hm)
    · intro st b hst
      exact linkStep_resolved_persists hst
  obtain ⟨r, hr, hkey⟩ := hres
  obtain ⟨hkt, hkl⟩ := linksLoop_keyed std now exported
  have hrk : tagKey std r.UserID r.Name = tagKey std (parseString (field d.Data "userId"))
      (sanitizeTagName (parseString tagAny)) := (hkt.2 _ hr).symm
  refine ⟨r, mem_Tags.2 (List.mem_map.2 ⟨_, hr, rfl⟩), hrk, ?_, ?_⟩
  · intro r' hr' hkey'
    obtain ⟨q, hq, rfl⟩ := List.mem_map.1 (mem_Tags.1 hr')
    have hq' : q = (tagKey std (parseString (field d.Data "userId"))
        (sanitizeTagName (parseString tagAny)), r) := by
      apply hkt.eq_of_key_eq hq hr
      rw [hkt.2 q hq]
      exact hkey'
    rw [hq']
  · obtain ⟨p, hp, hpk⟩ := List.mem_map.1 hkey
    refine ⟨p.2, mem_LinkTags.2 (List.mem_map.2 ⟨p, hp, rfl⟩), ?_⟩
    rw [← hpk, hkl.2 p hp]
    rfl

/-! ## C11: the type of a TimelineEntry row -/

theorem timelineRowOf_type {std : GoStd} {linkID : String} {createdAt : Time}
    {ie : Nat × Val} {r : TimelineEntryRow}
    (h : timelineRowOf std linkID createdAt ie = some r) :
    (r.Type' = "summary" ↔ trimSpace (parseString (field (toMap ie.2) "type")) = "summary") ∧
      (r.Type' ≠ "summary" → r.Type' = "note") := by
  unfold timelineRowOf at h
  split at h
  · cases h
  · cases h
    by_cases hs : trimSpace (parseString (field (toMap ie.2) "type")) = "summary"
    · simp [hs]
    · by_cases hn : trimSpace (parseString (field (toMap ie.2) "type")) = "note"
      · simp [hn]
      · simp [hs, hn]

/-- C11, as stated, fails: the entry at position 0 of the link `l1` of
`paddedSummary` has the type field " summary ", which is not the string
"summary", and its row has the type "summary". -/
theorem padded_summary_type_is_summary :
    ¬ ∀ (std : GoStd) (now : Time) (exported : FirestoreExport),
        ∀ d ∈ exported.collection "links", ¬ linkDropped d →
        ∀ (i : Nat) (entryAny : Val),
          (toSlice (field d.Data "timeline"))[i]? = some entryAny →
          ∀ r ∈ (TransformExport std now exported).TimelineEntries,
            r.ID = d.ID ++ "_" ++ Nat.repr i →
            (r.Type' = "summary" ↔ field (toMap entryAny) "type" = Val.str "summary") := by
  intro h
  have hc : paddedSummary.collection "links" = [paddedSummaryLink] := rfl
  have hrow : TimelineEntryRow.mk "l1_0" "l1" "summary" "x" 1000 ∈
      (TransformExport asciiStd 1000 paddedSummary).TimelineEntries := by decide
  have h1 := h asciiStd 1000 paddedSummary paddedSummaryLink
    (by rw [hc]; exact List.mem_singleton_self _)
    (by decide) 0 (Val.obj [("content", Val.str "x"), ("type", Val.str " summary ")]) rfl
    _ hrow (by decide)
  have h2 := h1.1 rfl
  have h3 : field (toMap (Val.obj [("content", Val.str "x"), ("type", Val.str " summary ")]))
      "type" = Val.str " summary " := rfl
  rw [h3] at h2
  injection h2 with h4
  exact absurd h4 (by decide)

/-- C11, amended. The type of an emitted TimelineEntry row is "summary" exactly
when the type field of its source entry is a string that is "summary" after
trimming, and "note" for every other source value (absent, not a string, or any
other string).  First part: every row of the output is the row of a position of
a kept link, given by its id, with this type; second part: every position that
emits has a row with this type. -/
theorem timeline_entry_type (std : GoStd) (now : Time) (exported : FirestoreExport) :
    (∀ r ∈ (TransformExport std now exported).TimelineEntries,
      ∃ d ∈ exported.collection "links", ¬ linkDropped d ∧
        ∃ i entryAny, (toSlice (field d.Data "timeline"))[i]? = some entryAny ∧
          r.ID = d.ID ++ "_" ++ Nat.repr i ∧ r.LinkID = d.ID ∧
          (r.Type' = "summary" ↔
            trimSpace (parseString (field (toMap entryAny) "type")) = "summary") ∧
          (r.Type' ≠ "summary" → r.Type' = "note")) ∧
    (∀ d ∈ exported.collection "links", ¬ linkDropped d →
      ∀ i entryAny, (toSlice (field d.Data "timeline"))[i]? = some entryAny →
        trimSpace (parseString (field (toMap entryAny) "content")) ≠ "" →
        ∃ r ∈ (TransformExport std now exported).TimelineEntries,
          r.ID = d.ID ++ "_" ++ Nat.repr i ∧ r.LinkID = d.ID ∧
          (r.Type' = "summary" ↔
            trimSpace (parseString (field (toMap entryAny) "type")) = "summary") ∧
          (r.Type' ≠ "summary" → r.Type' = "note")) := by
  constructor
  · intro r hr
    obtain ⟨d, hd, hk, hrow⟩ := mem_TimelineEntries_iff.1 hr
    obtain ⟨i, v, hget, hri⟩ := mem_linkTimelineRows.1 hrow
    obtain ⟨_, hid, hlink, _⟩ := timelineRowOf_some hri
    obtain ⟨ht1, ht2⟩ := timelineRowOf_type hri
    exact ⟨d, hd, hk, i, v, hget, hid, hlink, ht1, ht2⟩
  · intro d hd hk i v hget hc
    obtain ⟨r, hr⟩ := timelineRowOf_isSome std d.ID (linkCreatedAt std now d) (i, v) hc
    obtain ⟨_, hid, hlink, _⟩ := timelineRowOf_some hr
    obtain ⟨ht1, ht2⟩ := timelineRowOf_type hr
    exact ⟨r, mem_TimelineEntries_iff.2 ⟨d, hd, hk, mem_linkTimelineRows.2 ⟨i, v, hget, hr⟩⟩,
      hid, hlink, ht1, ht2⟩
/-! ## The rows of the loops over the developers and the maintenance logs -/

theorem developerStep_eq (std : GoStd) (now : Time) (acc : List DeveloperRow)
    (d : FirestoreDocument) :
    developerStep std now acc d =
      if developerDropped d then acc else acc ++ [developerRowOf std now d] := by
  unfold developerStep developerDropped developerRowOf
  rfl

theorem developer_foldl (std : GoStd) (now : Time) (l : List FirestoreDocument)
    (acc : List DeveloperRow) :
    l.foldl (developerStep std now) acc =
      acc ++ (l.filter (fun d => decide (¬ developerDropped d))).map
        (developerRowOf std now) := by
  induction l generalizing acc with
  | nil => simp
  | cons d l ih =>
    rw [List.foldl_cons, ih, developerStep_eq]
    by_cases h : developerDropped d
    · simp [List.filter_cons, h]
    · simp [List.filter_cons, h]

theorem logStep_eq (std : GoStd) (now : Time) (acc : List MaintenanceLogRow)
    (d : FirestoreDocument) : logStep std now acc d = acc ++ [logRowOf std now d] := rfl

theorem log_foldl (std : GoStd) (now : Time) (l : List FirestoreDocument)
    (acc : List MaintenanceLogRow) :
    l.foldl (logStep std now) acc = acc ++ l.map (logRowOf std now) := by
  induction l generalizing acc with
  | nil => simp
  | cons d l ih =>
    rw [List.foldl_cons, ih, logStep_eq]
    simp

theorem Developers_perm (std : GoStd) (now : Time) (exported : FirestoreExport) :
    (TransformExport std now exported).Developers.Perm
      (((exported.collection "developers").filter
        (fun d => decide (¬ developerDropped d))).map (developerRowOf std now)) := by
  have h := developer_foldl std now (exported.collection "developers") []
  rw [List.nil_append] at h
  rw [← h]
  unfold TransformExport
  exact sortSlice_perm _ _

theorem MaintenanceLogs_perm (std : GoStd) (now : Time) (exported : FirestoreExport) :
    (TransformExport std now exported).MaintenanceLogs.Perm
      ((exported.collection "maintenanceLogs").map (logRowOf std now)) := by
  have h := log_foldl std now (exported.collection "maintenanceLogs") []
  rw [List.nil_append] at h
  rw [← h]
  unfold TransformExport
  exact sortSlice_perm _ _

theorem mem_Developers_iff {std : GoStd} {now : Time} {exported : FirestoreExport}
    {r : DeveloperRow} :
    r ∈ (TransformExport std now exported).Developers ↔
      ∃ d ∈ exported.collection "developers", ¬ developerDropped d ∧
        r = developerRowOf std now d := by
  rw [(Developers_perm std now exported).mem_iff]
  simp only [List.mem_map, List.mem_filter, decide_eq_true_eq]
  constructor
  · rintro ⟨d, ⟨hd, hk⟩, hr⟩
    exact ⟨d, hd, hk, hr.symm⟩
  · rintro ⟨d, hd, hk, hr⟩
    exact ⟨d, ⟨hd, hk⟩, hr.symm⟩

theorem mem_MaintenanceLogs_iff {std : GoStd} {now : Time} {exported : FirestoreExport}
    {r : MaintenanceLogRow} :
    r ∈ (TransformExport std now exported).MaintenanceLogs ↔
      ∃ d ∈ exported.collection "maintenanceLogs", r = logRowOf std now d := by
  rw [(MaintenanceLogs_perm std now exported).mem_iff]
  simp only [List.mem_map]
  constructor
  · rintro ⟨d, hd, hr⟩
    exact ⟨d, hd, hr.symm⟩
  · rintro ⟨d, hd, hr⟩
    exact ⟨d, hd, hr.symm⟩

/-! ## C12: the values of type and action -/

theorem logRowOf_action (std : GoStd) (now : Time) (d : FirestoreDocument) :
    ((logRowOf std now d).Action = "enabled" ∨ (logRowOf std now d).Action = "disabled") ∧
    (trimSpace (parseString (field d.Data "action")) = "enabled" →
      (logRowOf std now d).Action = "enabled") ∧
    (trimSpace (parseString (field d.Data "action")) ≠ "enabled" →
      (logRowOf std now d).Action = "disabled") := by
  by_cases he : trimSpace (parseString (field d.Data "action")) = "enabled"
  · simp [logRowOf, he]
  · by_cases hd : trimSpace (parseString (field d.Data "action")) = "disabled"
    · simp [logRowOf, hd]
    · simp [logRowOf, he, hd]

/-- C12, as stated, fails in its last part: the action " enabled " of
`paddedEnabledLog` is neither "enabled" nor "disabled", and its row has the action
"enabled". -/
theorem padded_enabled_action_is_enabled :
    ¬ ∀ (std : GoStd) (now : Time) (exported : FirestoreExport),
        ∀ d ∈ exported.collection "maintenanceLogs",
        field d.Data "action" ≠ Val.str "enabled" →
        field d.Data "action" ≠ Val.str "disabled" →
        ∀ r ∈ (TransformExport std now exported).MaintenanceLogs,
          r.ID = d.ID → r.Action = "disabled" := by
  intro h
  have hc : paddedEnabled.collection "maintenanceLogs" = [paddedEnabledLog] := rfl
  have hrow : MaintenanceLogRow.mk "m1" "enabled" none "" "" 1000 false ∈
      (TransformExport asciiStd 1000 paddedEnabled).MaintenanceLogs := by decide
  have h1 := h asciiStd 1000 paddedEnabled paddedEnabledLog
    (by rw [hc]; exact List.mem_singleton_self _)
    (by intro e; injection e with e'; exact absurd e' (by decide))
    (by intro e; injection e with e'; exact absurd e' (by decide))
    _ hrow rfl
  exact absurd h1 (by decide)

/-- C12, amended. Every TimelineEntry row has the type "note" or "summary" and
every MaintenanceLog row has the action "enabled" or "disabled", whatever the
source documents hold; every maintenance log document has a row with its id,
whose action is "enabled" when the source action is a string that is "enabled"
after trimming and "disabled" for every other source value. -/
theorem type_and_action_values (std : GoStd) (now : Time) (exported : FirestoreExport) :
    (∀ r ∈ (TransformExport std now exported).TimelineEntries,
      r.Type' = "note" ∨ r.Type' = "summary") ∧
    (∀ r ∈ (TransformExport std now exported).MaintenanceLogs,
      r.Action = "enabled" ∨ r.Action = "disabled") ∧
    (∀ d ∈ exported.collection "maintenanceLogs",
      ∃ r ∈ (TransformExport std now exported).MaintenanceLogs, r.ID = d.ID ∧
        (trimSpace (parseString (field d.Data "action")) = "enabled" →
          r.Action = "enabled") ∧
        (trimSpace (parseString (field d.Data "action")) ≠ "enabled" →
          r.Action = "disabled")) := by
  refine ⟨?_, ?_, ?_⟩
  · intro r hr
    obtain ⟨d, _, _, hrow⟩ := mem_TimelineEntries_iff.1 hr
    obtain ⟨i, v, _, hri⟩ := mem_linkTimelineRows.1 hrow
    obtain ⟨_, ht2⟩ := timelineRowOf_type hri
    by_cases hs : r.Type' = "summary"
    · exact Or.inr hs
    · exact Or.inl (ht2 hs)
  · intro r hr
    obtain ⟨d, _, rfl⟩ := mem_MaintenanceLogs_iff.1 hr
    exact (logRowOf_action std now d).1
  · intro d hd
    exact ⟨logRowOf std now d, mem_MaintenanceLogs_iff.2 ⟨d, hd, rfl⟩, rfl,
      (logRowOf_action std now d).2.1, (logRowOf_action std now d).2.2⟩
/-! ## C13: the deletedAt of a Developer row -/

theorem parseTimePtr_of_ne_null {std : GoStd} {v : Val} (h : v ≠ Val.null) :
    parseTimePtr std v =
      if parseTime std v 0 = 0 then none else some (parseTime std v 0) := by
  cases v with
  | null => exact absurd rfl h
  | _ => rfl

theorem parseTimePtr_eq_some {std : GoStd} {v : Val} {t : Time} :
    parseTimePtr std v = some t ↔ v ≠ Val.null ∧ parseTime std v 0 = t ∧ t ≠ 0 := by
  by_cases hv : v = Val.null
  · subst hv
    simp [parseTimePtr]
  · rw [parseTimePtr_of_ne_null hv]
    by_cases h : parseTime std v 0 = 0
    · rw [if_pos h]
      constructor
      · intro e; cases e
      · rintro ⟨_, e, hne⟩
        exact absurd (e ▸ h) hne
    · rw [if_neg h]
      constructor
      · intro e
        cases e
        exact ⟨hv, rfl, h⟩
      · rintro ⟨_, e, _⟩
        rw [e]

theorem parseBool_eq_true {v : Val} : parseBool v false = true ↔ v = Val.bool true := by
  cases v with
  | bool b => cases b <;> simp [parseBool]
  | _ => simp [parseBool]

theorem developerRowOf_deletedAt (std : GoStd) (now : Time) (d : FirestoreDocument) :
    (field d.Data "deleted" = Val.bool true →
      parseTimePtr std (field d.Data "deletedAt") = none →
      (developerRowOf std now d).DeletedAt = some now) ∧
    (∀ t, parseTimePtr std (field d.Data "deletedAt") = some t →
      (developerRowOf std now d).DeletedAt = some t) ∧
    (field d.Data "deleted" ≠ Val.bool true →
      parseTimePtr std (field d.Data "deletedAt") = none →
      (developerRowOf std now d).DeletedAt = none) := by
  refine ⟨?_, ?_, ?_⟩
  · intro hdel hnone
    have hb : parseBool (field d.Data "deleted") false = true := parseBool_eq_true.2 hdel
    simp [developerRowOf, hb, hnone]
  · intro t ht
    by_cases hb : parseBool (field d.Data "deleted") false = true
    · simp [developerRowOf, hb, ht]
    · simp [developerRowOf, hb, ht]
  · intro hdel hnone
    have hb : ¬ parseBool (field d.Data "deleted") false = true :=
      fun h => hdel (parseBool_eq_true.1 h)
    simp [developerRowOf, hb, hnone]

/-- C13, as stated, fails: the developer document `d1` of `blankEmail` has the
non-empty email " " and no Developer row. -/
theorem blank_email_developer_has_no_row :
    ¬ ∀ (std : GoStd) (now : Time) (exported : FirestoreExport),
        ∀ d ∈ exported.collection "developers",
        parseString (field d.Data "email") ≠ "" →
        ∃ r ∈ (TransformExport std now exported).Developers, r.UID = d.ID ∧
          (field d.Data "deleted" = Val.bool true →
            parseTimePtr std (field d.Data "deletedAt") = none →
            r.DeletedAt = some now) ∧
          (∀ t, parseTimePtr std (field d.Data "deletedAt") = some t →
            r.DeletedAt = some t) ∧
          (field d.Data "deleted" ≠ Val.bool true →
            parseTimePtr std (field d.Data "deletedAt") = none →
            r.DeletedAt = none) := by
  intro h
  have hc : blankEmail.collection "developers" = [blankEmailDeveloper] := rfl
  obtain ⟨r, hr, _⟩ := h asciiStd 1000 blankEmail blankEmailDeveloper
    (by rw [hc]; exact List.mem_singleton_self _) (by decide)
  have hnil : (TransformExport asciiStd 1000 blankEmail).Developers = [] := by decide
  rw [hnil] at hr
  simp at hr

/-- C13, amended. Every developer document whose email is non-empty after
trimming has a Developer row with its id, whose deletedAt is: the transform time
`now` when the source has deleted = true and no usable deletedAt; the source's
deletedAt when it is usable, also when deleted is false or absent; and absent
when deleted is not true and the source has no usable deletedAt.  A source
deletedAt is usable when it is present and reads, by `parseTime`, as an instant
other than the zero time.  The Developers list has exactly one row per such
document, so a document whose email is empty, or blank, produces no row. -/
theorem developer_deleted_at (std : GoStd) (now : Time) (exported : FirestoreExport) :
    (∀ d ∈ exported.collection "developers",
      trimSpace (parseString (field d.Data "email")) ≠ "" →
      ∃ r ∈ (TransformExport std now exported).Developers, r.UID = d.ID ∧
        r.Email = trimSpace (parseString (field d.Data "email")) ∧
        (field d.Data "deleted" = Val.bool true →
          parseTimePtr std (field d.Data "deletedAt") = none →
          r.DeletedAt = some now) ∧
        (∀ t, parseTimePtr std (field d.Data "deletedAt") = some t →
          r.DeletedAt = some t) ∧
        (field d.Data "deleted" ≠ Val.bool true →
          parseTimePtr std (field d.Data "deletedAt") = none →
          r.DeletedAt = none)) ∧
    (∀ (v : Val) (t : Time),
      parseTimePtr std v = some t ↔ v ≠ Val.null ∧ parseTime std v 0 = t ∧ t ≠ 0) ∧
    (TransformExport std now exported).Developers.length =
      ((exported.collection "developers").filter (fun d =>
        decide (trimSpace (parseString (field d.Data "email")) ≠ ""))).length := by
  refine ⟨?_, fun v t => parseTimePtr_eq_some, ?_⟩
  · intro d hd hk
    obtain ⟨h1, h2, h3⟩ := developerRowOf_deletedAt std now d
    exact ⟨developerRowOf std now d, mem_Developers_iff.2 ⟨d, hd, hk, rfl⟩, rfl, rfl,
      h1, h2, h3⟩
  · rw [(Developers_perm std now exported).length_eq, List.length_map]
    rfl

/-! ## C14: the MaintenanceStatus row -/

theorem parseStringPtr_str (s : String) :
    parseStringPtr (Val.str s) = if trimSpace s = "" then none else some (trimSpace s) := rfl

theorem parseStringPtr_of_not_str {v : Val} (h : ∀ s, v ≠ Val.str s) :
    parseStringPtr v = none := by
  cases v with
  | str s => exact absurd rfl (h s)
  | _ => rfl

/-- C14. The MaintenanceStatus row has the id "current".  Without a singleton
document it has isMaintenanceMode = false and no reason, startedAt or startedBy.
With a singleton document, isMaintenanceMode is the source value when that is a
boolean and false otherwise, and the other three fields are the source fields
read by `parseStringPtr` and `parseTimePtr`: reason and startedBy are the source
string without the white space around it, and absent when the source value is a
blank string or not a string; startedAt is the instant that `parseTime` reads,
and absent when the source value is absent or reads as the zero time. -/
theorem maintenance_status_row (std : GoStd) (now : Time) (exported : FirestoreExport) :
    (TransformExport std now exported).MaintenanceStatus.ID = "current" ∧
    (exported.MaintenanceCurrent = none →
      (TransformExport std now exported).MaintenanceStatus =
        { ID := "current", IsMaintenanceMode := false, Reason := none, StartedAt := none,
          StartedBy := none }) ∧
    (∀ doc, exported.MaintenanceCurrent = some doc →
      (∀ b, field doc.Data "isMaintenanceMode" = Val.bool b →
        (TransformExport std now exported).MaintenanceStatus.IsMaintenanceMode = b) ∧
      ((∀ b, field doc.Data "isMaintenanceMode" ≠ Val.bool b) →
        (TransformExport std now exported).MaintenanceStatus.IsMaintenanceMode = false) ∧
      (TransformExport std now exported).MaintenanceStatus.Reason =
        parseStringPtr (field doc.Data "reason") ∧
      (TransformExport std now exported).MaintenanceStatus.StartedAt =
        parseTimePtr std (field doc.Data "startedAt") ∧
      (TransformExport std now exported).MaintenanceStatus.StartedBy =
        parseStringPtr (field doc.Data "startedBy") ∧
      (∀ s, field doc.Data "reason" = Val.str s → trimSpace s ≠ "" →
        (TransformExport std now exported).MaintenanceStatus.Reason = some (trimSpace s)) ∧
      (∀ s, field doc.Data "reason" = Val.str s → trimSpace s = "" →
        (TransformExport std now exported).MaintenanceStatus.Reason = none) ∧
      ((∀ s, field doc.Data "reason" ≠ Val.str s) →
        (TransformExport std now exported).MaintenanceStatus.Reason = none) ∧
      (∀ s, field doc.Data "startedBy" = Val.str s → trimSpace s ≠ "" →
        (TransformExport std now exported).MaintenanceStatus.StartedBy =
          some (trimSpace s)) ∧
      (∀ s, field doc.Data "startedBy" = Val.str s → trimSpace s = "" →
        (TransformExport std now exported).MaintenanceStatus.StartedBy = none) ∧
      ((∀ s, field doc.Data "startedBy" ≠ Val.str s) →
        (TransformExport std now exported).MaintenanceStatus.StartedBy = none) ∧
      (∀ t, (TransformExport std now exported).MaintenanceStatus.StartedAt = some t ↔
        field doc.Data "startedAt" ≠ Val.null ∧
          parseTime std (field doc.Data "startedAt") 0 = t ∧ t ≠ 0) ∧
      (∀ t, field doc.Data "startedAt" = Val.time t → t ≠ 0 →
        (TransformExport std now exported).MaintenanceStatus.StartedAt = some t) ∧
      (field doc.Data "startedAt" = Val.null →
        (TransformExport std now exported).MaintenanceStatus.StartedAt = none)) ∧
    (TransformExport std now maintenanceOn).MaintenanceStatus =
      { ID := "current", IsMaintenanceMode := true, Reason := some "upgrade",
        StartedAt := some 5, StartedBy := some "admin" } := by
  have hm : ∀ e, (TransformExport std now e).MaintenanceStatus =
      maintenanceStatus std e := fun _ => rfl
  rw [hm, hm]
  refine ⟨?_, ?_, ?_, rfl⟩
  · unfold maintenanceStatus
    cases exported.MaintenanceCurrent <;> rfl
  · intro h
    unfold maintenanceStatus
    rw [h]
  · intro doc h
    have hrow : maintenanceStatus std exported =
        { ID := "current"
          IsMaintenanceMode := parseBool (field doc.Data "isMaintenanceMode") false
          Reason := parseStringPtr (field doc.Data "reason")
          StartedAt := parseTimePtr std (field doc.Data "startedAt")
          StartedBy := parseStringPtr (field doc.Data "startedBy") } := by
      unfold maintenanceStatus
      rw [h]
    rw [hrow]
    refine ⟨?_, ?_, rfl, rfl, rfl, ?_, ?_, ?_, ?_, ?_, ?_, ?_, ?_, ?_⟩
    · intro b hb
      simp [hb, parseBool]
    · intro hb
      show parseBool (field doc.Data "isMaintenanceMode") false = false
      cases hv : field doc.Data "isMaintenanceMode" with
      | bool b => exact absurd hv (hb b)
      | _ => rfl
    · intro s hs hne
      show parseStringPtr (field doc.Data "reason") = some (trimSpace s)
      rw [hs, parseStringPtr_str, if_neg hne]
    · intro s hs hblank
      show parseStringPtr (field doc.Data "reason") = none
      rw [hs, parseStringPtr_str, if_pos hblank]
    · intro hs
      exact parseStringPtr_of_not_str hs
    · intro s hs hne
      show parseStringPtr (field doc.Data "startedBy") = some (trimSpace s)
      rw [hs, parseStringPtr_str, if_neg hne]
    · intro s hs hblank
      show parseStringPtr (field doc.Data "startedBy") = none
      rw [hs, parseStringPtr_str, if_pos hblank]
    · intro hs
      exact parseStringPtr_of_not_str hs
    · intro t
      exact parseTimePtr_eq_some
    · intro t ht hne
      show parseTimePtr std (field doc.Data "startedAt") = some t
      rw [ht]
      exact parseTimePtr_eq_some.2 ⟨by simp, rfl, hne⟩
    · intro hnull
      show parseTimePtr std (field doc.Data "startedAt") = none
      rw [hnull]
      rfl

/-! ## C16: the report -/

/-- C16. The report has exactly eight lines, in this order, and each of the
first seven numbers is the length of the list of the same dataset; numbers are
written in decimal. -/
theorem report_lines (std : GoStd) (now : Time) (exported : FirestoreExport) :
    ∃ n : Nat, (TransformExport std now exported).Report =
      [ "users: " ++ Nat.repr (TransformExport std now exported).Users.length,
        "links: " ++ Nat.repr (TransformExport std now exported).Links.length,
        "tags: " ++ Nat.repr (TransformExport std now exported).Tags.length,
        "link_tags: " ++ Nat.repr (TransformExport std now exported).LinkTags.length,
        "timeline_entries: " ++
          Nat.repr (TransformExport std now exported).TimelineEntries.length,
        "developers: " ++ Nat.repr (TransformExport std now exported).Developers.length,
        "maintenance_logs: " ++
          Nat.repr (TransformExport std now exported).MaintenanceLogs.length,
        "duplicate_tags_merged: " ++ Nat.repr n ] :=
  ⟨(tagsLoop std now exported).duplicateTagCount, rfl⟩

/-! ## C20: the coercions -/

/-- C20. The coercions are total functions with the stated defaults:
`parseString` gives the string, and "" for every other value; `parseStringPtr`
gives nothing for a value that is not a string; `parseBool` gives the boolean,
and the fallback for every other value; `toSlice` gives the array, and the empty
list for every other value; `toMap` gives the object, and the empty mapping for
every other value.  The absent value `nil` is one of the other values. -/
theorem coercions_total :
    (∀ s, parseString (Val.str s) = s) ∧
    (∀ v, (∀ s, v ≠ Val.str s) → parseString v = "") ∧
    (∀ v, (∀ s, v ≠ Val.str s) → parseStringPtr v = none) ∧
    (∀ b d, parseBool (Val.bool b) d = b) ∧
    (∀ v d, (∀ b, v ≠ Val.bool b) → parseBool v d = d) ∧
    (∀ l, toSlice (Val.arr l) = l) ∧
    (∀ v, (∀ l, v ≠ Val.arr l) → toSlice v = []) ∧
    (∀ m, toMap (Val.obj m) = m) ∧
    (∀ v, (∀ m, v ≠ Val.obj m) → toMap v = []) ∧
    parseString Val.null = "" ∧ parseStringPtr Val.null = none ∧
    (∀ d, parseBool Val.null d = d) ∧ toSlice Val.null = [] ∧ toMap Val.null = [] := by
  refine ⟨fun _ => rfl, fun v h => parseString_of_not_str h, ?_, fun _ _ => rfl, ?_,
    fun _ => rfl, ?_, fun _ => rfl, ?_, rfl, rfl, fun _ => rfl, rfl, rfl⟩
  · intro v h
    cases v with
    | str s => exact absurd rfl (h s)
    | _ => rfl
  · intro v d h
    cases v with
    | bool b => exact absurd rfl (h b)
    | _ => rfl
  · intro v h
    cases v with
    | arr l => exact absurd rfl (h l)
    | _ => rfl
  · intro v h
    cases v with
    | obj m => exact absurd rfl (h m)
    | _ => rfl

/-! ## C15: the order of the lists -/

theorem sortSlice_pairwise {α : Type} (less : α → α → Bool) (R : α → α → Prop)
    (hiff : ∀ a b, less b a = false ↔ R a b) (htot : ∀ a b, R a b ∨ R b a)
    (htr : ∀ a b c, R a b → R b c → R a c) (xs : List α) :
    (sortSlice less xs).Pairwise R := by
  haveI : IsTotal α (fun a b => less b a = false) :=
    ⟨fun a b => by rw [hiff, hiff]; exact htot a b⟩
  haveI : IsTrans α (fun a b => less b a = false) :=
    ⟨fun a b c hab hbc => by
      rw [hiff] at hab hbc ⊢
      exact htr a b c hab hbc⟩
  have h := List.sorted_insertionSort (fun a b => less b a = false) xs
  exact List.Pairwise.imp (fun h => (hiff _ _).1 h) h

theorem lexLess_false_iff {κ₁ κ₂ : Type} [LinearOrder κ₁] [LinearOrder κ₂]
    (a1 b1 : κ₁) (a2 b2 : κ₂) [Decidable (b1 = a1)] [Decidable (b2 < a2)]
    [Decidable (b1 < a1)] :
    (if b1 = a1 then decide (b2 < a2) else decide (b1 < a1)) = false ↔
      a1 < b1 ∨ (a1 = b1 ∧ a2 ≤ b2) := by
  by_cases h : b1 = a1
  · rw [if_pos h, decide_eq_false_iff_not, not_lt]
    constructor
    · intro hle
      exact Or.inr ⟨h.symm, hle⟩
    · rintro (hlt | ⟨_, hle⟩)
      · exact absurd h.symm (ne_of_lt hlt)
      · exact hle
  · rw [if_neg h, decide_eq_false_iff_not, not_lt]
    constructor
    · intro hle
      exact Or.inl (lt_of_le_of_ne hle (fun e => h e.symm))
    · rintro (hlt | ⟨e, _⟩)
      · exact le_of_lt hlt
      · exact absurd e.symm h

theorem lex_total {κ₁ κ₂ : Type} [LinearOrder κ₁] [LinearOrder κ₂] (a1 b1 : κ₁) (a2 b2 : κ₂) :
    (a1 < b1 ∨ (a1 = b1 ∧ a2 ≤ b2)) ∨ (b1 < a1 ∨ (b1 = a1 ∧ b2 ≤ a2)) := by
  rcases lt_trichotomy a1 b1 with h | h | h
  · exact Or.inl (Or.inl h)
  · rcases le_total a2 b2 with h2 | h2
    · exact Or.inl (Or.inr ⟨h, h2⟩)
    · exact Or.inr (Or.inr ⟨h.symm, h2⟩)
  · exact Or.inr (Or.inl h)

theorem lex_trans {κ₁ κ₂ : Type} [LinearOrder κ₁] [LinearOrder κ₂] (a1 b1 c1 : κ₁)
    (a2 b2 c2 : κ₂) (hab : a1 < b1 ∨ (a1 = b1 ∧ a2 ≤ b2))
    (hbc : b1 < c1 ∨ (b1 = c1 ∧ b2 ≤ c2)) : a1 < c1 ∨ (a1 = c1 ∧ a2 ≤ c2) := by
  rcases hab with h | ⟨h, h2⟩
  · rcases hbc with h' | ⟨h', _⟩
    · exact Or.inl (lt_trans h h')
    · exact Or.inl (h' ▸ h)
  · rcases hbc with h' | ⟨h', h2'⟩
    · exact Or.inl (h ▸ h')
    · exact Or.inr ⟨h.trans h', le_trans h2 h2'⟩

theorem Users_eq (std : GoStd) (now : Time) (exported : FirestoreExport) :
    (TransformExport std now exported).Users =
      sortSlice (fun a b => decide (a.ID < b.ID))
        ((exported.collection "users").foldl (userStep std now) []) := rfl

theorem Links_eq (std : GoStd) (now : Time) (exported : FirestoreExport) :
    (TransformExport std now exported).Links =
      sortSlice (fun a b => decide (a.CreatedAt > b.CreatedAt))
        (linksLoop std now exported).Links := rfl

theorem Tags_eq (std : GoStd) (now : Time) (exported : FirestoreExport) :
    (TransformExport std now exported).Tags =
      sortSlice tagLess (mapValues (linksLoop std now exported).tagMap) := rfl

theorem LinkTags_eq (std : GoStd) (now : Time) (exported : FirestoreExport) :
    (TransformExport std now exported).LinkTags =
      sortSlice linkTagLess (mapValues (linksLoop std now exported).linkTagMap) := rfl

theorem TimelineEntries_eq (std : GoStd) (now : Time) (exported : FirestoreExport) :
    (TransformExport std now exported).TimelineEntries =
      sortSlice entryLess (linksLoop std now exported).TimelineEntries := rfl

theorem Developers_eq (std : GoStd) (now : Time) (exported : FirestoreExport) :
    (TransformExport std now exported).Developers =
      sortSlice (fun a b => decide (a.UID < b.UID))
        ((exported.collection "developers").foldl (developerStep std now) []) := rfl

theorem MaintenanceLogs_eq (std : GoStd) (now : Time) (exported : FirestoreExport) :
    (TransformExport std now exported).MaintenanceLogs =
      sortSlice (fun a b => decide (a.Timestamp > b.Timestamp))
        ((exported.collection "maintenanceLogs").foldl (logStep std now) []) := rfl

theorem tagLess_false_iff (a b : TagRow) :
    tagLess b a = false ↔ a.UserID < b.UserID ∨ (a.UserID = b.UserID ∧ a.Name ≤ b.Name) := by
  unfold tagLess
  exact lexLess_false_iff a.UserID b.UserID a.Name b.Name

theorem linkTagLess_false_iff (a b : LinkTagRow) :
    linkTagLess b a = false ↔
      a.LinkID < b.LinkID ∨ (a.LinkID = b.LinkID ∧ a.TagID ≤ b.TagID) := by
  unfold linkTagLess
  exact lexLess_false_iff a.LinkID b.LinkID a.TagID b.TagID

theorem entryLess_false_iff (a b : TimelineEntryRow) :
    entryLess b a = false ↔
      a.LinkID < b.LinkID ∨ (a.LinkID = b.LinkID ∧ a.CreatedAt ≤ b.CreatedAt) := by
  unfold entryLess
  exact lexLess_false_iff a.LinkID b.LinkID a.CreatedAt b.CreatedAt

/-- C15. The lists of the transformed dataset are ordered: Users by id
ascending; Links by createdAt descending; Tags by (userId, name) ascending;
LinkTags by (linkId, tagId) ascending; TimelineEntries by linkId ascending and,
within one linkId, by createdAt ascending; Developers by uid ascending;
MaintenanceLogs by timestamp descending.  The order holds between every row and
every later row, in particular between adjacent rows.  Strings are compared rune
by rune, which on valid UTF-8 is the byte order Go uses. -/
theorem lists_ordered (std : GoStd) (now : Time) (exported : FirestoreExport) :
    (TransformExport std now exported).Users.Pairwise (fun a b => a.ID ≤ b.ID) ∧
    (TransformExport std now exported).Links.Pairwise
      (fun a b => b.CreatedAt ≤ a.CreatedAt) ∧
    (TransformExport std now exported).Tags.Pairwise
      (fun a b => a.UserID < b.UserID ∨ (a.UserID = b.UserID ∧ a.Name ≤ b.Name)) ∧
    (TransformExport std now exported).LinkTags.Pairwise
      (fun a b => a.LinkID < b.LinkID ∨ (a.LinkID = b.LinkID ∧ a.TagID ≤ b.TagID)) ∧
    (TransformExport std now exported).TimelineEntries.Pairwise
      (fun a b => a.LinkID < b.LinkID ∨
        (a.LinkID = b.LinkID ∧ a.CreatedAt ≤ b.CreatedAt)) ∧
    (TransformExport std now exported).Developers.Pairwise (fun a b => a.UID ≤ b.UID) ∧
    (TransformExport std now exported).MaintenanceLogs.Pairwise
      (fun a b => b.Timestamp ≤ a.Timestamp) := by
  rw [Users_eq, Links_eq, Tags_eq, LinkTags_eq, TimelineEntries_eq, Developers_eq,
    MaintenanceLogs_eq]
  refine ⟨?_, ?_, ?_, ?_, ?_, ?_, ?_⟩
  · exact sortSlice_pairwise (fun (a b : UserRow) => decide (a.ID < b.ID))
      (fun a b => a.ID ≤ b.ID) (fun a b => by simp) (fun a b => le_total _ _)
      (fun a b c => le_trans) _
  · exact sortSlice_pairwise (fun (a b : LinkRow) => decide (a.CreatedAt > b.CreatedAt))
      (fun a b => b.CreatedAt ≤ a.CreatedAt) (fun a b => by simp) (fun a b => le_total _ _)
      (fun a b c h1 h2 => le_trans h2 h1) _
  · exact sortSlice_pairwise tagLess _ tagLess_false_iff
      (fun a b => lex_total _ _ _ _) (fun a b c => lex_trans _ _ _ _ _ _) _
  · exact sortSlice_pairwise linkTagLess _ linkTagLess_false_iff
      (fun a b => lex_total _ _ _ _) (fun a b c => lex_trans _ _ _ _ _ _) _
  · exact sortSlice_pairwise entryLess _ entryLess_false_iff
      (fun a b => lex_total _ _ _ _) (fun a b c => lex_trans _ _ _ _ _ _) _
  · exact sortSlice_pairwise (fun (a b : DeveloperRow) => decide (a.UID < b.UID))
      (fun a b => a.UID ≤ b.UID) (fun a b => by simp) (fun a b => le_total _ _)
      (fun a b c => le_trans) _
  · exact sortSlice_pairwise
      (fun (a b : MaintenanceLogRow) => decide (a.Timestamp > b.Timestamp))
      (fun a b => b.Timestamp ≤ a.Timestamp) (fun a b => by simp) (fun a b => le_total _ _)
      (fun a b c h1 h2 => le_trans h2 h1) _
/-! ## C17: the output does not depend on the iteration order of the maps -/

theorem TransformExport_eq_iter (std : GoStd) (now : Time) (exported : FirestoreExport) :
    TransformExport std now exported =
      TransformExportIter std now exported (mapValues (linksLoop std now exported).tagMap)
        (mapValues (linksLoop std now exported).linkTagMap) := rfl

theorem TransformExportIter_eq (std : GoStd) (now : Time) (exported : FirestoreExport)
    (tagsIter : List TagRow) (linkTagsIter : List LinkTagRow) :
    TransformExportIter std now exported tagsIter linkTagsIter =
      { GeneratedAt := now
        Users := (TransformExport std now exported).Users
        Links := (TransformExport std now exported).Links
        Tags := sortSlice tagLess tagsIter
        LinkTags := sortSlice linkTagLess linkTagsIter
        TimelineEntries := (TransformExport std now exported).TimelineEntries
        MaintenanceStatus := (TransformExport std now exported).MaintenanceStatus
        Developers := (TransformExport std now exported).Developers
        MaintenanceLogs := (TransformExport std now exported).MaintenanceLogs
        Report :=
          [ "users: " ++ Nat.repr (TransformExport std now exported).Users.length,
            "links: " ++ Nat.repr (TransformExport std now exported).Links.length,
            "tags: " ++ Nat.repr (sortSlice tagLess tagsIter).length,
            "link_tags: " ++ Nat.repr (sortSlice linkTagLess linkTagsIter).length,
            "timeline_entries: " ++
              Nat.repr (TransformExport std now exported).TimelineEntries.length,
            "developers: " ++ Nat.repr (TransformExport std now exported).Developers.length,
            "maintenance_logs: " ++
              Nat.repr (TransformExport std now exported).MaintenanceLogs.length,
            "duplicate_tags_merged: " ++
              Nat.repr (tagsLoop std now exported).duplicateTagCount ] } := rfl

theorem sortSlice_sorted {α : Type} (less : α → α → Bool)
    (htot : ∀ a b, less b a = false ∨ less a b = false)
    (htr : ∀ a b c, less b a = false → less c b = false → less c a = false) (xs : List α) :
    (sortSlice less xs).Pairwise (fun a b => less b a = false) :=
  sortSlice_pairwise less (fun a b => less b a = false) (fun _ _ => Iff.rfl) htot htr xs

/-- A list has one sorted arrangement only, when no two of its elements compare
as equal: two permutations of each other that are both sorted by `less` are the
same list. -/
theorem sorted_perm_unique {α : Type} (less : α → α → Bool) (D : α → α → Prop)
    (hsymm : ∀ a b, D a b → D b a)
    (hasym : ∀ a b, D a b → less b a = false → less a b = false → False)
    {l1 l2 : List α} (hp : l1.Perm l2) (hd : l1.Pairwise D)
    (h1 : l1.Pairwise (fun a b => less b a = false))
    (h2 : l2.Pairwise (fun a b => less b a = false)) : l1 = l2 := by
  haveI : IsAntisymm α (fun a b => less b a = false ∧ D a b) :=
    ⟨fun a b hab hba => (hasym a b hab.2 hab.1 hba.1).elim⟩
  have hd2 : l2.Pairwise D := (hp.pairwise_iff (fun h => hsymm _ _ h)).1 hd
  exact List.eq_of_perm_of_sorted hp (h1.and hd) (h2.and hd2)

theorem tagLess_total (a b : TagRow) : tagLess b a = false ∨ tagLess a b = false := by
  rw [tagLess_false_iff, tagLess_false_iff]
  exact lex_total _ _ _ _

theorem tagLess_trans (a b c : TagRow) (h1 : tagLess b a = false) (h2 : tagLess c b = false) :
    tagLess c a = false := by
  rw [tagLess_false_iff] at h1 h2 ⊢
  exact lex_trans _ _ _ _ _ _ h1 h2

theorem linkTagLess_total (a b : LinkTagRow) :
    linkTagLess b a = false ∨ linkTagLess a b = false := by
  rw [linkTagLess_false_iff, linkTagLess_false_iff]
  exact lex_total _ _ _ _

theorem linkTagLess_trans (a b c : LinkTagRow) (h1 : linkTagLess b a = false)
    (h2 : linkTagLess c b = false) : linkTagLess c a = false := by
  rw [linkTagLess_false_iff] at h1 h2 ⊢
  exact lex_trans _ _ _ _ _ _ h1 h2

theorem lex_antisymm {κ₁ κ₂ : Type} [LinearOrder κ₁] [LinearOrder κ₂] (a1 b1 : κ₁)
    (a2 b2 : κ₂) (hab : a1 < b1 ∨ (a1 = b1 ∧ a2 ≤ b2))
    (hba : b1 < a1 ∨ (b1 = a1 ∧ b2 ≤ a2)) : a1 = b1 ∧ a2 = b2 := by
  rcases hab with h | ⟨h, h2⟩
  · rcases hba with h' | ⟨h', _⟩
    · exact absurd h' (not_lt_of_lt h)
    · exact absurd h'.symm (ne_of_lt h)
  · rcases hba with h' | ⟨_, h2'⟩
    · exact absurd h.symm (ne_of_lt h')
    · exact ⟨h, le_antisymm h2 h2'⟩

theorem tagMap_values_distinct (std : GoStd) (now : Time) (exported : FirestoreExport) :
    (mapValues (linksLoop std now exported).tagMap).Pairwise
      (fun a b => ¬ (a.UserID = b.UserID ∧ a.Name = b.Name)) := by
  refine (linksLoop_keyed std now exported).1.pairwise_values.imp ?_
  intro a b hab hex
  apply hab
  unfold tagRowKey
  rw [hex.1, hex.2]

theorem linkTagMap_values_distinct (std : GoStd) (now : Time) (exported : FirestoreExport) :
    (mapValues (linksLoop std now exported).linkTagMap).Pairwise
      (fun a b => ¬ (a.LinkID = b.LinkID ∧ a.TagID = b.TagID)) := by
  refine (linksLoop_keyed std now exported).2.pairwise_values.imp ?_
  intro a b hab hex
  apply hab
  unfold linkTagRowKey
  rw [hex.1, hex.2]

/-- Whatever the order in which the values of `tagMap` are delivered, and whatever
routine sorts them, the sorted list is the Tags list of `TransformExport`. -/
theorem Tags_of_any_order (std : GoStd) (now : Time) (exported : FirestoreExport)
    (l : List TagRow) (hp : l.Perm (mapValues (linksLoop std now exported).tagMap))
    (hs : l.Pairwise (fun a b => tagLess b a = false)) :
    l = (TransformExport std now exported).Tags := by
  rw [Tags_eq]
  refine sorted_perm_unique tagLess (fun a b => ¬ (a.UserID = b.UserID ∧ a.Name = b.Name))
    (fun a b h hex => h ⟨hex.1.symm, hex.2.symm⟩) ?_
    (hp.trans (sortSlice_perm _ _).symm)
    ((hp.pairwise_iff (fun h hex => h ⟨hex.1.symm, hex.2.symm⟩)).2
      (tagMap_values_distinct std now exported))
    hs (sortSlice_sorted tagLess tagLess_total tagLess_trans _)
  intro a b hD h1 h2
  rw [tagLess_false_iff] at h1 h2
  exact hD (lex_antisymm _ _ _ _ h1 h2)

/-- Whatever the order in which the values of `linkTagMap` are delivered, and
whatever routine sorts them, the sorted list is the LinkTags list of
`TransformExport`. -/
theorem LinkTags_of_any_order (std : GoStd) (now : Time) (exported : FirestoreExport)
    (l : List LinkTagRow) (hp : l.Perm (mapValues (linksLoop std now exported).linkTagMap))
    (hs : l.Pairwise (fun a b => linkTagLess b a = false)) :
    l = (TransformExport std now exported).LinkTags := by
  rw [LinkTags_eq]
  refine sorted_perm_unique linkTagLess
    (fun a b => ¬ (a.LinkID = b.LinkID ∧ a.TagID = b.TagID))
    (fun a b h hex => h ⟨hex.1.symm, hex.2.symm⟩) ?_
    (hp.trans (sortSlice_perm _ _).symm)
    ((hp.pairwise_iff (fun h hex => h ⟨hex.1.symm, hex.2.symm⟩)).2
      (linkTagMap_values_distinct std now exported))
    hs (sortSlice_sorted linkTagLess linkTagLess_total linkTagLess_trans _)
  intro a b hD h1 h2
  rw [linkTagLess_false_iff] at h1 h2
  exact hD (lex_antisymm _ _ _ _ h1 h2)

/-- C17. Two runs on the same snapshot with the same `now` give the same
transformed dataset, rows, order and report, whatever the order in which each
run iterates over `tagMap` and `linkTagMap`; it is the dataset of
`TransformExport`, which is a function of the snapshot, of `now` and of the
library tables. -/
theorem transform_deterministic (std : GoStd) (now : Time) (exported : FirestoreExport)
    (tags1 tags2 : List TagRow) (linkTags1 linkTags2 : List LinkTagRow)
    (h1 : tags1.Perm (mapValues (linksLoop std now exported).tagMap))
    (h2 : tags2.Perm (mapValues (linksLoop std now exported).tagMap))
    (h3 : linkTags1.Perm (mapValues (linksLoop std now exported).linkTagMap))
    (h4 : linkTags2.Perm (mapValues (linksLoop std now exported).linkTagMap)) :
    TransformExportIter std now exported tags1 linkTags1 =
      TransformExportIter std now exported tags2 linkTags2 ∧
    TransformExportIter std now exported tags1 linkTags1 = TransformExport std now exported := by
  have key : ∀ (tags : List TagRow) (linkTags : List LinkTagRow),
      tags.Perm (mapValues (linksLoop std now exported).tagMap) →
      linkTags.Perm (mapValues (linksLoop std now exported).linkTagMap) →
      TransformExportIter std now exported tags linkTags = TransformExport std now exported := by
    intro tags linkTags ht hl
    have e1 : sortSlice tagLess tags = (TransformExport std now exported).Tags :=
      Tags_of_any_order std now exported _ ((sortSlice_perm _ _).trans ht)
        (sortSlice_sorted tagLess tagLess_total tagLess_trans _)
    have e2 : sortSlice linkTagLess linkTags = (TransformExport std now exported).LinkTags :=
      LinkTags_of_any_order std now exported _ ((sortSlice_perm _ _).trans hl)
        (sortSlice_sorted linkTagLess linkTagLess_total linkTagLess_trans _)
    rw [Tags_eq] at e1
    rw [LinkTags_eq] at e2
    rw [TransformExport_eq_iter, TransformExportIter_eq, TransformExportIter_eq, e1, e2]
  exact ⟨(key tags1 linkTags1 h1 h3).trans (key tags2 linkTags2 h2 h4).symm,
    key tags1 linkTags1 h1 h3⟩

/-- C17, at `twoTags`: one run meets the two tags in one order, the other run in
the other order. -/
theorem transform_deterministic_witness :
    [TagRow.mk "t1" "u1" "b" 1000, TagRow.mk "t2" "u1" "a" 1000].Perm
      (mapValues (linksLoop asciiStd 1000 twoTags).tagMap) ∧
    [TagRow.mk "t2" "u1" "a" 1000, TagRow.mk "t1" "u1" "b" 1000].Perm
      (mapValues (linksLoop asciiStd 1000 twoTags).tagMap) ∧
    (TransformExportIter asciiStd 1000 twoTags
        [TagRow.mk "t1" "u1" "b" 1000, TagRow.mk "t2" "u1" "a" 1000] [] =
      TransformExportIter asciiStd 1000 twoTags
        [TagRow.mk "t2" "u1" "a" 1000, TagRow.mk "t1" "u1" "b" 1000] [] ∧
    TransformExportIter asciiStd 1000 twoTags
        [TagRow.mk "t1" "u1" "b" 1000, TagRow.mk "t2" "u1" "a" 1000] [] =
      TransformExport asciiStd 1000 twoTags) := by
  have hm : mapValues (linksLoop asciiStd 1000 twoTags).tagMap =
      [TagRow.mk "t1" "u1" "b" 1000, TagRow.mk "t2" "u1" "a" 1000] := by decide
  have hl : mapValues (linksLoop asciiStd 1000 twoTags).linkTagMap = [] := by decide
  have p1 : [TagRow.mk "t1" "u1" "b" 1000, TagRow.mk "t2" "u1" "a" 1000].Perm
      (mapValues (linksLoop asciiStd 1000 twoTags).tagMap) := by
    rw [hm]
  have p2 : [TagRow.mk "t2" "u1" "a" 1000, TagRow.mk "t1" "u1" "b" 1000].Perm
      (mapValues (linksLoop asciiStd 1000 twoTags).tagMap) := by
    rw [hm]
    exact List.Perm.swap _ _ _
  have p3 : ([] : List LinkTagRow).Perm
      (mapValues (linksLoop asciiStd 1000 twoTags).linkTagMap) := by
    rw [hl]
  exact ⟨p1, p2, transform_deterministic asciiStd 1000 twoTags _ _ [] [] p1 p2 p3 p3⟩

/-! ## C18: reordering the top-level tags -/

theorem mem_mapStore_iff {V : Type} {m : GoMap V} {k : String} {v : V} {p : String × V}
    (hnd : (m.map Prod.fst).Nodup) :
    p ∈ mapStore m k v ↔ p = (k, v) ∨ (p ∈ m ∧ p.1 ≠ k) := by
  constructor
  · intro hp
    by_cases hpk : p.1 = k
    · left
      exact List.inj_on_of_nodup_map (mapStore_nodup k v hnd) hp (mem_mapStore_self m k v) hpk
    · rcases mem_mapStore hp with h | h
      · exact Or.inl h
      · exact Or.inr ⟨h, hpk⟩
  · rintro (h | ⟨h, hne⟩)
    · rw [h]; exact mem_mapStore_self m k v
    · exact mem_mapStore_of_ne h hne

theorem perm_keys_nodup {V : Type} {m m' : GoMap V} (hp : m.Perm m')
    (hnd : (m.map Prod.fst).Nodup) : (m'.map Prod.fst).Nodup :=
  ((hp.map Prod.fst).nodup_iff).1 hnd

theorem mapLookup_perm {V : Type} {m m' : GoMap V} (hp : m.Perm m')
    (hnd : (m.map Prod.fst).Nodup) (k : String) : mapLookup m k = mapLookup m' k := by
  cases h : mapLookup m k with
  | none =>
    have hk : k ∉ m'.map Prod.fst := fun hk =>
      mapLookup_eq_none.1 h (((hp.map Prod.fst).mem_iff).2 hk)
    exact (mapLookup_eq_none.2 hk).symm
  | some v =>
    exact (mapLookup_of_mem (perm_keys_nodup hp hnd) (hp.mem_iff.1 (mapLookup_mem h))).symm

theorem mapStore_perm {V : Type} {m m' : GoMap V} (hp : m.Perm m')
    (hnd : (m.map Prod.fst).Nodup) (k : String) (v : V) :
    (mapStore m k v).Perm (mapStore m' k v) := by
  have hnd' := perm_keys_nodup hp hnd
  rw [List.perm_ext_iff_of_nodup (List.Nodup.of_map _ (mapStore_nodup k v hnd))
    (List.Nodup.of_map _ (mapStore_nodup k v hnd'))]
  intro p
  rw [mem_mapStore_iff hnd, mem_mapStore_iff hnd', hp.mem_iff]

theorem linkTagStep_perm (std : GoStd) (linkID userID : String) (createdAt : Time)
    (m m' : GoMap TagRow) (l : GoMap LinkTagRow) (tagAny : Val) (hp : m.Perm m')
    (hnd : (m.map Prod.fst).Nodup) :
    (linkTagStep std linkID userID createdAt (m, l) tagAny).1.Perm
        (linkTagStep std linkID userID createdAt (m', l) tagAny).1 ∧
      (linkTagStep std linkID userID createdAt (m, l) tagAny).2 =
        (linkTagStep std linkID userID createdAt (m', l) tagAny).2 := by
  by_cases hn : sanitizeTagName (parseString tagAny) = ""
  · rw [linkTagStep_blank hn, linkTagStep_blank hn]
    exact ⟨hp, rfl⟩
  · have hlk := mapLookup_perm hp hnd
      (tagKey std userID (sanitizeTagName (parseString tagAny)))
    cases hl : mapLookup m (tagKey std userID (sanitizeTagName (parseString tagAny))) with
    | none =>
      have hl' : mapLookup (m', l).1
          (tagKey std userID (sanitizeTagName (parseString tagAny))) = none := by
        rw [← hlk]; exact hl
      have hl0 : mapLookup (m, l).1
          (tagKey std userID (sanitizeTagName (parseString tagAny))) = none := hl
      rw [linkTagStep_new hn hl0, linkTagStep_new hn hl']
      exact ⟨mapStore_perm hp hnd _ _, rfl⟩
    | some tag =>
      have hl' : mapLookup (m', l).1
          (tagKey std userID (sanitizeTagName (parseString tagAny))) = some tag := by
        rw [← hlk]; exact hl
      have hl0 : mapLookup (m, l).1
          (tagKey std userID (sanitizeTagName (parseString tagAny))) = some tag := hl
      rw [linkTagStep_found hn hl0, linkTagStep_found hn hl']
      exact ⟨hp, rfl⟩

theorem linkTagStep_nodup (std : GoStd) (linkID userID : String) (createdAt : Time)
    (st : GoMap TagRow × GoMap LinkTagRow) (tagAny : Val) (hnd : (st.1.map Prod.fst).Nodup) :
    ((linkTagStep std linkID userID createdAt st tagAny).1.map Prod.fst).Nodup := by
  by_cases hn : sanitizeTagName (parseString tagAny) = ""
  · rw [linkTagStep_blank hn]; exact hnd
  · cases hl : mapLookup st.1 (tagKey std userID (sanitizeTagName (parseString tagAny))) with
    | none => rw [linkTagStep_new hn hl]; exact mapStore_nodup _ _ hnd
    | some tag => rw [linkTagStep_found hn hl]; exact hnd

theorem linkTags_foldl_perm (std : GoStd) (linkID userID : String) (createdAt : Time)
    (tags : List Val) (m m' : GoMap TagRow) (l : GoMap LinkTagRow) (hp : m.Perm m')
    (hnd : (m.map Prod.fst).Nodup) :
    (tags.foldl (linkTagStep std linkID userID createdAt) (m, l)).1.Perm
        (tags.foldl (linkTagStep std linkID userID createdAt) (m', l)).1 ∧
      (tags.foldl (linkTagStep std linkID userID createdAt) (m, l)).2 =
        (tags.foldl (linkTagStep std linkID userID createdAt) (m', l)).2 ∧
      ((tags.foldl (linkTagStep std linkID userID createdAt) (m, l)).1.map Prod.fst).Nodup := by
  induction tags generalizing m m' l with
  | nil => exact ⟨hp, rfl, hnd⟩
  | cons t ts ih =>
    simp only [List.foldl_cons]
    obtain ⟨h1, h2⟩ := linkTagStep_perm std linkID userID createdAt m m' l t hp hnd
    have h3 := linkTagStep_nodup std linkID userID createdAt (m, l) t hnd
    have e : linkTagStep std linkID userID createdAt (m', l) t =
        ((linkTagStep std linkID userID createdAt (m', l) t).1,
          (linkTagStep std linkID userID createdAt (m, l) t).2) := by
      rw [h2]
    have e0 : linkTagStep std linkID userID createdAt (m, l) t =
        ((linkTagStep std linkID userID createdAt (m, l) t).1,
          (linkTagStep std linkID userID createdAt (m, l) t).2) := rfl
    rw [e, e0]
    exact ih _ _ _ h1 h3

theorem linkStep_equiv (std : GoStd) (now : Time) (st st' : LinkState) (d : FirestoreDocument)
    (h : LinkStateEquiv st st') :
    LinkStateEquiv (linkStep std now st d) (linkStep std now st' d) := by
  obtain ⟨hL, hT, hLT, hE, hnd⟩ := h
  by_cases hdrop : linkDropped d
  · rw [linkStep_dropped hdrop, linkStep_dropped hdrop]
    exact ⟨hL, hT, hLT, hE, hnd⟩
  · rw [linkStep_kept hdrop, linkStep_kept hdrop]
    unfold linkTagsMaps
    rw [← hLT]
    obtain ⟨h1, h2, h3⟩ := linkTags_foldl_perm std d.ID (parseString (field d.Data "userId"))
      (linkCreatedAt std now d) (toSlice (field d.Data "tags")) st.tagMap st'.tagMap
      st.linkTagMap hT hnd
    exact ⟨by rw [hL], h1, h2, by rw [hE], h3⟩

theorem linkStep_foldl_equiv (std : GoStd) (now : Time) (l : List FirestoreDocument)
    (st st' : LinkState) (h : LinkStateEquiv st st') :
    LinkStateEquiv (l.foldl (linkStep std now) st) (l.foldl (linkStep std now) st') := by
  induction l generalizing st st' with
  | nil => exact h
  | cons d l ih =>
    simp only [List.foldl_cons]
    exact ih _ _ (linkStep_equiv std now st st' d h)
theorem tagsLoop_mem_transfer (std : GoStd) (now : Time) (e1 e2 : FirestoreExport)
    (hmem : ∀ d, d ∈ e1.collection "tags" ↔ d ∈ e2.collection "tags")
    (htie : ∀ d ∈ e1.collection "tags", ∀ d' ∈ e1.collection "tags",
      ¬ tagDropped d → ¬ tagDropped d' → tagDocKey std d = tagDocKey std d' →
      (tagRowOf std now d).CreatedAt = (tagRowOf std now d').CreatedAt →
      tagRowOf std now d = tagRowOf std now d')
    (p : String × TagRow) (hp : p ∈ (tagsLoop std now e1).tagMap) :
    p ∈ (tagsLoop std now e2).tagMap := by
  obtain ⟨hkeyed1, hrows1, _, _⟩ := tagsLoop_inv std now e1
  obtain ⟨hkeyed2, hrows2, hcover2, _⟩ := tagsLoop_inv std now e2
  obtain ⟨d0, hd0, hk0, hrow, hmin1⟩ := hrows1 p hp
  have hpk : p.1 = tagDocKey std d0 := by
    rw [hkeyed1.2 p hp, hrow]; rfl
  obtain ⟨q, hq, hqk⟩ := List.mem_map.1 (hcover2 d0 ((hmem d0).1 hd0) hk0)
  obtain ⟨d0', hd0', hk0', hrow', hmin2⟩ := hrows2 q hq
  have hqk' : q.1 = tagDocKey std d0' := by
    rw [hkeyed2.2 q hq, hrow']; rfl
  have hkeys : tagDocKey std d0' = tagDocKey std d0 := by rw [← hqk', hqk]
  have h1 := hmin1 d0' ((hmem d0').2 hd0') hk0' (by rw [hkeys, hpk])
  have h2 := hmin2 d0 ((hmem d0).1 hd0) hk0 hqk.symm
  rw [hrow] at h1
  rw [hrow'] at h2
  have hrows : tagRowOf std now d0 = tagRowOf std now d0' :=
    htie d0 hd0 d0' ((hmem d0').2 hd0') hk0 hk0' hkeys.symm (le_antisymm h1 h2)
  have hpq : p = q := by
    apply Prod.ext
    · rw [hpk, hqk]
    · rw [hrow, hrow', hrows]
  rw [hpq]
  exact hq

theorem tagsLoop_perm (std : GoStd) (now : Time) (e e' : FirestoreExport)
    (hperm : (e'.collection "tags").Perm (e.collection "tags"))
    (htie : ∀ d ∈ e.collection "tags", ∀ d' ∈ e.collection "tags",
      ¬ tagDropped d → ¬ tagDropped d' → tagDocKey std d = tagDocKey std d' →
      (tagRowOf std now d).CreatedAt = (tagRowOf std now d').CreatedAt →
      tagRowOf std now d = tagRowOf std now d') :
    (tagsLoop std now e).tagMap.Perm (tagsLoop std now e').tagMap := by
  rw [List.perm_ext_iff_of_nodup (List.Nodup.of_map _ (tagsLoop_keyed std now e).1)
    (List.Nodup.of_map _ (tagsLoop_keyed std now e').1)]
  intro p
  constructor
  · exact tagsLoop_mem_transfer std now e e' (fun d => hperm.mem_iff.symm) htie p
  · refine tagsLoop_mem_transfer std now e' e (fun d => hperm.mem_iff) ?_ p
    intro d hd d' hd'
    exact htie d (hperm.mem_iff.1 hd) d' (hperm.mem_iff.1 hd')

/-- C18, as stated, fails: `tiedTags` and `tiedTagsSwapped` hold the same two tag
documents in two orders; the documents have the same dedup key and the same
createdAt (the fallback `now`), and each order keeps the document it meets first. -/
theorem tied_tags_depend_on_order :
    ¬ ∀ (std : GoStd) (now : Time) (e e' : FirestoreExport),
        (e'.collection "tags").Perm (e.collection "tags") →
        (∀ name, name ≠ "tags" → e'.collection name = e.collection name) →
        e'.MaintenanceCurrent = e.MaintenanceCurrent →
        (∀ r, r ∈ (TransformExport std now e').Tags ↔ r ∈ (TransformExport std now e).Tags) ∧
        (∀ r, r ∈ (TransformExport std now e').LinkTags ↔
          r ∈ (TransformExport std now e).LinkTags) := by
  intro h
  have hp : (tiedTagsSwapped.collection "tags").Perm (tiedTags.collection "tags") :=
    List.Perm.swap _ _ _
  have hother : ∀ name, name ≠ "tags" →
      tiedTagsSwapped.collection name = tiedTags.collection name := by
    intro name hne
    have hb : (name == "tags") = false := by simpa using hne
    simp [FirestoreExport.collection, tiedTags, tiedTagsSwapped, List.lookup, hb]
  have h1 := (h asciiStd 1000 tiedTags tiedTagsSwapped hp hother rfl).1
    (TagRow.mk "t1" "u1" "Work" 1000)
  have h2 : TagRow.mk "t1" "u1" "Work" 1000 ∈ (TransformExport asciiStd 1000 tiedTags).Tags := by
    decide
  have h3 : TagRow.mk "t1" "u1" "Work" 1000 ∉
      (TransformExport asciiStd 1000 tiedTagsSwapped).Tags := by
    decide
  exact h3 (h1.2 h2)

/-- C18, amended. When createdAt breaks every tie, that is when any two valid
top-level tag documents with the same dedup key string and the same createdAt
give the same row (same id and trimmed name), every reordering of the tags
collection, with the same links and the same `now`, gives the same Tags list
and the same LinkTags list. -/
theorem tags_reorder (std : GoStd) (now : Time) (e e' : FirestoreExport)
    (hperm : (e'.collection "tags").Perm (e.collection "tags"))
    (hlinks : e'.collection "links" = e.collection "links")
    (htie : ∀ d ∈ e.collection "tags", ∀ d' ∈ e.collection "tags",
      ¬ tagDropped d → ¬ tagDropped d' → tagDocKey std d = tagDocKey std d' →
      (tagRowOf std now d).CreatedAt = (tagRowOf std now d').CreatedAt →
      tagRowOf std now d = tagRowOf std now d') :
    (TransformExport std now e').Tags = (TransformExport std now e).Tags ∧
    (TransformExport std now e').LinkTags = (TransformExport std now e).LinkTags := by
  have hequiv : LinkStateEquiv (linksLoop std now e) (linksLoop std now e') := by
    unfold linksLoop
    rw [hlinks]
    apply linkStep_foldl_equiv
    exact ⟨rfl, tagsLoop_perm std now e e' hperm htie, rfl, rfl, (tagsLoop_keyed std now e).1⟩
  obtain ⟨_, hT, hLT, _, _⟩ := hequiv
  constructor
  · rw [Tags_eq std now e']
    exact Tags_of_any_order std now e _
      ((sortSlice_perm _ _).trans (hT.map Prod.snd).symm)
      (sortSlice_sorted tagLess tagLess_total tagLess_trans _)
  · rw [LinkTags_eq, LinkTags_eq, hLT]

/-- C18, amended, at `workTags` and `workTagsSwapped`, whose two documents have
the same dedup key and the createdAt 20 and 10. -/
theorem tags_reorder_witness :
    (workTagsSwapped.collection "tags").Perm (workTags.collection "tags") ∧
    workTagsSwapped.collection "links" = workTags.collection "links" ∧
    ((TransformExport asciiStd 1000 workTagsSwapped).Tags =
        (TransformExport asciiStd 1000 workTags).Tags ∧
      (TransformExport asciiStd 1000 workTagsSwapped).LinkTags =
        (TransformExport asciiStd 1000 workTags).LinkTags) := by
  have hp : (workTagsSwapped.collection "tags").Perm (workTags.collection "tags") :=
    List.Perm.swap _ _ _
  refine ⟨hp, rfl, tags_reorder asciiStd 1000 workTags workTagsSwapped hp rfl ?_⟩
  have hc : workTags.collection "tags" =
      [{ ID := "t1", Data := [("userId", Val.str "u1"), ("name", Val.str "Work"),
          ("createdAt", Val.time 20)] },
       { ID := "t2", Data := [("userId", Val.str "u1"), ("name", Val.str "work "),
          ("createdAt", Val.time 10)] }] := rfl
  intro d hd d' hd' _ _ _ hcreated
  rw [hc] at hd hd'
  simp only [List.mem_cons, List.mem_singleton, List.not_mem_nil, or_false] at hd hd'
  rcases hd with rfl | rfl <;> rcases hd' with rfl | rfl
  · rfl
  · exact absurd hcreated (by decide)
  · exact absurd hcreated (by decide)
  · rfl

/-! ## C19: reordering the links collection -/

theorem append_cons_split {α : Type} (c : α) :
    ∀ (l1 l2 r1 r2 : List α), c ∉ l1 → c ∉ l2 → l1 ++ c :: r1 = l2 ++ c :: r2 →
      l1 = l2 ∧ r1 = r2
  | [], [], r1, r2, _, _, h => ⟨rfl, by simpa using h⟩
  | [], y :: l2, r1, r2, _, h2, h => by
    simp only [List.nil_append, List.cons_append, List.cons.injEq] at h
    exact absurd (List.mem_cons.2 (Or.inl h.1)) h2
  | x :: l1, [], r1, r2, h1, _, h => by
    simp only [List.nil_append, List.cons_append, List.cons.injEq] at h
    exact absurd (List.mem_cons.2 (Or.inl h.1.symm)) h1
  | x :: l1, y :: l2, r1, r2, h1, h2, h => by
    simp only [List.cons_append, List.cons.injEq] at h
    obtain ⟨hl, hr⟩ := append_cons_split c l1 l2 r1 r2
      (fun hc => h1 (List.mem_cons_of_mem _ hc)) (fun hc => h2 (List.mem_cons_of_mem _ hc)) h.2
    exact ⟨by rw [h.1, hl], hr⟩

/-- Two strings joined with "|" determine the two parts when the first part has
no "|". -/
theorem bar_join_inj {a1 a2 b1 b2 : String} (h1 : '|' ∉ a1.data) (h2 : '|' ∉ a2.data)
    (h : a1 ++ "|" ++ b1 = a2 ++ "|" ++ b2) : a1 = a2 ∧ b1 = b2 := by
  have hd : a1.data ++ '|' :: b1.data = a2.data ++ '|' :: b2.data := by
    have := congrArg String.data h
    simpa [String.data_append] using this
  obtain ⟨ha, hb⟩ := append_cons_split '|' _ _ _ _ h1 h2 hd
  exact ⟨String.ext ha, String.ext hb⟩

theorem dropWhile_rdropWhile_idem {α : Type} (p : α → Bool) (l : List α) :
    (((l.dropWhile p).rdropWhile p).dropWhile p).rdropWhile p =
      (l.dropWhile p).rdropWhile p := by
  have h : ((l.dropWhile p).rdropWhile p).dropWhile p = (l.dropWhile p).rdropWhile p := by
    cases hm : l.dropWhile p with
    | nil => simp
    | cons x xs =>
      have hx : p x = false := by
        have := List.head_dropWhile_not p l (by rw [hm]; simp)
        simpa [hm] using this
      obtain ⟨t, ht⟩ := List.rdropWhile_prefix p (x :: xs)
      cases hr : List.rdropWhile p (x :: xs) with
      | nil =>
        have := List.rdropWhile_eq_nil_iff.1 hr x (List.mem_cons_self _ _)
        rw [hx] at this
        exact absurd this (by simp)
      | cons y ys =>
        rw [hr] at ht
        simp only [List.cons_append, List.cons.injEq] at ht
        rw [List.dropWhile_cons, ht.1, hx]
        simp
  rw [h, List.rdropWhile_idempotent]

theorem trimSpace_idem (s : String) : trimSpace (trimSpace s) = trimSpace s := by
  unfold trimSpace
  exact congrArg String.mk (dropWhile_rdropWhile_idem isSpace s.data)

/-- With user ids that have no "|", the key `tagKey` determines the user id and
lower(trim(name)). -/
theorem tagKey_inj {std : GoStd} {u1 u2 n1 n2 : String} (h1 : '|' ∉ u1.data)
    (h2 : '|' ∉ u2.data) (h : tagKey std u1 n1 = tagKey std u2 n2) :
    u1 = u2 ∧ toLower std (trimSpace n1) = toLower std (trimSpace n2) :=
  bar_join_inj h1 h2 h

theorem tagsLoop_congr (std : GoStd) (now : Time) (e e' : FirestoreExport)
    (h : e'.collection "tags" = e.collection "tags") :
    tagsLoop std now e' = tagsLoop std now e := by
  unfold tagsLoop
  rw [h]

/-- A row of the final `tagMap` was stored by the loop over the top-level tags,
or it was synthesized for a name embedded in a kept link. -/
theorem linksLoop_tag_origin (std : GoStd) (now : Time) (exported : FirestoreExport) :
    ∀ p ∈ (linksLoop std now exported).tagMap,
      p ∈ (tagsLoop std now exported).tagMap ∨
      ∃ d ∈ exported.collection "links", ¬ linkDropped d ∧
        ∃ tagAny ∈ toSlice (field d.Data "tags"),
          sanitizeTagName (parseString tagAny) ≠ "" ∧
          p.2 = synthTag std (parseString (field d.Data "userId"))
            (sanitizeTagName (parseString tagAny)) (linkCreatedAt std now d) := by
  refine foldl_invariant (fun (st : LinkState) => ∀ p ∈ st.tagMap,
    p ∈ (tagsLoop std now exported).tagMap ∨
    ∃ d ∈ exported.collection "links", ¬ linkDropped d ∧
      ∃ tagAny ∈ toSlice (field d.Data "tags"),
        sanitizeTagName (parseString tagAny) ≠ "" ∧
        p.2 = synthTag std (parseString (field d.Data "userId"))
          (sanitizeTagName (parseString tagAny)) (linkCreatedAt std now d)) _ _ _ ?_ ?_
  · intro p hp
    exact Or.inl hp
  · intro st d hd ih
    by_cases hdrop : linkDropped d
    · rw [linkStep_dropped hdrop]
      exact ih
    · rw [linkStep_kept hdrop]
      refine foldl_invariant (fun (m : GoMap TagRow × GoMap LinkTagRow) => ∀ p ∈ m.1,
        p ∈ (tagsLoop std now exported).tagMap ∨
        ∃ d ∈ exported.collection "links", ¬ linkDropped d ∧
          ∃ tagAny ∈ toSlice (field d.Data "tags"),
            sanitizeTagName (parseString tagAny) ≠ "" ∧
            p.2 = synthTag std (parseString (field d.Data "userId"))
              (sanitizeTagName (parseString tagAny)) (linkCreatedAt std now d)) _ _ _ ih ?_
      intro m tagAny htag ihm p hp
      rcases linkTagStep_mem_tagMap hp with h | h
      · exact ihm p h
      · exact Or.inr ⟨d, hd, hdrop, tagAny, htag, h.1, h.2⟩

theorem linkTagStep_mem_linkTagMap_row {std : GoStd} {linkID userID : String} {createdAt : Time}
    {st : GoMap TagRow × GoMap LinkTagRow} {tagAny : Val} {p : String × LinkTagRow}
    (h : p ∈ (linkTagStep std linkID userID createdAt st tagAny).2) :
    p ∈ st.2 ∨ (sanitizeTagName (parseString tagAny) ≠ "" ∧
      ∃ t, (tagKey std userID (sanitizeTagName (parseString tagAny)), t) ∈
          (linkTagStep std linkID userID createdAt st tagAny).1 ∧
        p.2 = LinkTagRow.mk linkID t.ID createdAt) := by
  by_cases hn : sanitizeTagName (parseString tagAny) = ""
  · rw [linkTagStep_blank hn] at h
    exact Or.inl h
  · cases hl : mapLookup st.1 (tagKey std userID (sanitizeTagName (parseString tagAny))) with
    | none =>
      rw [linkTagStep_new hn hl] at h ⊢
      rcases mem_mapStore h with h | h
      · exact Or.inr ⟨hn, _, mem_mapStore_self _ _ _, by rw [h]; rfl⟩
      · exact Or.inl h
    | some tag =>
      rw [linkTagStep_found hn hl] at h ⊢
      rcases mem_mapStore h with h | h
      · exact Or.inr ⟨hn, tag, mapLookup_mem hl, by rw [h]⟩
      · exact Or.inl h

theorem LinkTagOrigin.mono {std : GoStd} {now : Time} {exported : FirestoreExport}
    {m m' : GoMap TagRow} {lt : LinkTagRow} (hm : ∀ p ∈ m, p ∈ m')
    (h : LinkTagOrigin std now exported m lt) : LinkTagOrigin std now exported m' lt := by
  obtain ⟨d, hd, hk, a, ha, hn, t, ht, hlt⟩ := h
  exact ⟨d, hd, hk, a, ha, hn, t, hm _ ht, hlt⟩

theorem linksLoop_linkTag_origin (std : GoStd) (now : Time) (exported : FirestoreExport) :
    ∀ p ∈ (linksLoop std now exported).linkTagMap,
      LinkTagOrigin std now exported (linksLoop std now exported).tagMap p.2 := by
  refine foldl_invariant (fun (st : LinkState) => ∀ p ∈ st.linkTagMap,
    LinkTagOrigin std now exported st.tagMap p.2) _ _ _ ?_ ?_
  · intro p hp
    simp at hp
  · intro st d hd ih
    by_cases hdrop : linkDropped d
    · rw [linkStep_dropped hdrop]
      exact ih
    · rw [linkStep_kept hdrop]
      refine foldl_invariant (fun (m : GoMap TagRow × GoMap LinkTagRow) => ∀ p ∈ m.2,
        LinkTagOrigin std now exported m.1 p.2) _ _ _ ih ?_
      intro m tagAny htag ihm p hp
      rcases linkTagStep_mem_linkTagMap_row hp with h | h
      · exact (ihm p h).mono (fun q hq => linkTagStep_tagMap_mono hq)
      · obtain ⟨hn, t, ht, hrow⟩ := h
        exact ⟨d, hd, hdrop, tagAny, htag, hn, t, ht, hrow⟩
theorem deterministicTagID_lower {std : GoStd} {u n1 n2 : String}
    (h : toLower std n1 = toLower std n2) :
    deterministicTagID std u n1 = deterministicTagID std u n2 := by
  unfold deterministicTagID
  rw [h]

theorem links_reorder_tag (std : GoStd) (now : Time) (e1 e2 : FirestoreExport)
    (hmem : ∀ d, d ∈ e1.collection "links" ↔ d ∈ e2.collection "links")
    (htags : e2.collection "tags" = e1.collection "tags")
    (huser : ∀ d ∈ e1.collection "links", ¬ linkDropped d →
      '|' ∉ (parseString (field d.Data "userId")).data)
    (r1 : TagRow) (hr1 : r1 ∈ (TransformExport std now e1).Tags) :
    ∃ r2 ∈ (TransformExport std now e2).Tags,
      tagRowKey std r2 = tagRowKey std r1 ∧ tagIdentity std r2 = tagIdentity std r1 := by
  obtain ⟨p1, hp1, rfl⟩ := List.mem_map.1 (mem_Tags.1 hr1)
  have hloop : tagsLoop std now e2 = tagsLoop std now e1 := tagsLoop_congr std now e1 e2 htags
  rcases linksLoop_tag_origin std now e1 p1 hp1 with htop | ⟨d, hd, hk, a, ha, hn, hrow⟩
  · rw [← hloop] at htop
    exact ⟨p1.2, mem_Tags.2 (List.mem_map.2 ⟨p1, linksLoop_tagMap_mono htop, rfl⟩), rfl, rfl⟩
  · obtain ⟨r2, hr2, hkey2, _, _⟩ :=
      embedded_tag_resolves std now e2 d a ((hmem d).1 hd) hk ha hn
    have hkey1 : tagRowKey std p1.2 = tagKey std (parseString (field d.Data "userId"))
        (sanitizeTagName (parseString a)) := by
      rw [hrow]; rfl
    refine ⟨r2, hr2, by rw [hkey1]; exact hkey2, ?_⟩
    obtain ⟨p2, hp2, rfl⟩ := List.mem_map.1 (mem_Tags.1 hr2)
    rcases linksLoop_tag_origin std now e2 p2 hp2 with htop2 | ⟨d', hd', hk', a', ha', hn', hrow'⟩
    · rw [hloop] at htop2
      have hp2' : p2 ∈ (linksLoop std now e1).tagMap := linksLoop_tagMap_mono htop2
      have hkeyed := (linksLoop_keyed std now e1).1
      have hpp : p2 = p1 := by
        apply hkeyed.eq_of_key_eq hp2' hp1
        rw [hkeyed.2 p2 hp2', hkeyed.2 p1 hp1, hkey1]
        exact hkey2
      rw [hpp]
    · rw [hrow'] at hkey2
      have hkey2' : tagKey std (parseString (field d'.Data "userId"))
          (sanitizeTagName (parseString a')) =
          tagKey std (parseString (field d.Data "userId"))
            (sanitizeTagName (parseString a)) := hkey2
      obtain ⟨hu, hl⟩ := tagKey_inj (huser d' ((hmem d').2 hd') hk') (huser d hd hk) hkey2'
      unfold sanitizeTagName at hl
      rw [trimSpace_idem, trimSpace_idem] at hl
      rw [hrow, hrow']
      unfold tagIdentity synthTag sanitizeTagName
      simp only
      rw [hu, hl, deterministicTagID_lower hl]

theorem links_reorder_linkTag (std : GoStd) (now : Time) (e1 e2 : FirestoreExport)
    (hmem : ∀ d, d ∈ e1.collection "links" ↔ d ∈ e2.collection "links")
    (htags : e2.collection "tags" = e1.collection "tags")
    (huser : ∀ d ∈ e1.collection "links", ¬ linkDropped d →
      '|' ∉ (parseString (field d.Data "userId")).data)
    (hid : ∀ d ∈ e1.collection "links", ¬ linkDropped d → '|' ∉ d.ID.data)
    (hdistinct : ∀ d ∈ e1.collection "links", ∀ d' ∈ e1.collection "links",
      d.ID = d'.ID → d = d')
    (lt1 : LinkTagRow) (h : lt1 ∈ (TransformExport std now e1).LinkTags) :
    lt1 ∈ (TransformExport std now e2).LinkTags := by
  obtain ⟨p1, hp1, rfl⟩ := List.mem_map.1 (mem_LinkTags.1 h)
  obtain ⟨d, hd, hk, a, ha, hn, t1, ht1, hrow1⟩ := linksLoop_linkTag_origin std now e1 p1 hp1
  have ht1T : t1 ∈ (TransformExport std now e1).Tags :=
    mem_Tags.2 (List.mem_map.2 ⟨_, ht1, rfl⟩)
  obtain ⟨r2', hr2', hk2', hid2'⟩ := links_reorder_tag std now e1 e2 hmem htags huser t1 ht1T
  obtain ⟨r2, hr2, _, huniq, lt2, hlt2, hjoin⟩ :=
    embedded_tag_resolves std now e2 d a ((hmem d).1 hd) hk ha hn
  have hkt1 : tagKey std (parseString (field d.Data "userId"))
      (sanitizeTagName (parseString a)) = tagRowKey std t1 :=
    (linksLoop_keyed std now e1).1.2 _ ht1
  have hr : r2' = r2 := huniq r2' hr2' (by rw [hkt1]; exact hk2')
  have htid : r2.ID = t1.ID := by
    rw [← hr]
    exact congrArg Prod.fst hid2'
  obtain ⟨p2, hp2, hp2r⟩ := List.mem_map.1 (mem_LinkTags.1 hlt2)
  obtain ⟨d', hd', hk', a', ha', hn', t2, ht2, hrow2⟩ :=
    linksLoop_linkTag_origin std now e2 p2 hp2
  rw [hp2r] at hrow2
  rw [hrow2] at hjoin
  obtain ⟨hli, hti⟩ := bar_join_inj (hid d' ((hmem d').2 hd') hk') (hid d hd hk) hjoin
  have hdd : d' = d := hdistinct d' ((hmem d').2 hd') d hd hli
  have hlt : lt2 = p1.2 := by
    rw [hrow1, hrow2, hdd]
    rw [hdd] at hti
    simp only at hti
    rw [hti, htid]
  rw [← hlt]
  exact hlt2

set_option maxRecDepth 100000 in
/-- C19, as stated, fails: `sharedName` and `sharedNameSwapped` hold the same two
link documents in two orders; the names "A" and "a" they embed have the same
key, and the synthesized tag takes its name and its createdAt from the link met
first. -/
theorem shared_name_depends_on_link_order :
    ¬ ∀ (std : GoStd) (now : Time) (e e' : FirestoreExport),
        (e'.collection "links").Perm (e.collection "links") →
        (∀ name, name ≠ "links" → e'.collection name = e.collection name) →
        e'.MaintenanceCurrent = e.MaintenanceCurrent →
        (∀ r, r ∈ (TransformExport std now e').Tags ↔ r ∈ (TransformExport std now e).Tags) ∧
        (∀ r, r ∈ (TransformExport std now e').LinkTags ↔
          r ∈ (TransformExport std now e).LinkTags) := by
  intro h
  have hp : (sharedNameSwapped.collection "links").Perm (sharedName.collection "links") :=
    List.Perm.swap _ _ _
  have hother : ∀ name, name ≠ "links" →
      sharedNameSwapped.collection name = sharedName.collection name := by
    intro name hne
    have hb : (name == "links") = false := by simpa using hne
    simp [FirestoreExport.collection, sharedName, sharedNameSwapped, List.lookup, hb]
  have h1 := (h asciiStd 1000 sharedName sharedNameSwapped hp hother rfl).1
    (TagRow.mk "tag_e2f779ecdceb66ea4865" "u1" "A" 10)
  have h2 : TagRow.mk "tag_e2f779ecdceb66ea4865" "u1" "A" 10 ∈
      (TransformExport asciiStd 1000 sharedName).Tags := by
    decide!
  have h3 : TagRow.mk "tag_e2f779ecdceb66ea4865" "u1" "A" 10 ∉
      (TransformExport asciiStd 1000 sharedNameSwapped).Tags := by
    decide!
  exact h3 (h1.2 h2)

/-- C19, amended. When the link documents have pairwise distinct ids and no
kept link has a "|" in its id or in its user id, every reordering of the links
collection, with the same tags collection and the same `now`, gives the same
LinkTags list and Tag rows with the same ids, user ids and lower-cased names.
The spelling of the name and the createdAt of a synthesized tag are not among
what is preserved: at `sharedName` they change with the order. -/
theorem links_reorder (std : GoStd) (now : Time) (e e' : FirestoreExport)
    (hperm : (e'.collection "links").Perm (e.collection "links"))
    (htags : e'.collection "tags" = e.collection "tags")
    (hdistinct : ((e.collection "links").map FirestoreDocument.ID).Nodup)
    (hid : ∀ d ∈ e.collection "links", ¬ linkDropped d → '|' ∉ d.ID.data)
    (huser : ∀ d ∈ e.collection "links", ¬ linkDropped d →
      '|' ∉ (parseString (field d.Data "userId")).data) :
    (∀ x, x ∈ (TransformExport std now e').Tags.map (tagIdentity std) ↔
      x ∈ (TransformExport std now e).Tags.map (tagIdentity std)) ∧
    (TransformExport std now e').LinkTags = (TransformExport std now e).LinkTags := by
  have hmem : ∀ d, d ∈ e.collection "links" ↔ d ∈ e'.collection "links" :=
    fun d => hperm.mem_iff.symm
  have hmem' : ∀ d, d ∈ e'.collection "links" ↔ d ∈ e.collection "links" :=
    fun d => hperm.mem_iff
  have huser' : ∀ d ∈ e'.collection "links", ¬ linkDropped d →
      '|' ∉ (parseString (field d.Data "userId")).data :=
    fun d hd => huser d ((hmem' d).1 hd)
  have hid' : ∀ d ∈ e'.collection "links", ¬ linkDropped d → '|' ∉ d.ID.data :=
    fun d hd => hid d ((hmem' d).1 hd)
  have hinj : ∀ d ∈ e.collection "links", ∀ d' ∈ e.collection "links",
      d.ID = d'.ID → d = d' :=
    fun d hd d' hd' hdd => List.inj_on_of_nodup_map hdistinct hd hd' hdd
  have hinj' : ∀ d ∈ e'.collection "links", ∀ d' ∈ e'.collection "links",
      d.ID = d'.ID → d = d' :=
    fun d hd d' hd' hdd => hinj d ((hmem' d).1 hd) d' ((hmem' d').1 hd') hdd
  constructor
  · intro x
    constructor
    · intro hx
      obtain ⟨r, hr, rfl⟩ := List.mem_map.1 hx
      obtain ⟨r2, hr2, _, hident⟩ := links_reorder_tag std now e' e hmem' htags.symm huser' r hr
      exact List.mem_map.2 ⟨r2, hr2, hident⟩
    · intro hx
      obtain ⟨r, hr, rfl⟩ := List.mem_map.1 hx
      obtain ⟨r2, hr2, _, hident⟩ := links_reorder_tag std now e e' hmem htags huser r hr
      exact List.mem_map.2 ⟨r2, hr2, hident⟩
  · have hnd : (mapValues (linksLoop std now e).linkTagMap).Nodup :=
      (linkTagMap_values_distinct std now e).imp (fun hne heq => hne ⟨by rw [heq], by rw [heq]⟩)
    have hnd' : (TransformExport std now e').LinkTags.Nodup :=
      (LinkTags_perm std now e').nodup_iff.2
        ((linkTagMap_values_distinct std now e').imp
          (fun hne heq => hne ⟨by rw [heq], by rw [heq]⟩))
    refine LinkTags_of_any_order std now e _ ?_ ?_
    · rw [List.perm_ext_iff_of_nodup hnd' hnd]
      intro lt
      rw [← mem_LinkTags]
      constructor
      · exact links_reorder_linkTag std now e' e hmem' htags.symm huser' hid' hinj' lt
      · exact links_reorder_linkTag std now e e' hmem htags huser hid hinj lt
    · rw [LinkTags_eq]
      exact sortSlice_sorted linkTagLess linkTagLess_total linkTagLess_trans _

/-- C19, amended, at `sharedName` and `sharedNameSwapped`. -/
theorem links_reorder_witness :
    (sharedNameSwapped.collection "links").Perm (sharedName.collection "links") ∧
    ((sharedName.collection "links").map FirestoreDocument.ID).Nodup ∧
    ((∀ x, x ∈ (TransformExport asciiStd 1000 sharedNameSwapped).Tags.map
          (tagIdentity asciiStd) ↔
        x ∈ (TransformExport asciiStd 1000 sharedName).Tags.map (tagIdentity asciiStd)) ∧
      (TransformExport asciiStd 1000 sharedNameSwapped).LinkTags =
        (TransformExport asciiStd 1000 sharedName).LinkTags) := by
  have hp : (sharedNameSwapped.collection "links").Perm (sharedName.collection "links") :=
    List.Perm.swap _ _ _
  have hnd : ((sharedName.collection "links").map FirestoreDocument.ID).Nodup := by
    decide
  have hc : sharedName.collection "links" =
      [{ ID := "l1", Data := [("userId", Val.str "u1"), ("url", Val.str "http://x"),
          ("tags", Val.arr [Val.str "A"]), ("createdAt", Val.time 10)] },
       { ID := "l2", Data := [("userId", Val.str "u1"), ("url", Val.str "http://y"),
          ("tags", Val.arr [Val.str "a"]), ("createdAt", Val.time 20)] }] := rfl
  refine ⟨hp, hnd, links_reorder asciiStd 1000 sharedName sharedNameSwapped hp rfl hnd ?_ ?_⟩
  · intro d hd _
    rw [hc] at hd
    simp only [List.mem_cons, List.mem_singleton, List.not_mem_nil, or_false] at hd
    rcases hd with rfl | rfl <;> decide
  · intro d hd _
    rw [hc] at hd
    simp only [List.mem_cons, List.mem_singleton, List.not_mem_nil, or_false] at hd
    rcases hd with rfl | rfl <;> decide

/-! ## C21: `parseTime` -/

theorem parseTimeIn_instant (std : GoStd) (nativeLocation : String)
    (parsedLocation : String → String) (v : Val) (fallback : GoTime) :
    (parseTimeIn std nativeLocation parsedLocation v fallback).instant =
      parseTime std v fallback.instant := by
  cases v <;> simp only [parseTimeIn, parseTime, GoTime.UTC]
  split
  · rfl
  · cases std.parseRFC3339Nano _ with
    | some p => rfl
    | none =>
      cases std.parseRFC3339 _ with
      | some p => rfl
      | none => rfl

theorem parseTimeIn_location (std : GoStd) (nativeLocation : String)
    (parsedLocation : String → String) (v : Val) (fallback : GoTime) :
    (parseTimeIn std nativeLocation parsedLocation v fallback).location = "UTC" := by
  cases v <;> simp only [parseTimeIn, GoTime.UTC]
  split
  · rfl
  · cases std.parseRFC3339Nano _ with
    | some p => rfl
    | none =>
      cases std.parseRFC3339 _ with
      | some p => rfl
      | none => rfl

/-- C21. `parseTime` is a total function.  It returns the instant of a native
timestamp; for a non-empty string the instant that `time.Parse` reads with the
layout RFC3339Nano, or else with the layout RFC3339; and the fallback for the
empty string, for a string neither layout reads, for the absent value and for a
value of any other type.  With the locations written out, `parseTimeIn`, the
result has the same instant and its location is UTC. -/
theorem parseTime_cases (std : GoStd) :
    (∀ t f, parseTime std (Val.time t) f = t) ∧
    (∀ s f p, s ≠ "" → std.parseRFC3339Nano s = some p → parseTime std (Val.str s) f = p) ∧
    (∀ s f p, s ≠ "" → std.parseRFC3339Nano s = none → std.parseRFC3339 s = some p →
      parseTime std (Val.str s) f = p) ∧
    (∀ s f, std.parseRFC3339Nano s = none → std.parseRFC3339 s = none →
      parseTime std (Val.str s) f = f) ∧
    (∀ f, parseTime std (Val.str "") f = f) ∧
    (∀ f, parseTime std Val.null f = f) ∧
    (∀ v f, (∀ t, v ≠ Val.time t) → (∀ s, v ≠ Val.str s) → parseTime std v f = f) ∧
    (∀ nativeLocation parsedLocation v f,
      (parseTimeIn std nativeLocation parsedLocation v f).instant =
        parseTime std v f.instant ∧
      (parseTimeIn std nativeLocation parsedLocation v f).location = "UTC") := by
  refine ⟨fun t f => rfl, ?_, ?_, ?_, ?_, fun f => rfl, ?_, ?_⟩
  · intro s f p hs hp
    simp [parseTime, hs, hp]
  · intro s f p hs hn hp
    simp [parseTime, hs, hn, hp]
  · intro s f hn hp
    by_cases hs : s = ""
    · simp [parseTime, hs]
    · simp [parseTime, hs, hn, hp]
  · intro f
    simp [parseTime]
  · intro v f ht hs
    cases v with
    | time t => exact absurd rfl (ht t)
    | str s => exact absurd rfl (hs s)
    | _ => rfl
  · intro nl pl v f
    exact ⟨parseTimeIn_instant std nl pl v f, parseTimeIn_location std nl pl v f⟩

/-! ## C27: the rows refer to rows of the same dataset -/

/-- C27. Every LinkTag row has the id of a Link row as its linkId and the id
of a Tag row as its tagId, and every TimelineEntry row has the id of a Link row
as its linkId, all in the same dataset. -/
theorem dataset_referentially_closed (std : GoStd) (now : Time) (exported : FirestoreExport) :
    (∀ lt ∈ (TransformExport std now exported).LinkTags,
      (∃ l ∈ (TransformExport std now exported).Links, l.ID = lt.LinkID) ∧
      (∃ t ∈ (TransformExport std now exported).Tags, t.ID = lt.TagID)) ∧
    (∀ te ∈ (TransformExport std now exported).TimelineEntries,
      ∃ l ∈ (TransformExport std now exported).Links, l.ID = te.LinkID) := by
  constructor
  · intro lt hlt
    obtain ⟨p, hp, rfl⟩ := List.mem_map.1 (mem_LinkTags.1 hlt)
    obtain ⟨d, hd, hk, a, _, _, t, ht, hrow⟩ := linksLoop_linkTag_origin std now exported p hp
    constructor
    · refine ⟨linkRowOf std now d, mem_Links_iff.2 ⟨d, hd, hk, rfl⟩, ?_⟩
      rw [hrow]
      rfl
    · refine ⟨t, mem_Tags.2 (List.mem_map.2 ⟨_, ht, rfl⟩), ?_⟩
      rw [hrow]
  · intro te hte
    obtain ⟨d, hd, hk, hrow⟩ := mem_TimelineEntries_iff.1 hte
    obtain ⟨i, entryAny, _, hsome⟩ := mem_linkTimelineRows.1 hrow
    refine ⟨linkRowOf std now d, mem_Links_iff.2 ⟨d, hd, hk, rfl⟩, ?_⟩
    rw [timelineRowOf_LinkID hsome]
    rfl

/-! ## C29, C30: the joined strings do not determine their parts -/

/-- C29, at the failing input.  The pairs (`a|b`, `c`) and (`a`, `b|c`) have
different user ids and the same key `tagKey`, and of the two valid tag documents
of `collidingTags`, which belong to these two users, the Tags list keeps one row
only, that of user `a|b`. -/
theorem tagKey_joins_two_users (std : GoStd) (now : Time) :
    "a|b" ≠ "a" ∧ tagKey std "a|b" "c" = tagKey std "a" "b|c" ∧
    (∀ d ∈ collidingTags.collection "tags", ¬ tagDropped d) ∧
    (collidingTags.collection "tags").map (fun d => parseString (field d.Data "userId")) =
      ["a|b", "a"] ∧
    (TransformExport std now collidingTags).Tags.map TagRow.UserID = ["a|b"] := by
  refine ⟨by decide, rfl, by decide, rfl, ?_⟩
  unfold TransformExport
  simp only [linksLoop_collidingTags, tagsLoop_collidingTags]
  rfl

theorem linksLoop_colonLinks (std : GoStd) (now : Time) :
    (linksLoop std now colonLinks).tagMap =
      [("a:b|c", TagRow.mk (deterministicTagID std "a:b" "c") "a:b" "c" now),
       ("a|b:c", TagRow.mk (deterministicTagID std "a" "b:c") "a" "b:c" now)] := rfl

/-- C30, at the failing input.  The pairs (`a:b`, `c`) and (`a`, `b:c`) have
different user ids and different names, the string that `deterministicTagID`
hashes is `a:b:c` for both, and the two links of `colonLinks`, which belong to
these two users, give two Tag rows with the same id. -/
theorem deterministicTagID_joins_two_users (std : GoStd) (now : Time) :
    "a:b" ≠ "a" ∧ toLower std "c" ≠ toLower std "b:c" ∧
    "a:b" ++ ":" ++ toLower std "c" = "a" ++ ":" ++ toLower std "b:c" ∧
    deterministicTagID std "a:b" "c" = deterministicTagID std "a" "b:c" ∧
    ∃ r1 ∈ (TransformExport std now colonLinks).Tags,
      ∃ r2 ∈ (TransformExport std now colonLinks).Tags,
        r1.UserID = "a:b" ∧ r2.UserID = "a" ∧ r1.ID = r2.ID := by
  have hs : "a:b" ++ ":" ++ toLower std "c" = "a" ++ ":" ++ toLower std "b:c" := rfl
  have hid : deterministicTagID std "a:b" "c" = deterministicTagID std "a" "b:c" := by
    unfold deterministicTagID
    rw [hs]
  refine ⟨by decide, ?_, hs, hid, ?_⟩
  · have h1 : toLower std "c" = "c" := rfl
    have h2 : toLower std "b:c" = "b:c" := rfl
    rw [h1, h2]
    decide
  · refine ⟨TagRow.mk (deterministicTagID std "a:b" "c") "a:b" "c" now, ?_,
      TagRow.mk (deterministicTagID std "a" "b:c") "a" "b:c" now, ?_, rfl, rfl, hid⟩
    · rw [mem_Tags, linksLoop_colonLinks]
      simp [mapValues]
    · rw [mem_Tags, linksLoop_colonLinks]
      simp [mapValues]

/-! ## C26: a failed read of the singleton document -/

/-- C26, at the failing input.  In the run `outage` the read of the singleton
document fails with the code `Unavailable`: `fetchDocument` returns no document
and no error, and `ExportFromFirestore` returns no error and writes a snapshot
without the singleton document.  `fetchDocument` does so for every error of
`Get`, so the branch of `ExportFromFirestore` that wraps its error is never
taken; the same failure in the read of a collection is returned. -/
theorem failed_singleton_read_is_reported_absent :
    fetchDocument outage "maintenance" "current" = .ok none ∧
    ExportFromFirestore outage =
      .ok { ExportedAt := 1000
            Collections := [("users", []), ("links", []), ("tags", []), ("developers", []),
              ("maintenanceLogs", [])]
            MaintenanceCurrent := none } ∧
    (∀ (env : FirestoreEnv) (collection id : String) (err : GoError),
      fetchDocument env collection id ≠ .error err) ∧
    ExportFromFirestore outageOfCollection =
      .error { code := "Unavailable"
               message := "failed to export collection users: connection refused" } := by
  refine ⟨rfl, rfl, ?_, rfl⟩
  intro env collection id err
  unfold fetchDocument
  cases env.get collection id <;> simp
/-! ## C22: the verdict of `VerifyImport` -/

theorem mapLookup_of_mem_store {V : Type} (m : GoMap V) (k : String) (v : V) :
    mapLookup (mapStore m k v) k = some v := by
  induction m with
  | nil => simp [mapStore, mapLookup]
  | cons p rest ih =>
    obtain ⟨k', v'⟩ := p
    by_cases h : k' = k
    · simp [mapStore, mapLookup, h]
    · simp [mapStore, mapLookup, h, ih]

theorem mapLookup_store_of_ne {V : Type} (m : GoMap V) {k k' : String} (v : V) (h : k' ≠ k) :
    mapLookup (mapStore m k v) k' = mapLookup m k' := by
  induction m with
  | nil => simp [mapStore, mapLookup, Ne.symm h]
  | cons p rest ih =>
    obtain ⟨k₀, v₀⟩ := p
    by_cases h0 : k₀ = k
    · have h1 : k₀ ≠ k' := fun e => h (by rw [← e, h0])
      simp [mapStore, mapLookup, h0, Ne.symm h, h1, (h0 ▸ h1 : k ≠ k')]
    · by_cases h1 : k₀ = k'
      · rw [h1] at h0
        simp [mapStore, mapLookup, h0, h1]
      · simp [mapStore, mapLookup, h0, h1, ih]

theorem countLoop_ok (env : VerifyEnv) (counts : String → Nat) :
    ∀ (queries : List (String × String)) (actual : GoMap Nat),
      (∀ p ∈ queries, env.queryCount p.2 = .ok (counts p.1)) →
      ∃ actual', countLoop env actual queries = .ok actual' ∧
        (∀ key, key ∈ queries.map Prod.fst → mapLookup actual' key = some (counts key)) ∧
        (∀ key, key ∉ queries.map Prod.fst → mapLookup actual' key = mapLookup actual key)
  | [], actual, _ => ⟨actual, rfl, by simp, fun _ _ => rfl⟩
  | (key, query) :: rest, actual, h => by
    have hq : env.queryCount query = .ok (counts key) := h (key, query) (List.mem_cons_self _ _)
    obtain ⟨actual', hrun, hin, hout⟩ := countLoop_ok env counts rest
      (mapStore actual key (counts key)) (fun p hp => h p (List.mem_cons_of_mem _ hp))
    refine ⟨actual', ?_, ?_, ?_⟩
    · simp only [countLoop, hq]
      exact hrun
    · intro k hk
      by_cases hkr : k ∈ rest.map Prod.fst
      · exact hin k hkr
      · rw [hout k hkr]
        have hk' : k = key := by
          rcases List.mem_cons.1 hk with h1 | h1
          · exact h1
          · exact absurd h1 hkr
        rw [hk']
        exact mapLookup_of_mem_store actual key (counts key)
    · intro k hk
      have hk1 : k ≠ key := fun e => hk (by rw [e]; exact List.mem_cons_self _ _)
      have hk2 : k ∉ rest.map Prod.fst := fun e => hk (List.mem_cons_of_mem _ e)
      rw [hout k hk2]
      exact mapLookup_store_of_ne actual (counts key) hk1

theorem matchStep_foldl (actual : GoMap Nat) :
    ∀ (entries : List (String × Nat)) (matched : Bool),
      (entries.foldl (matchStep actual) matched = true ↔
        matched = true ∧ ∀ p ∈ entries, (mapLookup actual p.1).getD 0 = p.2)
  | [], matched => by simp
  | p :: rest, matched => by
    rw [List.foldl_cons, matchStep_foldl actual rest]
    by_cases h : (mapLookup actual p.1).getD 0 = p.2
    · simp [matchStep, h]
    · simp [matchStep, h]

/-- C22. When the transformed file is read, the destination is reached and the
nine queries return counts, `VerifyImport` returns a summary, whatever the order
in which it iterates over its two maps.  The summary has `matched = true` exactly
when each of the eight actual counts equals the expected one, the lengths of the
seven lists of the dataset and 1 for maintenance_status, and the orphan count is
zero; the expected counts are those of the dataset, the actual counts are the
ones read and the orphan count is under the key `orphan_link_tags`. -/
theorem verify_matched (env : VerifyEnv) (reportPath : String)
    (queriesIter : List (String × String))
    (expectedIter : TransformedData → List (String × Nat))
    (transformed : TransformedData) (counts : String → Nat) (orphan : Nat)
    (hq : queriesIter.Perm countQueries)
    (he : (expectedIter transformed).Perm (expectedCounts transformed))
    (hread : env.readTransformed = .ok transformed) (hconn : env.connect = none)
    (hcounts : ∀ p ∈ countQueries, env.queryCount p.2 = .ok (counts p.1))
    (horphan : env.queryCount orphanQuery = .ok orphan)
    (hwrite : reportPath ≠ "" → ∀ s, env.writeJSON s = none) :
    ∃ summary, VerifyImportIter env reportPath queriesIter expectedIter = .ok summary ∧
      summary.Expected = expectedCounts transformed ∧
      (∀ p ∈ countQueries, mapLookup summary.Actual p.1 = some (counts p.1)) ∧
      mapLookup summary.Actual "orphan_link_tags" = some orphan ∧
      (summary.Matched = true ↔
        (counts "users" = transformed.Users.length ∧
          counts "links" = transformed.Links.length ∧
          counts "tags" = transformed.Tags.length ∧
          counts "link_tags" = transformed.LinkTags.length ∧
          counts "timeline_entries" = transformed.TimelineEntries.length ∧
          counts "developers" = transformed.Developers.length ∧
          counts "maintenance_logs" = transformed.MaintenanceLogs.length ∧
          counts "maintenance_status" = 1) ∧
        orphan = 0) := by
  obtain ⟨actual, hrun, hin, _⟩ := countLoop_ok env counts queriesIter []
    (fun p hp => hcounts p (hq.mem_iff.1 hp))
  have hkeys : ∀ p ∈ countQueries, p.1 ≠ "orphan_link_tags" := by decide
  have hact : ∀ p ∈ countQueries,
      mapLookup (mapStore actual "orphan_link_tags" orphan) p.1 = some (counts p.1) := by
    intro p hp
    rw [mapLookup_store_of_ne actual orphan (hkeys p hp)]
    exact hin p.1 (((hq.map Prod.fst).mem_iff).2 (List.mem_map.2 ⟨p, hp, rfl⟩))
  have hverdict : ((if orphan > 0 then false
      else (expectedIter transformed).foldl
        (matchStep (mapStore actual "orphan_link_tags" orphan)) true) = true ↔
      (counts "users" = transformed.Users.length ∧
        counts "links" = transformed.Links.length ∧
        counts "tags" = transformed.Tags.length ∧
        counts "link_tags" = transformed.LinkTags.length ∧
        counts "timeline_entries" = transformed.TimelineEntries.length ∧
        counts "developers" = transformed.Developers.length ∧
        counts "maintenance_logs" = transformed.MaintenanceLogs.length ∧
        counts "maintenance_status" = 1) ∧
      orphan = 0) := by
    have hall : (∀ p ∈ expectedIter transformed,
        (mapLookup (mapStore actual "orphan_link_tags" orphan) p.1).getD 0 = p.2) ↔
        (counts "users" = transformed.Users.length ∧
          counts "links" = transformed.Links.length ∧
          counts "tags" = transformed.Tags.length ∧
          counts "link_tags" = transformed.LinkTags.length ∧
          counts "timeline_entries" = transformed.TimelineEntries.length ∧
          counts "developers" = transformed.Developers.length ∧
          counts "maintenance_logs" = transformed.MaintenanceLogs.length ∧
          counts "maintenance_status" = 1) := by
      have h1 := hact ("users", _) (List.mem_cons_self _ _)
      have h2 := hact ("links", "SELECT COUNT(*) FROM links") (by decide)
      have h3 := hact ("tags", "SELECT COUNT(*) FROM tags") (by decide)
      have h4 := hact ("link_tags", "SELECT COUNT(*) FROM link_tags") (by decide)
      have h5 := hact ("timeline_entries", "SELECT COUNT(*) FROM timeline_entries") (by decide)
      have h6 := hact ("developers", "SELECT COUNT(*) FROM developers") (by decide)
      have h7 := hact ("maintenance_logs", "SELECT COUNT(*) FROM maintenance_logs") (by decide)
      have h8 := hact ("maintenance_status",
        "SELECT COUNT(*) FROM maintenance_status WHERE id = 'current'") (by decide)
      simp only at h1 h2 h3 h4 h5 h6 h7 h8
      constructor
      · intro h
        have h' : ∀ p ∈ expectedCounts transformed,
            (mapLookup (mapStore actual "orphan_link_tags" orphan) p.1).getD 0 = p.2 :=
          fun p hp => h p (he.mem_iff.2 hp)
        simp only [expectedCounts, List.forall_mem_cons, List.not_mem_nil, false_imp_iff,
          implies_true, and_true, h1, h2, h3, h4, h5, h6, h7, h8, Option.getD_some] at h'
        exact h'
      · intro h p hp
        have hp' := he.mem_iff.1 hp
        revert p
        simp only [expectedCounts, List.forall_mem_cons, List.not_mem_nil, false_imp_iff,
          implies_true, and_true, h1, h2, h3, h4, h5, h6, h7, h8, Option.getD_some] at h ⊢
        intro p _ hp'
        simp only [expectedCounts, List.mem_cons, List.mem_singleton, List.not_mem_nil,
          or_false] at hp'
        rcases hp' with rfl | rfl | rfl | rfl | rfl | rfl | rfl | rfl <;>
          simp only [h1, h2, h3, h4, h5, h6, h7, h8, Option.getD_some] <;> tauto
    by_cases ho : orphan > 0
    · simp only [ho, if_true]
      constructor
      · intro h; exact absurd h (by simp)
      · intro h; omega
    · have ho' : orphan = 0 := by omega
      simp only [ho, if_false, matchStep_foldl, hall, true_and]
      exact ⟨fun h => ⟨h, ho'⟩, fun h => h.1⟩
  refine ⟨VerificationSummary.mk (expectedCounts transformed)
    (mapStore actual "orphan_link_tags" orphan)
    (if orphan > 0 then false
      else (expectedIter transformed).foldl
        (matchStep (mapStore actual "orphan_link_tags" orphan)) true),
    ?_, rfl, hact, mapLookup_of_mem_store actual _ orphan, hverdict⟩
  by_cases hp : reportPath = ""
  · simp only [VerifyImportIter, hread, hconn, hrun, horphan, hp, ne_eq, not_true_eq_false,
      if_false]
  · simp only [VerifyImportIter, hread, hconn, hrun, horphan, hp, ne_eq, not_false_eq_true,
      if_true, hwrite hp]

set_option maxRecDepth 100000 in
/-- C22, at the scenario: the destination holds one user, one link, one tag, one
link_tags row and the maintenance_status row, no orphan, and the verdict is
`matched = true`; the maps are iterated in the reverse of the written order. -/
theorem verify_matched_witness :
    ∃ summary, VerifyImportIter scenarioVerify "./tmp/verify-report.json"
        countQueries.reverse (fun t => (expectedCounts t).reverse) = .ok summary ∧
      mapLookup summary.Actual "orphan_link_tags" = some 0 ∧ summary.Matched = true := by
  obtain ⟨summary, hrun, _, _, horphan, hmatched⟩ :=
    verify_matched scenarioVerify "./tmp/verify-report.json" countQueries.reverse
      (fun t => (expectedCounts t).reverse) (TransformExport asciiStd 1000 scenario)
      scenarioCounts 0 (List.reverse_perm _) (List.reverse_perm _) rfl rfl
      (by
        intro p hp
        simp only [countQueries, List.mem_cons, List.mem_singleton, List.not_mem_nil,
          or_false] at hp
        rcases hp with rfl | rfl | rfl | rfl | rfl | rfl | rfl | rfl <;> rfl)
      rfl (fun _ _ => rfl)
  refine ⟨summary, hrun, horphan, hmatched.2 ⟨?_, rfl⟩⟩
  decide!

/-! ## C28: the ids of the TimelineEntry rows -/

theorem digitChar_value : ∀ k, k < 10 → (Nat.digitChar k).toNat - 48 = k := by
  decide

theorem digitChar_ne_underscore : ∀ k, k < 10 → Nat.digitChar k ≠ '_' := by
  decide

theorem decimalValue_toDigitsCore :
    ∀ (fuel n : Nat) (ds : List Char), n < fuel →
      decimalValue 0 (Nat.toDigitsCore 10 fuel n ds) = decimalValue n ds
  | 0, n, ds, h => absurd h (Nat.not_lt_zero n)
  | fuel + 1, n, ds, h => by
    unfold Nat.toDigitsCore
    by_cases h0 : n / 10 = 0
    · have hn : n < 10 := by omega
      simp only [h0, if_true]
      unfold decimalValue
      rw [List.foldl_cons, digitChar_value (n % 10) (Nat.mod_lt _ (by decide))]
      have : 10 * 0 + n % 10 = n := by omega
      rw [this]
    · simp only [h0, if_false]
      rw [decimalValue_toDigitsCore fuel (n / 10) _ (by omega)]
      unfold decimalValue
      rw [List.foldl_cons, digitChar_value (n % 10) (Nat.mod_lt _ (by decide))]
      have : 10 * (n / 10) + n % 10 = n := by omega
      rw [this]

theorem underscore_not_mem_toDigitsCore :
    ∀ (fuel n : Nat) (ds : List Char), '_' ∉ ds → '_' ∉ Nat.toDigitsCore 10 fuel n ds
  | 0, n, ds, h => h
  | fuel + 1, n, ds, h => by
    have hd : '_' ∉ Nat.digitChar (n % 10) :: ds := by
      intro hm
      rcases List.mem_cons.1 hm with h1 | h1
      · exact digitChar_ne_underscore (n % 10) (Nat.mod_lt _ (by decide)) h1.symm
      · exact h h1
    unfold Nat.toDigitsCore
    by_cases h0 : n / 10 = 0
    · simp only [h0, if_true]
      exact hd
    · simp only [h0, if_false]
      exact underscore_not_mem_toDigitsCore fuel (n / 10) _ hd

theorem Nat_repr_data (n : Nat) : (Nat.repr n).data = Nat.toDigitsCore 10 (n + 1) n [] := rfl

/-- The decimal numeral determines the number. -/
theorem Nat_repr_injective {i j : Nat} (h : Nat.repr i = Nat.repr j) : i = j := by
  have hd : (Nat.repr i).data = (Nat.repr j).data := by rw [h]
  rw [Nat_repr_data, Nat_repr_data] at hd
  have hv := congrArg (decimalValue 0) hd
  rw [decimalValue_toDigitsCore _ _ _ (Nat.lt_succ_self i),
    decimalValue_toDigitsCore _ _ _ (Nat.lt_succ_self j)] at hv
  exact hv

theorem underscore_not_mem_repr (n : Nat) : '_' ∉ (Nat.repr n).data := by
  rw [Nat_repr_data]
  exact underscore_not_mem_toDigitsCore _ _ _ (List.not_mem_nil _)

/-- The id `linkId + "_" + decimal(index)` determines the link id and the index:
the last underscore of the id is the one that was put in. -/
theorem timeline_id_injective {l1 l2 : String} {i j : Nat}
    (h : l1 ++ "_" ++ Nat.repr i = l2 ++ "_" ++ Nat.repr j) : l1 = l2 ∧ i = j := by
  have hd : l1.data ++ '_' :: (Nat.repr i).data = l2.data ++ '_' :: (Nat.repr j).data := by
    have := congrArg String.data h
    simpa [String.data_append] using this
  have hr : (Nat.repr i).data.reverse ++ '_' :: l1.data.reverse =
      (Nat.repr j).data.reverse ++ '_' :: l2.data.reverse := by
    have := congrArg List.reverse hd
    simpa using this
  obtain ⟨hdigits, hids⟩ := append_cons_split '_' _ _ _ _
    (fun hm => underscore_not_mem_repr i (List.mem_reverse.1 hm))
    (fun hm => underscore_not_mem_repr j (List.mem_reverse.1 hm)) hr
  constructor
  · exact String.ext (List.reverse_injective hids)
  · exact Nat_repr_injective (String.ext (List.reverse_injective hdigits))

theorem timelineRowOf_ID {std : GoStd} {linkID : String} {createdAt : Time}
    {ie : Nat × Val} {r : TimelineEntryRow}
    (h : r ∈ timelineRowOf std linkID createdAt ie) : r.ID = linkID ++ "_" ++ Nat.repr ie.1 := by
  unfold timelineRowOf at h
  split at h
  · simp at h
  · simp only [Option.mem_def, Option.some.injEq] at h
    rw [← h]

theorem linkTimelineRows_ids (std : GoStd) (now : Time) (d : FirestoreDocument) :
    (linkTimelineRows std now d).Pairwise (fun x y => x.ID ≠ y.ID) := by
  unfold linkTimelineRows
  refine List.Pairwise.filterMap (timelineRowOf std d.ID (linkCreatedAt std now d))
    (R := fun a b => a.1 ≠ b.1) ?_ ?_
  · intro a a' hne b hb b' hb' hid
    rw [timelineRowOf_ID hb, timelineRowOf_ID hb'] at hid
    exact hne (timeline_id_injective hid).2
  · exact List.pairwise_map.1 (List.nodup_enum_map_fst _)

theorem mem_linkTimelineRows_ID {std : GoStd} {now : Time} {d : FirestoreDocument}
    {r : TimelineEntryRow} (h : r ∈ linkTimelineRows std now d) :
    ∃ i, r.ID = d.ID ++ "_" ++ Nat.repr i := by
  obtain ⟨i, entryAny, _, hrow⟩ := mem_linkTimelineRows.1 h
  exact ⟨i, timelineRowOf_ID hrow⟩

/-- C28. When the link documents of a snapshot have pairwise distinct ids, the
TimelineEntry rows have pairwise distinct ids; the id linkId + "_" + decimal(index)
determines the pair (linkId, index) for all link ids, also those that hold
underscores or digits. -/
theorem timeline_entry_ids_distinct (std : GoStd) (now : Time) (exported : FirestoreExport)
    (hdistinct : ((exported.collection "links").map FirestoreDocument.ID).Nodup) :
    ((TransformExport std now exported).TimelineEntries.map TimelineEntryRow.ID).Nodup ∧
    ∀ (l1 l2 : String) (i j : Nat),
      l1 ++ "_" ++ Nat.repr i = l2 ++ "_" ++ Nat.repr j → l1 = l2 ∧ i = j := by
  refine ⟨?_, fun l1 l2 i j h => timeline_id_injective h⟩
  have hperm : (TransformExport std now exported).TimelineEntries.Perm
      (linksLoop std now exported).TimelineEntries := by
    rw [TimelineEntries_eq]
    exact sortSlice_perm _ _
  rw [((hperm.map TimelineEntryRow.ID).nodup_iff), linksLoop_TimelineEntries]
  unfold List.Nodup
  rw [List.pairwise_map, List.pairwise_flatMap]
  constructor
  · intro d _
    exact linkTimelineRows_ids std now d
  · have hlinks : (exported.collection "links").Pairwise (fun a b => a.ID ≠ b.ID) :=
      List.pairwise_map.1 hdistinct
    refine (hlinks.sublist (List.filter_sublist _)).imp ?_
    intro a b hne x hx y hy hid
    obtain ⟨i, hxi⟩ := mem_linkTimelineRows_ID hx
    obtain ⟨j, hyj⟩ := mem_linkTimelineRows_ID hy
    rw [hxi, hyj] at hid
    exact hne (timeline_id_injective hid).1

/-- C28, at `underscoreLinks`: the ids are `a_0`, `a_1` and `a_1_0`. -/
theorem timeline_entry_ids_distinct_witness :
    ((underscoreLinks.collection "links").map FirestoreDocument.ID).Nodup ∧
    ((TransformExport asciiStd 1000 underscoreLinks).TimelineEntries.map
      TimelineEntryRow.ID).Nodup ∧
    ∀ (l1 l2 : String) (i j : Nat),
      l1 ++ "_" ++ Nat.repr i = l2 ++ "_" ++ Nat.repr j → l1 = l2 ∧ i = j :=
  ⟨by decide, timeline_entry_ids_distinct asciiStd 1000 underscoreLinks (by decide)⟩

/-! ## The statements of the import, one after the other -/

theorem map_upsert {α : Type} (key : α → List String) (merge : α → α → α)
    (g : α → List String) (table : List α) (row : α)
    (hg : ∀ e, key e = key row → g (merge e row) = g e) :
    (upsert key merge table row).map g =
      if key row ∈ table.map key then table.map g else table.map g ++ [g row] := by
  unfold upsert
  by_cases h : key row ∈ table.map key
  · rw [if_pos h, if_pos h, List.map_map]
    apply List.map_congr_left
    intro e _
    by_cases he : key e = key row
    · simp [he, hg e he]
    · simp [he]
  · rw [if_neg h, if_neg h, List.map_append]
    rfl

theorem length_upsert {α : Type} (key : α → List String) (merge : α → α → α)
    (table : List α) (row : α) (h : key row ∈ table.map key) :
    (upsert key merge table row).length = table.length := by
  unfold upsert
  rw [if_pos h, List.length_map]

theorem runAll_cons (schema : Schema) (now : Time) (s : Statement) (rest : List Statement)
    (db : Database) :
    runAll schema now db (s :: rest) =
      match s.run schema now db with
      | .error err => (some (wrapError s.describe err), db)
      | .ok db' => runAll schema now db' rest := rfl

theorem runAll_append (schema : Schema) (now : Time) :
    ∀ (a b : List Statement) (db : Database),
      runAll schema now db (a ++ b) =
        match runAll schema now db a with
        | (some err, db') => (some err, db')
        | (none, db') => runAll schema now db' b
  | [], b, db => rfl
  | s :: a, b, db => by
    rw [List.cons_append, runAll_cons, runAll_cons]
    cases s.run schema now db with
    | error err => rfl
    | ok db' => exact runAll_append schema now a b db'

theorem execEach_eq_runAll {α : Type} (schema : Schema) (now : Time)
    (exec : Database → α → Except GoError Database) (describe : α → String)
    (mk : α → Statement)
    (hrun : ∀ row db, (mk row).run schema now db = exec db row)
    (hdescribe : ∀ row, (mk row).describe = describe row) :
    ∀ (rows : List α) (db : Database),
      execEach exec describe db rows = runAll schema now db (rows.map mk)
  | [], db => rfl
  | row :: rest, db => by
    rw [List.map_cons, runAll_cons, hrun, hdescribe]
    unfold execEach
    cases exec db row with
    | error err => rfl
    | ok db' => exact execEach_eq_runAll schema now exec describe mk hrun hdescribe rest db'

/-- The loops of `ImportToPostgres` execute the list `statements`, one statement
after the other. -/
theorem importStatements_eq_runAll (schema : Schema) (now : Time)
    (transformed : TransformedData) (db : Database) :
    importStatements schema now transformed db =
      runAll schema now db (statements transformed) := by
  unfold importStatements statements
  rw [runAll_append,
    execEach_eq_runAll schema now execUser
      (fun user => "failed to import user " ++ user.ID) Statement.user (fun _ _ => rfl) (fun _ => rfl)]
  rcases runAll schema now db (transformed.Users.map Statement.user) with ⟨_ | e1, db1⟩
  swap
  · rfl
  simp only
  rw [runAll_append, execEach_eq_runAll schema now (execLink schema)
    (fun link => "failed to import link " ++ link.ID) Statement.link
    (fun _ _ => rfl) (fun _ => rfl)]
  rcases runAll schema now db1 (transformed.Links.map Statement.link) with ⟨_ | e2, db2⟩
  swap
  · rfl
  simp only
  rw [runAll_append, execEach_eq_runAll schema now (execTag schema)
    (fun tag => "failed to import tag " ++ tag.ID) Statement.tag
    (fun _ _ => rfl) (fun _ => rfl)]
  rcases runAll schema now db2 (transformed.Tags.map Statement.tag) with ⟨_ | e3, db3⟩
  swap
  · rfl
  simp only
  rw [runAll_append, execEach_eq_runAll schema now execLinkTag
    (fun linkTag => "failed to import link_tag (" ++ linkTag.LinkID ++ "," ++
      linkTag.TagID ++ ")") Statement.linkTag
    (fun _ _ => rfl) (fun _ => rfl)]
  rcases runAll schema now db3 (transformed.LinkTags.map Statement.linkTag) with ⟨_ | e4, db4⟩
  swap
  · rfl
  simp only
  rw [runAll_append, execEach_eq_runAll schema now execTimelineEntry
    (fun entry => "failed to import timeline entry " ++ entry.ID) Statement.timelineEntry
    (fun _ _ => rfl) (fun _ => rfl)]
  rcases runAll schema now db4 (transformed.TimelineEntries.map Statement.timelineEntry)
    with ⟨_ | e5, db5⟩
  swap
  · rfl
  simp only
  rw [runAll_cons]
  have hs : (Statement.maintenanceStatus transformed.MaintenanceStatus).run schema now db5 =
      execMaintenanceStatus now db5 transformed.MaintenanceStatus := rfl
  rw [hs]
  cases execMaintenanceStatus now db5 transformed.MaintenanceStatus with
  | error err => rfl
  | ok db6 =>
    simp only
    rw [runAll_append, execEach_eq_runAll schema now execDeveloper
      (fun developer => "failed to import developer " ++ developer.UID) Statement.developer
      (fun _ _ => rfl) (fun _ => rfl)]
    rcases runAll schema now db6 (transformed.Developers.map Statement.developer)
      with ⟨_ | e7, db7⟩
    swap
    · rfl
    simp only
    rw [execEach_eq_runAll schema now execMaintenanceLog
      (fun logEntry => "failed to import maintenance log " ++ logEntry.ID)
      Statement.maintenanceLog
      (fun _ _ => rfl) (fun _ => rfl)]
theorem upsert_keys_cases {α : Type} (key : α → List String) (merge : α → α → α)
    (g : α → List String) (table : List α) (row : α)
    (hg : ∀ e, key e = key row → g (merge e row) = g e) :
    (upsert key merge table row).map g = table.map g ∨
      ∃ k, (upsert key merge table row).map g = table.map g ++ [k] := by
  rw [map_upsert key merge g table row hg]
  by_cases h : key row ∈ table.map key
  · rw [if_pos h]; exact Or.inl rfl
  · rw [if_neg h]; exact Or.inr ⟨_, rfl⟩

theorem key_mem_upsert {α : Type} (key : α → List String) (merge : α → α → α)
    (table : List α) (row : α) (hg : ∀ e, key e = key row → key (merge e row) = key e) :
    key row ∈ (upsert key merge table row).map key := by
  rw [map_upsert key merge key table row hg]
  by_cases h : key row ∈ table.map key
  · rw [if_pos h]; exact h
  · rw [if_neg h]; simp

theorem map_upsert_of_mem {α : Type} (key : α → List String) (merge : α → α → α)
    (g : α → List String) (table : List α) (row : α)
    (hg : ∀ e, key e = key row → g (merge e row) = g e) (h : key row ∈ table.map key) :
    (upsert key merge table row).map g = table.map g := by
  rw [map_upsert key merge g table row hg, if_pos h]

theorem execLink_ok {schema : Schema} {db db' : Database} {link : LinkRow}
    (h : execLink schema db link = .ok db') :
    (schema.linksReferUsers = true → [link.UserID] ∈ db.users.map userKey) ∧
      db' = { db with links := upsert linkKey mergeLink db.links (storedLink link) } := by
  unfold execLink linkViolation at h
  by_cases hc : schema.linksReferUsers = true ∧ [link.UserID] ∉ db.users.map userKey
  · rw [if_pos hc] at h
    cases h
  · rw [if_neg hc] at h
    simp only [Except.ok.injEq] at h
    exact ⟨fun hf => by_contra (fun hno => hc ⟨hf, hno⟩), h.symm⟩

theorem execLink_of_ready {schema : Schema} {db : Database} {link : LinkRow}
    (h : schema.linksReferUsers = true → [link.UserID] ∈ db.users.map userKey) :
    execLink schema db link =
      .ok { db with links := upsert linkKey mergeLink db.links (storedLink link) } := by
  have hc : ¬ (schema.linksReferUsers = true ∧ [link.UserID] ∉ db.users.map userKey) :=
    fun hc => hc.2 (h hc.1)
  simp only [execLink, linkViolation, if_neg hc]

theorem execTag_ok {schema : Schema} {db db' : Database} {tag : TagRow}
    (h : execTag schema db tag = .ok db') :
    db' = { db with tags := upsert tagConflictKey mergeTag db.tags (storedTag tag) } := by
  unfold execTag at h
  cases hv : tagViolation schema db tag with
  | some err =>
    rw [hv] at h
    cases h
  | none =>
    rw [hv] at h
    simp only [Except.ok.injEq] at h
    exact h.symm

theorem execTag_of_ready {schema : Schema} {db : Database} {tag : TagRow}
    (h : tagConflictKey tag ∈ db.tags.map tagConflictKey) :
    execTag schema db tag =
      .ok { db with tags := upsert tagConflictKey mergeTag db.tags (storedTag tag) } := by
  simp only [execTag, tagViolation, if_pos h]

theorem execLinkTag_ok {db db' : Database} {linkTag : LinkTagRow}
    (h : execLinkTag db linkTag = .ok db') :
    (linkTagConflictKey linkTag ∈ db.linkTags.map linkTagConflictKey ∧ db' = db) ∨
      db' = { db with linkTags := db.linkTags ++ [storedLinkTag linkTag] } := by
  unfold execLinkTag linkTagViolation at h
  by_cases hm : linkTagConflictKey linkTag ∈ db.linkTags.map linkTagConflictKey
  · rw [if_pos hm] at h
    simp only [Except.ok.injEq] at h
    exact Or.inl ⟨hm, h.symm⟩
  · rw [if_neg hm] at h
    by_cases hc : [linkTag.LinkID] ∉ db.links.map linkKey ∨
        [linkTag.TagID] ∉ db.tags.map tagPrimaryKey
    · rw [if_pos hc] at h
      cases h
    · rw [if_neg hc] at h
      simp only [Except.ok.injEq] at h
      exact Or.inr h.symm

theorem execTimelineEntry_ok {db db' : Database} {entry : TimelineEntryRow}
    (h : execTimelineEntry db entry = .ok db') :
    [entry.LinkID] ∈ db.links.map linkKey ∧
      db' = { db with
        timelineEntries :=
          upsert timelineEntryKey mergeTimelineEntry db.timelineEntries
            (storedTimelineEntry entry) } := by
  unfold execTimelineEntry timelineEntryViolation at h
  by_cases hc : [entry.LinkID] ∉ db.links.map linkKey
  · rw [if_pos hc] at h
    cases h
  · rw [if_neg hc] at h
    simp only [Except.ok.injEq] at h
    exact ⟨not_not.1 hc, h.symm⟩

theorem execTimelineEntry_of_ready {db : Database} {entry : TimelineEntryRow}
    (h : [entry.LinkID] ∈ db.links.map linkKey) :
    execTimelineEntry db entry =
      .ok { db with
        timelineEntries :=
          upsert timelineEntryKey mergeTimelineEntry db.timelineEntries
            (storedTimelineEntry entry) } := by
  have hc : ¬ ([entry.LinkID] ∉ db.links.map linkKey) := not_not.2 h
  simp only [execTimelineEntry, timelineEntryViolation, if_neg hc]

/-- A statement that succeeds leaves every index as it is or adds one key at
its end. -/
theorem run_index {schema : Schema} {now : Time} {db db' : Database} {s : Statement}
    (h : s.run schema now db = .ok db') (i : Index) :
    indexKeys db' i = indexKeys db i ∨ ∃ k, indexKeys db' i = indexKeys db i ++ [k] := by
  cases s with
  | user row =>
    simp only [Statement.run, execUser, Except.ok.injEq] at h
    subst h
    cases i <;> first
      | exact Or.inl rfl
      | exact upsert_keys_cases userKey mergeUser userKey db.users _ (fun _ _ => rfl)
  | link row =>
    obtain ⟨_, hdb⟩ := execLink_ok h
    subst hdb
    cases i <;> first
      | exact Or.inl rfl
      | exact upsert_keys_cases linkKey mergeLink linkKey db.links _ (fun _ _ => rfl)
  | tag row =>
    have hdb := execTag_ok h
    subst hdb
    cases i <;> first
      | exact Or.inl rfl
      | exact upsert_keys_cases tagConflictKey mergeTag tagConflictKey db.tags _
          (fun _ _ => rfl)
      | exact upsert_keys_cases tagConflictKey mergeTag tagPrimaryKey db.tags _
          (fun _ _ => rfl)
  | linkTag row =>
    rcases execLinkTag_ok h with ⟨_, hdb⟩ | hdb
    · subst hdb
      exact Or.inl rfl
    · subst hdb
      cases i <;> first
        | exact Or.inl rfl
        | exact Or.inr ⟨_, List.map_append _ _ _⟩
  | timelineEntry row =>
    obtain ⟨_, hdb⟩ := execTimelineEntry_ok h
    subst hdb
    cases i <;> first
      | exact Or.inl rfl
      | exact upsert_keys_cases timelineEntryKey mergeTimelineEntry timelineEntryKey
          db.timelineEntries _ (fun _ _ => rfl)
  | maintenanceStatus row =>
    simp only [Statement.run, execMaintenanceStatus, Except.ok.injEq] at h
    subst h
    cases i <;> first
      | exact Or.inl rfl
      | exact upsert_keys_cases maintenanceStatusKey (mergeMaintenanceStatus now) maintenanceStatusKey db.maintenanceStatus _
          (fun _ _ => rfl)
  | developer row =>
    simp only [Statement.run, execDeveloper, Except.ok.injEq] at h
    subst h
    cases i <;> first
      | exact Or.inl rfl
      | exact upsert_keys_cases developerKey mergeDeveloper developerKey db.developers _ (fun _ _ => rfl)
  | maintenanceLog row =>
    simp only [Statement.run, execMaintenanceLog, Except.ok.injEq] at h
    subst h
    cases i <;> first
      | exact Or.inl rfl
      | exact upsert_keys_cases maintenanceLogKey mergeMaintenanceLog maintenanceLogKey db.maintenanceLogs _ (fun _ _ => rfl)

theorem keyLe_refl (db : Database) : KeyLe db db := fun _ _ h => h

theorem keyLe_trans {a b c : Database} (h1 : KeyLe a b) (h2 : KeyLe b c) : KeyLe a c :=
  fun i k h => h2 i k (h1 i k h)

theorem keyLe_of_eq {db db' : Database} (h : ∀ i, indexKeys db' i = indexKeys db i) :
    KeyLe db db' := fun i k hk => by rw [h i]; exact hk

theorem run_mono {schema : Schema} {now : Time} {db db' : Database} {s : Statement}
    (h : s.run schema now db = .ok db') : KeyLe db db' := by
  intro i k hk
  rcases run_index h i with he | ⟨k', he⟩
  · rw [he]; exact hk
  · rw [he]; exact List.mem_append_left _ hk

theorem ready_mono {schema : Schema} {db db' : Database} {s : Statement}
    (h : s.ready schema db) (hle : KeyLe db db') : s.ready schema db' := by
  cases s with
  | user row => exact hle _ _ h
  | link row => exact ⟨hle _ _ h.1, fun hf => hle _ _ (h.2 hf)⟩
  | tag row => exact hle _ _ h
  | linkTag row => exact hle _ _ h
  | timelineEntry row => exact ⟨hle _ _ h.1, hle _ _ h.2⟩
  | maintenanceStatus row => exact hle _ _ h
  | developer row => exact hle _ _ h
  | maintenanceLog row => exact hle _ _ h

/-- After a statement has succeeded, its row is in the destination. -/
theorem ready_after_run {schema : Schema} {now : Time} {db db' : Database} {s : Statement}
    (h : s.run schema now db = .ok db') : s.ready schema db' := by
  cases s with
  | user row =>
    simp only [Statement.run, execUser, Except.ok.injEq] at h
    subst h
    exact key_mem_upsert userKey mergeUser db.users _ (fun _ _ => rfl)
  | link row =>
    obtain ⟨huser, hdb⟩ := execLink_ok h
    subst hdb
    exact ⟨key_mem_upsert linkKey mergeLink db.links _ (fun _ _ => rfl), huser⟩
  | tag row =>
    have hdb := execTag_ok h
    subst hdb
    exact key_mem_upsert tagConflictKey mergeTag db.tags _ (fun _ _ => rfl)
  | linkTag row =>
    rcases execLinkTag_ok h with ⟨hmem, hdb⟩ | hdb
    · subst hdb
      exact hmem
    · subst hdb
      simp [Statement.ready, indexKeys, storedLinkTag, linkTagConflictKey]
  | timelineEntry row =>
    obtain ⟨hlink, hdb⟩ := execTimelineEntry_ok h
    subst hdb
    exact ⟨key_mem_upsert timelineEntryKey mergeTimelineEntry db.timelineEntries _
      (fun _ _ => rfl), hlink⟩
  | maintenanceStatus row =>
    simp only [Statement.run, execMaintenanceStatus, Except.ok.injEq] at h
    subst h
    exact key_mem_upsert maintenanceStatusKey (mergeMaintenanceStatus now) db.maintenanceStatus _ (fun _ _ => rfl)
  | developer row =>
    simp only [Statement.run, execDeveloper, Except.ok.injEq] at h
    subst h
    exact key_mem_upsert developerKey mergeDeveloper db.developers _ (fun _ _ => rfl)
  | maintenanceLog row =>
    simp only [Statement.run, execMaintenanceLog, Except.ok.injEq] at h
    subst h
    exact key_mem_upsert maintenanceLogKey mergeMaintenanceLog db.maintenanceLogs _ (fun _ _ => rfl)

/-- A statement whose row is in the destination succeeds and leaves every index
as it is. -/
theorem run_of_ready {schema : Schema} (now : Time) {db : Database} {s : Statement}
    (h : s.ready schema db) :
    ∃ db', s.run schema now db = .ok db' ∧ ∀ i, indexKeys db' i = indexKeys db i := by
  cases s with
  | user row =>
    refine ⟨_, rfl, fun i => ?_⟩
    cases i <;> first
      | rfl
      | exact map_upsert_of_mem userKey mergeUser userKey db.users _ (fun _ _ => rfl) h
  | link row =>
    refine ⟨{ db with links := upsert linkKey mergeLink db.links (storedLink row) },
      execLink_of_ready h.2, fun i => ?_⟩
    cases i <;> first
      | rfl
      | exact map_upsert_of_mem linkKey mergeLink linkKey db.links _ (fun _ _ => rfl) h.1
  | tag row =>
    have hmem : tagConflictKey row ∈ db.tags.map tagConflictKey := h
    refine ⟨{ db with tags := upsert tagConflictKey mergeTag db.tags (storedTag row) },
      execTag_of_ready hmem, fun i => ?_⟩
    cases i <;> first
      | rfl
      | exact map_upsert_of_mem tagConflictKey mergeTag tagConflictKey db.tags _ (fun _ _ => rfl) hmem
      | exact map_upsert_of_mem tagConflictKey mergeTag tagPrimaryKey db.tags _ (fun _ _ => rfl) hmem
  | linkTag row =>
    have hmem : linkTagConflictKey row ∈ db.linkTags.map linkTagConflictKey := h
    exact ⟨db, by simp only [Statement.run, execLinkTag, if_pos hmem], fun _ => rfl⟩
  | timelineEntry row =>
    refine ⟨{ db with
        timelineEntries := upsert timelineEntryKey mergeTimelineEntry db.timelineEntries
          (storedTimelineEntry row) },
      execTimelineEntry_of_ready h.2, fun i => ?_⟩
    cases i <;> first
      | rfl
      | exact map_upsert_of_mem timelineEntryKey mergeTimelineEntry timelineEntryKey db.timelineEntries _ (fun _ _ => rfl) h.1
  | maintenanceStatus row =>
    refine ⟨_, rfl, fun i => ?_⟩
    cases i <;> first
      | rfl
      | exact map_upsert_of_mem maintenanceStatusKey (mergeMaintenanceStatus now) maintenanceStatusKey db.maintenanceStatus _
          (fun _ _ => rfl) h
  | developer row =>
    refine ⟨_, rfl, fun i => ?_⟩
    cases i <;> first
      | rfl
      | exact map_upsert_of_mem developerKey mergeDeveloper developerKey db.developers _ (fun _ _ => rfl) h
  | maintenanceLog row =>
    refine ⟨_, rfl, fun i => ?_⟩
    cases i <;> first
      | rfl
      | exact map_upsert_of_mem maintenanceLogKey mergeMaintenanceLog maintenanceLogKey db.maintenanceLogs _ (fun _ _ => rfl) h

/-- After a run without error every statement of the run has its row in the
destination. -/
theorem runAll_ready (schema : Schema) (now : Time) :
    ∀ (l : List Statement) (db db' : Database),
      runAll schema now db l = (none, db') →
      KeyLe db db' ∧ ∀ s ∈ l, s.ready schema db'
  | [], db, db', h => by
    simp only [runAll, Prod.mk.injEq, true_and] at h
    subst h
    exact ⟨keyLe_refl _, fun _ hs => absurd hs (List.not_mem_nil _)⟩
  | s :: rest, db, db', h => by
    rw [runAll_cons] at h
    cases hs : s.run schema now db with
    | error err =>
      rw [hs] at h
      simp at h
    | ok d =>
      rw [hs] at h
      obtain ⟨hle, hready⟩ := runAll_ready schema now rest d db' h
      refine ⟨keyLe_trans (run_mono hs) hle, fun s' hs' => ?_⟩
      rcases List.mem_cons.1 hs' with rfl | hmem
      · exact ready_mono (ready_after_run hs) hle
      · exact hready s' hmem

/-- A run whose statements all have their rows in the destination succeeds and
leaves every index as it is. -/
theorem runAll_of_ready (schema : Schema) (now : Time) :
    ∀ (l : List Statement) (db : Database), (∀ s ∈ l, s.ready schema db) →
      ∃ db', runAll schema now db l = (none, db') ∧ ∀ i, indexKeys db' i = indexKeys db i
  | [], db, _ => ⟨db, rfl, fun _ => rfl⟩
  | s :: rest, db, h => by
    obtain ⟨d, hrun, hidx⟩ := run_of_ready now (h s (List.mem_cons_self _ _))
    obtain ⟨db', hrest, hidx'⟩ := runAll_of_ready schema now rest d
      (fun s' hs' => ready_mono (h s' (List.mem_cons_of_mem _ hs')) (keyLe_of_eq hidx))
    refine ⟨db', ?_, fun i => (hidx' i).trans (hidx i)⟩
    rw [runAll_cons, hrun]
    exact hrest

theorem rowCounts_eq_of_index {db db' : Database}
    (h : ∀ i, indexKeys db' i = indexKeys db i) : rowCounts db' = rowCounts db := by
  have h1 := congrArg List.length (h .userID)
  have h2 := congrArg List.length (h .linkID)
  have h3 := congrArg List.length (h .tagID)
  have h4 := congrArg List.length (h .linkTag)
  have h5 := congrArg List.length (h .timelineEntryID)
  have h6 := congrArg List.length (h .maintenanceStatusID)
  have h7 := congrArg List.length (h .developerUID)
  have h8 := congrArg List.length (h .maintenanceLogID)
  simp only [indexKeys, List.length_map] at h1 h2 h3 h4 h5 h6 h7 h8
  simp only [rowCounts, h1, h2, h3, h4, h5, h6, h7, h8]

/-- A run of `ImportToPostgres` returns no error exactly when the file is read,
the connection, the transaction, `SET TIME ZONE` and the commit succeed and no
statement fails; the destination then holds what the transaction saw. -/
theorem ImportToPostgres_eq_none_iff (schema : Schema) (env : ImportEnv) (db db' : Database) :
    ImportToPostgres schema env db = (none, db') ↔
      ∃ transformed, env.readTransformed = .ok transformed ∧ env.connect = none ∧
        env.beginTx = none ∧ env.setTimeZone = none ∧ env.commit = none ∧
        importStatements schema env.now transformed db = (none, db') := by
  constructor
  · intro h
    cases hr : env.readTransformed with
    | error err => simp [ImportToPostgres, hr] at h
    | ok transformed =>
      cases hc : env.connect with
      | some err => simp [ImportToPostgres, hr, hc] at h
      | none =>
        cases hb : env.beginTx with
        | some err => simp [ImportToPostgres, hr, hc, hb] at h
        | none =>
          cases hz : env.setTimeZone with
          | some err => simp [ImportToPostgres, importTransaction, hr, hc, hb, hz] at h
          | none =>
            rcases hi : importStatements schema env.now transformed db with ⟨_ | err, pending⟩
            · cases hm : env.commit with
              | some err =>
                simp [ImportToPostgres, importTransaction, Session.begin, Session.commit,
                  Session.rollback, hr, hc, hb, hz, hi, hm] at h
              | none =>
                simp only [ImportToPostgres, importTransaction, Session.begin, Session.commit,
                  Session.rollback, hr, hc, hb, hz, hi, hm, Prod.mk.injEq, true_and] at h
                subst h
                exact ⟨transformed, rfl, rfl, rfl, rfl, rfl, hi⟩
            · simp [ImportToPostgres, importTransaction, Session.begin, Session.commit,
                Session.rollback, hr, hc, hb, hz, hi] at h
  · rintro ⟨transformed, hr, hc, hb, hz, hm, hi⟩
    simp only [ImportToPostgres, importTransaction, Session.begin, Session.commit,
      Session.rollback, hr, hc, hb, hz, hm, hi]
/-! ## C23: a second run of the import -/

/-- C23. When a run of `ImportToPostgres` returns no error, a second run with
the same transformed file, in which the connection, the transaction,
`SET TIME ZONE` and the commit succeed again, returns no error and leaves every
table with the number of rows it had, and every index with the keys it had.  This
holds for every dataset and for every destination the first run starts from, so
for a dataset of `TransformExport` and the empty destination. -/
theorem import_twice_same_counts (schema : Schema) (first second : ImportEnv)
    (db0 db1 : Database)
    (hfirst : ImportToPostgres schema first db0 = (none, db1))
    (hread : second.readTransformed = first.readTransformed)
    (hconnect : second.connect = none) (hbegin : second.beginTx = none)
    (hzone : second.setTimeZone = none) (hcommit : second.commit = none) :
    ∃ db2, ImportToPostgres schema second db1 = (none, db2) ∧
      rowCounts db2 = rowCounts db1 ∧ ∀ i, indexKeys db2 i = indexKeys db1 i := by
  obtain ⟨t, hr, _, _, _, _, hi⟩ := (ImportToPostgres_eq_none_iff schema first db0 db1).1 hfirst
  rw [importStatements_eq_runAll] at hi
  obtain ⟨_, hready⟩ := runAll_ready schema first.now _ db0 db1 hi
  obtain ⟨db2, hrun, hidx⟩ := runAll_of_ready schema second.now (statements t) db1 hready
  refine ⟨db2, (ImportToPostgres_eq_none_iff schema second db1 db2).2
    ⟨t, by rw [hread, hr], hconnect, hbegin, hzone, hcommit, ?_⟩,
    rowCounts_eq_of_index hidx, hidx⟩
  rw [importStatements_eq_runAll]
  exact hrun

set_option maxRecDepth 100000 in
/-- C23, at the scenario: the dataset of `TransformExport`, the empty
destination, and a second run at a later time. -/
theorem import_twice_same_counts_witness :
    ImportToPostgres { linksReferUsers := true, tagsReferUsers := true } scenarioImport
      emptyDatabase = (none, scenarioDatabase) ∧
    ∃ db2, ImportToPostgres { linksReferUsers := true, tagsReferUsers := true }
        scenarioImportAgain scenarioDatabase = (none, db2) ∧
      rowCounts db2 = rowCounts scenarioDatabase ∧
      ∀ i, indexKeys db2 i = indexKeys scenarioDatabase i := by
  have hfirst : ImportToPostgres { linksReferUsers := true, tagsReferUsers := true }
      scenarioImport emptyDatabase = (none, scenarioDatabase) :=
    Prod.ext (by decide!) rfl
  exact ⟨hfirst, import_twice_same_counts _ scenarioImport scenarioImportAgain emptyDatabase
    scenarioDatabase hfirst rfl rfl rfl rfl rfl⟩

/-! ## C24: the import is one transaction -/

theorem ImportToPostgres_in_transaction (schema : Schema) (env : ImportEnv) (db : Database)
    (transformed : TransformedData) (hr : env.readTransformed = .ok transformed)
    (hc : env.connect = none) (hb : env.beginTx = none) (hz : env.setTimeZone = none) :
    ImportToPostgres schema env db =
      match importStatements schema env.now transformed db with
      | (some err, _) => (some err, db)
      | (none, pending) =>
        match env.commit with
        | some err => (some (wrapError "failed to commit import transaction" err), db)
        | none => (none, pending) := by
  rcases hi : importStatements schema env.now transformed db with ⟨_ | err, pending⟩
  · cases hm : env.commit with
    | some err =>
      simp only [ImportToPostgres, importTransaction, Session.begin, Session.commit,
        Session.rollback, hr, hc, hb, hz, hi, hm]
    | none =>
      simp only [ImportToPostgres, importTransaction, Session.begin, Session.commit,
        Session.rollback, hr, hc, hb, hz, hi, hm]
  · simp only [ImportToPostgres, importTransaction, Session.begin, Session.commit,
      Session.rollback, hr, hc, hb, hz, hi]

theorem ImportToPostgres_error_unchanged (schema : Schema) (env : ImportEnv) (db : Database)
    (h : (ImportToPostgres schema env db).1 ≠ none) : (ImportToPostgres schema env db).2 = db := by
  cases hr : env.readTransformed with
  | error err => simp [ImportToPostgres, hr]
  | ok transformed =>
    cases hc : env.connect with
    | some err => simp [ImportToPostgres, hr, hc]
    | none =>
      cases hb : env.beginTx with
      | some err => simp [ImportToPostgres, hr, hc, hb]
      | none =>
        cases hz : env.setTimeZone with
        | some err =>
          simp [ImportToPostgres, importTransaction, Session.begin, Session.rollback, hr, hc,
            hb, hz]
        | none =>
          rw [ImportToPostgres_in_transaction schema env db transformed hr hc hb hz] at h ⊢
          rcases hi : importStatements schema env.now transformed db with ⟨_ | err, pending⟩
          · rw [hi] at h
            cases hm : env.commit with
            | some err => rfl
            | none =>
              rw [hm] at h
              exact absurd rfl h
          · rfl

theorem runAll_fails (schema : Schema) (now : Time) :
    ∀ (before : List Statement) (s : Statement) (after : List Statement)
      (db seen : Database) (err : GoError),
      runAll schema now db before = (none, seen) → s.run schema now seen = .error err →
      runAll schema now db (before ++ s :: after) = (some (wrapError s.describe err), seen) := by
  intro before s after db seen err hbefore hs
  rw [runAll_append, hbefore]
  simp only
  rw [runAll_cons, hs]

/-- C24. When `ImportToPostgres` returns an error the destination holds what it
held before the call.  It returns an error when a statement fails, whatever the
entity and the row and whatever was written before it in the run, and when the
commit fails; in both cases the destination is unchanged. -/
theorem import_atomic (schema : Schema) (env : ImportEnv) (db : Database) :
    ((ImportToPostgres schema env db).1 ≠ none → (ImportToPostgres schema env db).2 = db) ∧
    (∀ transformed, env.readTransformed = .ok transformed → env.connect = none →
      env.beginTx = none → env.setTimeZone = none →
      (∀ before s after seen err, statements transformed = before ++ s :: after →
        runAll schema env.now db before = (none, seen) →
        s.run schema env.now seen = .error err →
        ImportToPostgres schema env db = (some (wrapError s.describe err), db)) ∧
      (∀ err pending, importStatements schema env.now transformed db = (some err, pending) →
        ImportToPostgres schema env db = (some err, db)) ∧
      (∀ err pending, importStatements schema env.now transformed db = (none, pending) →
        env.commit = some err →
        ImportToPostgres schema env db =
          (some (wrapError "failed to commit import transaction" err), db))) := by
  refine ⟨ImportToPostgres_error_unchanged schema env db, ?_⟩
  intro transformed hr hc hb hz
  refine ⟨?_, ?_, ?_⟩
  · intro before s after seen err hsplit hbefore hs
    rw [ImportToPostgres_in_transaction schema env db transformed hr hc hb hz,
      importStatements_eq_runAll, hsplit,
      runAll_fails schema env.now before s after db seen err hbefore hs]
  · intro err pending hi
    rw [ImportToPostgres_in_transaction schema env db transformed hr hc hb hz, hi]
  · intro err pending hi hm
    rw [ImportToPostgres_in_transaction schema env db transformed hr hc hb hz, hi]
    simp only [hm]

/-- In the run `danglingImport` the user row is written, the link_tags row then
fails, and the destination does not hold the user row; in the run
`scenarioImportNoCommit` every statement succeeds, the commit fails, and the
destination holds nothing. -/
theorem failed_import_leaves_destination (schema : Schema) :
    (importStatements schema 2000
      { GeneratedAt := 1000
        Users := [{ ID := "u1", Email := none, DisplayName := none, CreatedAt := 1000,
                    UpdatedAt := 1000 }]
        Links := [], Tags := []
        LinkTags := [{ LinkID := "l9", TagID := "t9", CreatedAt := 1000 }]
        TimelineEntries := []
        MaintenanceStatus := { ID := "current", IsMaintenanceMode := false, Reason := none,
                               StartedAt := none, StartedBy := none }
        Developers := [], MaintenanceLogs := [], Report := [] }
      emptyDatabase).2.users =
      [{ ID := "u1", Email := none, DisplayName := none, CreatedAt := 1000,
         UpdatedAt := 1000 }] ∧
    ImportToPostgres schema danglingImport emptyDatabase =
      (some { code := "23503"
              message := "failed to import link_tag (l9,t9): insert or update on table " ++
                "link_tags violates foreign key constraint" },
        emptyDatabase) ∧
    (ImportToPostgres schema scenarioImportNoCommit emptyDatabase).2 = emptyDatabase := by
  refine ⟨rfl, rfl, ?_⟩
  exact ImportToPostgres_error_unchanged schema scenarioImportNoCommit emptyDatabase
    (by
      rcases schema with ⟨_ | _, _ | _⟩ <;> decide!)

/-! ## C25: the created_at of a stored tag -/

theorem tagsNotLater_refl (db : Database) : TagsNotLater db db :=
  fun e he => ⟨e, he, rfl, rfl, rfl, le_refl _⟩

theorem tagsNotLater_trans {a b c : Database} (h1 : TagsNotLater a b) (h2 : TagsNotLater b c) :
    TagsNotLater a c := by
  intro e he
  obtain ⟨e1, he1, hi1, hu1, hn1, hc1⟩ := h1 e he
  obtain ⟨e2, he2, hi2, hu2, hn2, hc2⟩ := h2 e1 he1
  exact ⟨e2, he2, hi2.trans hi1, hu2.trans hu1, hn2.trans hn1, le_trans hc2 hc1⟩

theorem tagsNotLater_of_tags_eq {db db' : Database} (h : db'.tags = db.tags) :
    TagsNotLater db db' := by
  intro e he
  exact ⟨e, by rw [h]; exact he, rfl, rfl, rfl, le_refl _⟩

theorem upsert_tag_not_later (table : List TagRow) (row : TagRow) :
    ∀ e ∈ table, ∃ e' ∈ upsert tagConflictKey mergeTag table row,
      e'.ID = e.ID ∧ e'.UserID = e.UserID ∧ e'.Name = e.Name ∧ e'.CreatedAt ≤ e.CreatedAt := by
  intro e he
  unfold upsert
  by_cases h : tagConflictKey row ∈ table.map tagConflictKey
  · rw [if_pos h]
    by_cases hk : tagConflictKey e = tagConflictKey row
    · refine ⟨mergeTag e row, List.mem_map.2 ⟨e, he, by rw [if_pos hk]⟩, rfl, rfl, rfl, ?_⟩
      exact min_le_left _ _
    · exact ⟨e, List.mem_map.2 ⟨e, he, by rw [if_neg hk]⟩, rfl, rfl, rfl, le_refl _⟩
  · rw [if_neg h]
    exact ⟨e, List.mem_append_left _ he, rfl, rfl, rfl, le_refl _⟩

theorem run_tags_not_later {schema : Schema} {now : Time} {db db' : Database} {s : Statement}
    (h : s.run schema now db = .ok db') : TagsNotLater db db' := by
  cases s with
  | user row =>
    simp only [Statement.run, execUser, Except.ok.injEq] at h
    subst h
    exact tagsNotLater_of_tags_eq rfl
  | link row =>
    obtain ⟨_, hdb⟩ := execLink_ok h
    subst hdb
    exact tagsNotLater_of_tags_eq rfl
  | tag row =>
    have hdb := execTag_ok h
    subst hdb
    exact upsert_tag_not_later db.tags (storedTag row)
  | linkTag row =>
    rcases execLinkTag_ok h with ⟨_, hdb⟩ | hdb
    · subst hdb
      exact tagsNotLater_refl _
    · subst hdb
      exact tagsNotLater_of_tags_eq rfl
  | timelineEntry row =>
    obtain ⟨_, hdb⟩ := execTimelineEntry_ok h
    subst hdb
    exact tagsNotLater_of_tags_eq rfl
  | maintenanceStatus row =>
    simp only [Statement.run, execMaintenanceStatus, Except.ok.injEq] at h
    subst h
    exact tagsNotLater_of_tags_eq rfl
  | developer row =>
    simp only [Statement.run, execDeveloper, Except.ok.injEq] at h
    subst h
    exact tagsNotLater_of_tags_eq rfl
  | maintenanceLog row =>
    simp only [Statement.run, execMaintenanceLog, Except.ok.injEq] at h
    subst h
    exact tagsNotLater_of_tags_eq rfl

theorem runAll_tags_not_later (schema : Schema) (now : Time) :
    ∀ (l : List Statement) (db : Database),
      TagsNotLater db (runAll schema now db l).2
  | [], db => tagsNotLater_refl db
  | s :: rest, db => by
    rw [runAll_cons]
    cases hs : s.run schema now db with
    | error err => exact tagsNotLater_refl db
    | ok d =>
      exact tagsNotLater_trans (run_tags_not_later hs)
        (runAll_tags_not_later schema now rest d)

theorem ImportToPostgres_tags_not_later (schema : Schema) (env : ImportEnv) (db : Database) :
    TagsNotLater db (ImportToPostgres schema env db).2 := by
  by_cases h : (ImportToPostgres schema env db).1 = none
  · have hpair : ImportToPostgres schema env db = (none, (ImportToPostgres schema env db).2) :=
      Prod.ext h rfl
    obtain ⟨t, _, _, _, _, _, hi⟩ := (ImportToPostgres_eq_none_iff schema env db _).1 hpair
    rw [importStatements_eq_runAll] at hi
    have := runAll_tags_not_later schema env.now (statements t) db
    rw [hi] at this
    exact this
  · rw [ImportToPostgres_error_unchanged schema env db h]
    exact tagsNotLater_refl db

theorem whole_thousands (t : Int) :
    t - t % 1000 ≤ t ∧ t < t - t % 1000 + 1000 ∧ (t - t % 1000) % 1000 = 0 := by
  omega

theorem pgTimestamp_le (t : Time) : pgTimestamp t ≤ t := (whole_thousands t).1

theorem pgTimestamp_spec (t : Time) :
    pgTimestamp t ≤ t ∧ t < pgTimestamp t + 1000 ∧ pgTimestamp t % 1000 = 0 := by
  exact whole_thousands t

theorem leastCreatedAt_nil (e : TagRow) : leastCreatedAt e [] = e.CreatedAt := rfl

theorem leastCreatedAt_cons_of_eq {e row : TagRow} (rest : List TagRow)
    (h : tagConflictKey row = tagConflictKey e) :
    leastCreatedAt e (row :: rest) = leastCreatedAt (mergeTag e (storedTag row)) rest := by
  unfold leastCreatedAt
  rw [List.filter_cons_of_pos (by simpa using h), List.foldl_cons]
  rfl

theorem leastCreatedAt_cons_of_ne {e row : TagRow} (rest : List TagRow)
    (h : tagConflictKey row ≠ tagConflictKey e) :
    leastCreatedAt e (row :: rest) = leastCreatedAt e rest := by
  unfold leastCreatedAt
  rw [List.filter_cons_of_neg (by simpa using h)]

theorem leastCreatedAt_le (e : TagRow) (incoming : List TagRow) :
    leastCreatedAt e incoming ≤ e.CreatedAt := by
  induction incoming generalizing e with
  | nil => exact le_refl _
  | cons row rest ih =>
    by_cases h : tagConflictKey row = tagConflictKey e
    · rw [leastCreatedAt_cons_of_eq rest h]
      exact le_trans (ih _) (min_le_left _ _)
    · rw [leastCreatedAt_cons_of_ne rest h]
      exact ih e

/-- What a statement that succeeds does to the table of tags. -/
theorem run_tags {schema : Schema} {now : Time} {db db' : Database} {s : Statement}
    (h : s.run schema now db = .ok db') :
    db'.tags = match s with
      | .tag row => upsert tagConflictKey mergeTag db.tags (storedTag row)
      | _ => db.tags := by
  cases s with
  | user row =>
    simp only [Statement.run, execUser, Except.ok.injEq] at h
    subst h
    rfl
  | link row =>
    obtain ⟨_, hdb⟩ := execLink_ok h
    subst hdb
    rfl
  | tag row =>
    have hdb := execTag_ok h
    subst hdb
    rfl
  | linkTag row =>
    rcases execLinkTag_ok h with ⟨_, hdb⟩ | hdb
    · subst hdb
      rfl
    · subst hdb
      rfl
  | timelineEntry row =>
    obtain ⟨_, hdb⟩ := execTimelineEntry_ok h
    subst hdb
    rfl
  | maintenanceStatus row =>
    simp only [Statement.run, execMaintenanceStatus, Except.ok.injEq] at h
    subst h
    rfl
  | developer row =>
    simp only [Statement.run, execDeveloper, Except.ok.injEq] at h
    subst h
    rfl
  | maintenanceLog row =>
    simp only [Statement.run, execMaintenanceLog, Except.ok.injEq] at h
    subst h
    rfl

theorem filterMap_none {α β : Type} (l : List α) :
    l.filterMap (fun _ => (none : Option β)) = [] := by
  induction l with
  | nil => rfl
  | cons a l ih => simp [List.filterMap_cons]

theorem tagRows_statements (transformed : TransformedData) :
    tagRows (statements transformed) = transformed.Tags := by
  simp [tagRows, statements, List.filterMap_append, List.filterMap_map, Function.comp_def,
    filterMap_none]

/-- The table of tags after a list of statements that all succeed: every row
that was stored is in its place with the least created_at, and the rows that were
added follow; none of them has the (user_id, name) of a row that was stored. -/
theorem runAll_tags (schema : Schema) (now : Time) :
    ∀ (l : List Statement) (db db' : Database), runAll schema now db l = (none, db') →
      ∃ added, db'.tags =
          db.tags.map (fun e => { e with CreatedAt := leastCreatedAt e (tagRows l) }) ++ added ∧
        ∀ a ∈ added, tagConflictKey a ∉ db.tags.map tagConflictKey
  | [], db, db', h => by
    have hdb : db' = db := by
      have := congrArg Prod.snd h
      exact this.symm
    subst hdb
    refine ⟨[], ?_, by simp⟩
    simp [tagRows, leastCreatedAt_nil]
  | s :: rest, db, db', h => by
    rw [runAll_cons] at h
    cases hs : s.run schema now db with
    | error err =>
      rw [hs] at h
      simp at h
    | ok d =>
      rw [hs] at h
      obtain ⟨added, hadd, hnew⟩ := runAll_tags schema now rest d db' h
      cases s with
      | tag row =>
        have ht : d.tags = upsert tagConflictKey mergeTag db.tags (storedTag row) :=
          run_tags hs
        have hrows : tagRows (Statement.tag row :: rest) = row :: tagRows rest := rfl
        rw [hrows]
        unfold upsert at ht
        by_cases hmem : tagConflictKey (storedTag row) ∈ db.tags.map tagConflictKey
        · rw [if_pos hmem] at ht
          have hkeys : d.tags.map tagConflictKey = db.tags.map tagConflictKey := by
            rw [ht, List.map_map]
            apply List.map_congr_left
            intro e _
            show tagConflictKey (if tagConflictKey e = tagConflictKey (storedTag row) then
              mergeTag e (storedTag row) else e) = tagConflictKey e
            split <;> rfl
          refine ⟨added, ?_, by rw [← hkeys]; exact hnew⟩
          rw [hadd, ht, List.map_map]
          congr 1
          apply List.map_congr_left
          intro e _
          by_cases hk : tagConflictKey e = tagConflictKey (storedTag row)
          · have hk' : tagConflictKey row = tagConflictKey e := hk.symm
            simp only [Function.comp, if_pos hk]
            rw [leastCreatedAt_cons_of_eq _ hk']
            rfl
          · have hk' : tagConflictKey row ≠ tagConflictKey e := fun h' => hk h'.symm
            simp only [Function.comp, if_neg hk]
            rw [leastCreatedAt_cons_of_ne _ hk']
        · rw [if_neg hmem] at ht
          refine ⟨{ storedTag row with
              CreatedAt := leastCreatedAt (storedTag row) (tagRows rest) } :: added, ?_, ?_⟩
          · rw [hadd, ht, List.map_append, List.append_assoc]
            congr 1
            apply List.map_congr_left
            intro e he
            have hk' : tagConflictKey row ≠ tagConflictKey e := by
              intro h'
              apply hmem
              exact List.mem_map.2 ⟨e, he, h'.symm⟩
            rw [leastCreatedAt_cons_of_ne _ hk']
          · intro a ha
            rcases List.mem_cons.1 ha with rfl | ha'
            · exact hmem
            · intro hin
              apply hnew a ha'
              rw [ht, List.map_append]
              exact List.mem_append_left _ hin
      | user row =>
        have ht : d.tags = db.tags := run_tags hs
        exact ⟨added, by rw [hadd, ht]; rfl, by rw [← ht]; exact hnew⟩
      | link row =>
        have ht : d.tags = db.tags := run_tags hs
        exact ⟨added, by rw [hadd, ht]; rfl, by rw [← ht]; exact hnew⟩
      | linkTag row =>
        have ht : d.tags = db.tags := run_tags hs
        exact ⟨added, by rw [hadd, ht]; rfl, by rw [← ht]; exact hnew⟩
      | timelineEntry row =>
        have ht : d.tags = db.tags := run_tags hs
        exact ⟨added, by rw [hadd, ht]; rfl, by rw [← ht]; exact hnew⟩
      | maintenanceStatus row =>
        have ht : d.tags = db.tags := run_tags hs
        exact ⟨added, by rw [hadd, ht]; rfl, by rw [← ht]; exact hnew⟩
      | developer row =>
        have ht : d.tags = db.tags := run_tags hs
        exact ⟨added, by rw [hadd, ht]; rfl, by rw [← ht]; exact hnew⟩
      | maintenanceLog row =>
        have ht : d.tags = db.tags := run_tags hs
        exact ⟨added, by rw [hadd, ht]; rfl, by rw [← ht]; exact hnew⟩

/-- The table of tags after a run of `ImportToPostgres` that returns no error. -/
theorem ImportToPostgres_tags (schema : Schema) (env : ImportEnv) (db db' : Database)
    (transformed : TransformedData) (hr : env.readTransformed = .ok transformed)
    (hok : ImportToPostgres schema env db = (none, db')) :
    ∃ added, db'.tags =
        db.tags.map (fun e => { e with CreatedAt := leastCreatedAt e transformed.Tags }) ++
          added ∧
      ∀ a ∈ added, tagConflictKey a ∉ db.tags.map tagConflictKey := by
  obtain ⟨t, ht, _, _, _, _, hi⟩ := (ImportToPostgres_eq_none_iff schema env db db').1 hok
  rw [hr] at ht
  cases ht
  rw [importStatements_eq_runAll] at hi
  have := runAll_tags schema env.now _ db db' hi
  rw [tagRows_statements] at this
  exact this

theorem subMicroImport_result :
    ImportToPostgres { linksReferUsers := true, tagsReferUsers := true } subMicroImport
      wholeMicroTag = (none, subMicroResult) := by
  decide!

/-- C25, as stated, fails: the destination `wholeMicroTag` holds the tag
(`u1`, "Work") created at 2000 ns, a whole number of microseconds; the run
`subMicroImport` writes a tag with the same user id and name created at 1999 ns
and returns no error; the stored row then has the created_at 1000 ns, which is
not min(2000, 1999) = 1999. -/
theorem stored_created_at_is_whole_microseconds :
    ¬ ∀ (schema : Schema) (env : ImportEnv) (db db' : Database)
        (transformed : TransformedData) (e tag : TagRow),
        env.readTransformed = .ok transformed →
        ImportToPostgres schema env db = (none, db') →
        db.tags = [e] → e.CreatedAt % 1000 = 0 → transformed.Tags = [tag] →
        tag.UserID = e.UserID → tag.Name = e.Name →
        ∃ e' ∈ db'.tags, e'.ID = e.ID ∧ e'.UserID = e.UserID ∧ e'.Name = e.Name ∧
          e'.CreatedAt = min e.CreatedAt tag.CreatedAt := by
  intro h
  obtain ⟨e', he', _, _, _, hc⟩ :=
    h { linksReferUsers := true, tagsReferUsers := true } subMicroImport wholeMicroTag
      subMicroResult subMicroData
      { ID := "t1", UserID := "u1", Name := "Work", CreatedAt := 2000 }
      { ID := "t9", UserID := "u1", Name := "Work", CreatedAt := 1999 }
      rfl subMicroImport_result rfl (by decide) rfl rfl rfl
  have hrow : e' = { ID := "t1", UserID := "u1", Name := "Work", CreatedAt := 1000 } :=
    List.mem_singleton.1 he'
  rw [hrow] at hc
  exact absurd hc (by decide)

theorem filter_leastCreatedAt {e r tag : TagRow} {incoming : List TagRow}
    (hk : tagConflictKey r = tagConflictKey e)
    (h : incoming.filter (fun r' => decide (tagConflictKey r' = tagConflictKey e)) = [tag]) :
    leastCreatedAt r incoming = min r.CreatedAt (pgTimestamp tag.CreatedAt) := by
  unfold leastCreatedAt
  rw [hk, h]
  rfl

/-- C25, amended. When a run of `ImportToPostgres` that returns no error writes
one tag whose (user_id, name) a stored row has, the created_at of that row
becomes the smaller of the stored created_at and the incoming created_at cut
off to whole microseconds, which is the instant the destination holds for it;
the other columns of the row are kept.  In general every row of tags that was
stored stays in its place with its id, user id and name, and its created_at is
`leastCreatedAt`, the least of its own and of the cut-off created_at of the
incoming tags with its (user_id, name); the rows that are added follow and have
other pairs (user_id, name).  The cut-off instant `pgTimestamp t` is the
greatest whole number of microseconds that is not later than `t`.  After every
sequence of runs of `ImportToPostgres`, failed or not, every tag row that was
stored is stored with its id, user id and name, and a created_at that is not
later. -/
theorem tag_created_at_least (schema : Schema) :
    (∀ (env : ImportEnv) (db db' : Database) (transformed : TransformedData) (e tag : TagRow),
      env.readTransformed = .ok transformed →
      ImportToPostgres schema env db = (none, db') →
      e ∈ db.tags →
      transformed.Tags.filter (fun r => decide (tagConflictKey r = tagConflictKey e)) = [tag] →
      db'.tags.filter (fun r => decide (tagConflictKey r = tagConflictKey e)) =
        (db.tags.filter (fun r => decide (tagConflictKey r = tagConflictKey e))).map
          (fun r => { ID := r.ID, UserID := r.UserID, Name := r.Name,
                      CreatedAt := min r.CreatedAt (pgTimestamp tag.CreatedAt) })) ∧
    (∀ (env : ImportEnv) (db db' : Database) (transformed : TransformedData),
      env.readTransformed = .ok transformed →
      ImportToPostgres schema env db = (none, db') →
      ∃ added, db'.tags =
          db.tags.map (fun e => { ID := e.ID, UserID := e.UserID, Name := e.Name,
                                  CreatedAt := leastCreatedAt e transformed.Tags }) ++ added ∧
        ∀ a ∈ added, tagConflictKey a ∉ db.tags.map tagConflictKey) ∧
    (∀ t : Time, pgTimestamp t ≤ t ∧ t < pgTimestamp t + 1000 ∧ pgTimestamp t % 1000 = 0) ∧
    (∀ (runs : List ImportEnv) (db : Database), TagsNotLater db (importMany schema runs db)) := by
  refine ⟨?_, ?_, pgTimestamp_spec, ?_⟩
  · intro env db db' transformed e tag hr hok he hone
    obtain ⟨added, hadd, hnew⟩ := ImportToPostgres_tags schema env db db' transformed hr hok
    have hnone : added.filter (fun r => decide (tagConflictKey r = tagConflictKey e)) = [] := by
      apply List.filter_eq_nil_iff.2
      intro a ha hka
      apply hnew a ha
      rw [of_decide_eq_true hka]
      exact List.mem_map.2 ⟨e, he, rfl⟩
    rw [hadd, List.filter_append, hnone, List.append_nil, List.filter_map]
    have hcomp : ((fun r => decide (tagConflictKey r = tagConflictKey e)) ∘
        fun e' : TagRow =>
          TagRow.mk e'.ID e'.UserID e'.Name (leastCreatedAt e' transformed.Tags)) =
        fun r => decide (tagConflictKey r = tagConflictKey e) := rfl
    rw [hcomp]
    apply List.map_congr_left
    intro r hr'
    have hk : tagConflictKey r = tagConflictKey e :=
      of_decide_eq_true (List.mem_filter.1 hr').2
    rw [filter_leastCreatedAt hk hone]
  · intro env db db' transformed hr hok
    exact ImportToPostgres_tags schema env db db' transformed hr hok
  · intro runs
    induction runs with
    | nil => exact fun db => tagsNotLater_refl db
    | cons env rest ih =>
      intro db
      exact tagsNotLater_trans (ImportToPostgres_tags_not_later schema env db)
        (ih (ImportToPostgres schema env db).2)

/-- C25, amended, at the run `subMicroImport` on `wholeMicroTag`: the stored
created_at 2000 becomes 1000, the smaller of 2000 and of 1999 cut off to whole
microseconds. -/
theorem tag_created_at_least_witness :
    subMicroImport.readTransformed = .ok subMicroData ∧
    ImportToPostgres { linksReferUsers := true, tagsReferUsers := true } subMicroImport
      wholeMicroTag = (none, subMicroResult) ∧
    TagRow.mk "t1" "u1" "Work" 2000 ∈ wholeMicroTag.tags ∧
    subMicroData.Tags.filter (fun r => decide (tagConflictKey r =
      tagConflictKey (TagRow.mk "t1" "u1" "Work" 2000))) = [TagRow.mk "t9" "u1" "Work" 1999] ∧
    subMicroResult.tags.filter (fun r => decide (tagConflictKey r =
        tagConflictKey (TagRow.mk "t1" "u1" "Work" 2000))) =
      (wholeMicroTag.tags.filter (fun r => decide (tagConflictKey r =
        tagConflictKey (TagRow.mk "t1" "u1" "Work" 2000)))).map
        (fun r => { ID := r.ID, UserID := r.UserID, Name := r.Name,
                    CreatedAt := min r.CreatedAt
                      (pgTimestamp (TagRow.mk "t9" "u1" "Work" 1999).CreatedAt) }) ∧
    subMicroResult.tags = [TagRow.mk "t1" "u1" "Work" 1000] :=
  ⟨rfl, subMicroImport_result, by decide, by decide,
    (tag_created_at_least { linksReferUsers := true, tagsReferUsers := true }).1
      subMicroImport wholeMicroTag subMicroResult subMicroData
      (TagRow.mk "t1" "u1" "Work" 2000) (TagRow.mk "t9" "u1" "Work" 1999) rfl
      subMicroImport_result (by decide) (by decide),
    rfl⟩

/-- At `oneTag`, whose tag of user `u1` and name `Work` was created at 20000: the
statement for a tag with the same user id and name, another id and the
created_at 10999 leaves the stored id and sets created_at to 10000; with the
created_at 30000 nothing changes. -/
theorem stored_tag_takes_least (schema : Schema) :
    execTag schema oneTag { ID := "t9", UserID := "u1", Name := "Work", CreatedAt := 10999 } =
      .ok { emptyDatabase with
        tags := [{ ID := "t1", UserID := "u1", Name := "Work", CreatedAt := 10000 }] } ∧
    execTag schema oneTag { ID := "t9", UserID := "u1", Name := "Work", CreatedAt := 30000 } =
      .ok oneTag :=
  ⟨rfl, rfl⟩

/-! ## C9: the LinkTag rows and the Tag row of an embedded name -/

theorem mapLookup_append {V : Type} (a b : GoMap V) (k : String) :
    mapLookup (a ++ b) k = (mapLookup a k).or (mapLookup b k) := by
  induction a with
  | nil => simp [mapLookup]
  | cons p rest ih =>
    obtain ⟨k', v⟩ := p
    by_cases h : k' = k
    · simp [mapLookup, h]
    · simp [mapLookup, h, ih]

theorem linkTagStep_lookup (std : GoStd) (linkID userID : String) (createdAt : Time)
    (st : GoMap TagRow × GoMap LinkTagRow) (tagAny : Val) (k : String) :
    mapLookup (linkTagStep std linkID userID createdAt st tagAny).1 k =
      (mapLookup st.1 k).or (mapLookup (embeddedTag std userID createdAt tagAny) k) := by
  unfold embeddedTag
  by_cases hn : sanitizeTagName (parseString tagAny) = ""
  · rw [linkTagStep_blank hn, if_pos hn]
    simp [mapLookup]
  · rw [if_neg hn]
    cases hl : mapLookup st.1 (tagKey std userID (sanitizeTagName (parseString tagAny))) with
    | none =>
      rw [linkTagStep_new hn hl]
      by_cases hk : tagKey std userID (sanitizeTagName (parseString tagAny)) = k
      · subst hk
        rw [mapLookup_of_mem_store, hl]
        simp [mapLookup]
      · rw [mapLookup_store_of_ne _ _ (Ne.symm hk)]
        simp [mapLookup, hk]
    | some tag =>
      rw [linkTagStep_found hn hl]
      by_cases hk : tagKey std userID (sanitizeTagName (parseString tagAny)) = k
      · subst hk
        rw [hl]
        simp
      · simp [mapLookup, hk]

theorem linkTagStep_fold_lookup (std : GoStd) (linkID userID : String) (createdAt : Time)
    (k : String) (l : List Val) (st : GoMap TagRow × GoMap LinkTagRow) :
    mapLookup (l.foldl (linkTagStep std linkID userID createdAt) st).1 k =
      (mapLookup st.1 k).or (mapLookup (l.flatMap (embeddedTag std userID createdAt)) k) := by
  induction l generalizing st with
  | nil => simp [mapLookup]
  | cons a l ih =>
    rw [List.foldl_cons, ih, linkTagStep_lookup, List.flatMap_cons, mapLookup_append,
      Option.or_assoc]

theorem linkStep_lookup (std : GoStd) (now : Time) (st : LinkState) (d : FirestoreDocument)
    (k : String) :
    mapLookup (linkStep std now st d).tagMap k =
      (mapLookup st.tagMap k).or
        (mapLookup (if linkDropped d then [] else embeddedTags std now d) k) := by
  by_cases hdrop : linkDropped d
  · rw [linkStep_dropped hdrop, if_pos hdrop]
    simp [mapLookup]
  · rw [linkStep_kept hdrop, if_neg hdrop]
    exact linkTagStep_fold_lookup std _ _ _ k _ _

theorem linkStep_fold_lookup (std : GoStd) (now : Time) (k : String)
    (l : List FirestoreDocument) (st : LinkState) :
    mapLookup (l.foldl (linkStep std now) st).tagMap k =
      (mapLookup st.tagMap k).or
        (mapLookup (l.flatMap
          (fun d => if linkDropped d then [] else embeddedTags std now d)) k) := by
  induction l generalizing st with
  | nil => simp [mapLookup]
  | cons a l ih =>
    rw [List.foldl_cons, ih, linkStep_lookup, List.flatMap_cons, mapLookup_append,
      Option.or_assoc]

/-- What the final `tagMap` holds under a key: the row the loop over the
top-level tags stored there, and without one the first name with this key that
a kept link embeds. -/
theorem linksLoop_lookup (std : GoStd) (now : Time) (exported : FirestoreExport) (k : String) :
    mapLookup (linksLoop std now exported).tagMap k =
      (mapLookup (tagsLoop std now exported).tagMap k).or
        (mapLookup (embeddedTagsAll std now exported) k) := by
  unfold linksLoop embeddedTagsAll
  exact linkStep_fold_lookup std now k _ _

theorem filter_eq_singleton {α : Type} (p : α → Bool) :
    ∀ (l : List α) (x : α), x ∈ l → p x = true →
      l.Pairwise (fun a b => ¬ (p a = true ∧ p b = true)) → l.filter p = [x]
  | [], x, hx, _, _ => by simp at hx
  | a :: l, x, hx, hpx, hpair => by
    obtain ⟨ha, hl⟩ := List.pairwise_cons.1 hpair
    rcases List.mem_cons.1 hx with rfl | hx'
    · have hnone : l.filter p = [] := by
        apply List.filter_eq_nil_iff.2
        intro b hb hpb
        exact ha b hb ⟨hpx, hpb⟩
      rw [List.filter_cons_of_pos hpx, hnone]
    · have hpa : ¬ p a = true := fun hpa => ha x hx' ⟨hpa, hpx⟩
      rw [List.filter_cons_of_neg hpa]
      exact filter_eq_singleton p l x hx' hpx hl

theorem Tags_pairwise_key (std : GoStd) (now : Time) (exported : FirestoreExport) :
    (TransformExport std now exported).Tags.Pairwise
      (fun a b => tagRowKey std a ≠ tagRowKey std b) := by
  refine ((Tags_perm std now exported).pairwise_iff ?_).2
    (linksLoop_keyed std now exported).1.pairwise_values
  intro a b hab hex
  exact hab hex.symm

theorem LinkTags_pairwise_pair (std : GoStd) (now : Time) (exported : FirestoreExport) :
    (TransformExport std now exported).LinkTags.Pairwise (fun a b =>
      ¬ (a.LinkID = b.LinkID ∧ a.TagID = b.TagID)) := by
  have hk := (linksLoop_keyed std now exported).2.pairwise_values
  have hp : (mapValues (linksLoop std now exported).linkTagMap).Pairwise (fun a b =>
      ¬ (a.LinkID = b.LinkID ∧ a.TagID = b.TagID)) := by
    refine hk.imp ?_
    intro a b hab hex
    apply hab
    unfold linkTagRowKey
    rw [hex.1, hex.2]
  refine ((LinkTags_perm std now exported).pairwise_iff ?_).2 hp
  intro a b hab hex
  exact hab ⟨hex.1.symm, hex.2.symm⟩

theorem linksLoop_lookup_of_mem_Tags {std : GoStd} {now : Time} {exported : FirestoreExport}
    {r : TagRow} (hr : r ∈ (TransformExport std now exported).Tags) :
    mapLookup (linksLoop std now exported).tagMap (tagRowKey std r) = some r := by
  obtain ⟨q, hq, rfl⟩ := List.mem_map.1 (mem_Tags.1 hr)
  have hkt := (linksLoop_keyed std now exported).1
  apply mapLookup_of_mem hkt.1
  rw [← hkt.2 q hq]
  exact hq

/-- What the loop over the top-level tags leaves under a key: nothing when no
kept tag document has the key, and else the row of a kept tag document with the
key. -/
theorem tagsLoop_lookup (std : GoStd) (now : Time) (exported : FirestoreExport) (k : String) :
    ((∀ t ∈ exported.collection "tags", ¬ tagDropped t → tagDocKey std t ≠ k) →
      mapLookup (tagsLoop std now exported).tagMap k = none) ∧
    ((∃ t ∈ exported.collection "tags", ¬ tagDropped t ∧ tagDocKey std t = k) →
      ∃ t ∈ exported.collection "tags", ¬ tagDropped t ∧ tagDocKey std t = k ∧
        mapLookup (tagsLoop std now exported).tagMap k = some (tagRowOf std now t)) := by
  obtain ⟨hkeyed, horigin, hall, _⟩ := tagsLoop_inv std now exported
  have hdoc : ∀ p ∈ (tagsLoop std now exported).tagMap,
      ∃ t ∈ exported.collection "tags", ¬ tagDropped t ∧ tagDocKey std t = p.1 ∧
        p.2 = tagRowOf std now t := by
    intro p hp
    obtain ⟨d0, hd0, hk0, hrow, _⟩ := horigin p hp
    refine ⟨d0, hd0, hk0, ?_, hrow⟩
    rw [hkeyed.2 p hp, hrow]
    rfl
  refine ⟨?_, ?_⟩
  · intro hno
    apply mapLookup_eq_none.2
    intro hmem
    obtain ⟨p, hp, hpk⟩ := List.mem_map.1 hmem
    obtain ⟨t, ht, hkept, hkey, _⟩ := hdoc p hp
    exact hno t ht hkept (hkey.trans hpk)
  · rintro ⟨t, ht, hkept, hkey⟩
    have hmem := hall t ht hkept
    rw [hkey] at hmem
    obtain ⟨p, hp, hpk⟩ := List.mem_map.1 hmem
    obtain ⟨t', ht', hkept', hkey', hrow⟩ := hdoc p hp
    refine ⟨t', ht', hkept', hkey'.trans hpk, ?_⟩
    apply mapLookup_of_mem hkeyed.1
    rw [← hrow, ← hpk]
    exact hp

/-- C9, as stated, fails: in `namedByDocument` the tag document "work" of user
`u1` exists, the only link is of `u1` and embeds "Work" and "WORK", and no id
has a "|"; the one Tag row under the key `u1|work` has the document's name
"work", not the trimmed name "Work" of the first occurrence. -/
theorem tag_document_names_the_row :
    ¬ ∀ (std : GoStd) (now : Time) (exported : FirestoreExport) (d : FirestoreDocument)
        (tagAny : Val),
        exported.collection "links" = [d] → ¬ linkDropped d →
        '|' ∉ d.ID.data → '|' ∉ (parseString (field d.Data "userId")).data →
        (∀ t ∈ exported.collection "tags",
          '|' ∉ (parseString (field t.Data "userId")).data) →
        tagAny ∈ toSlice (field d.Data "tags") →
        sanitizeTagName (parseString tagAny) ≠ "" →
        2 ≤ ((embeddedTags std now d).filter (fun p => decide (p.1 =
          tagKey std (parseString (field d.Data "userId"))
            (sanitizeTagName (parseString tagAny))))).length →
        ∃ r o, (TransformExport std now exported).Tags.filter (fun r' =>
              decide (tagRowKey std r' = tagKey std (parseString (field d.Data "userId"))
                (sanitizeTagName (parseString tagAny)))) = [r] ∧
          mapLookup (embeddedTags std now d)
            (tagKey std (parseString (field d.Data "userId"))
              (sanitizeTagName (parseString tagAny))) = some o ∧
          r.Name = o.Name := by
  intro h
  obtain ⟨r, o, hr, ho, hname⟩ := h asciiStd 0 namedByDocument namedByDocumentLink
    (Val.str "Work") rfl (by decide) (by decide) (by decide) (by decide)
    (List.mem_cons_self _ _) (by decide) (by decide)
  have hr' : [TagRow.mk "t1" "u1" "work" 0] = [r] := by
    rw [← hr]
    decide!
  have ho' : some (synthTag asciiStd "u1" "Work" 0) = some o := by
    rw [← ho]
    rfl
  cases hr'
  cases ho'
  exact absurd hname (by decide)

/-- C9, amended. In the LinkTags list of every transformed dataset no two rows
(rows at two different positions) have the same linkId and the same tagId.  For
every kept link and every name of its tags array that is not blank, with `k` the
key userId|lower(trim(name)) of the link's user and the name, the Tags list has
exactly one row with the key `k`.  When no kept tag document has the key `k`,
that row is the tag synthesized for the first occurrence of the key among the
names embedded in the kept links, in the order of the links collection and of
each tags array, so its name is the trimmed name of that occurrence.  When a
kept tag document has the key `k`, the row is the row of a kept tag document
with the key and has the document's name.  When no kept link has a "|" in its
id, the LinkTags list has exactly one row with the link's id and the id of that
Tag row.  In the end-to-end scenario, where the link `l1` of user `u1` carries
the tags "A" and "a ", there is one LinkTag row and one Tag row, named "A"; at
`namedByDocument`, where the tag document "work" exists and the link carries
"Work" and "WORK", there is one LinkTag row and one Tag row, named "work". -/
theorem link_tag_rows_per_pair (std : GoStd) (now : Time) (exported : FirestoreExport) :
    (TransformExport std now exported).LinkTags.Pairwise (fun a b =>
      ¬ (a.LinkID = b.LinkID ∧ a.TagID = b.TagID)) ∧
    (∀ d ∈ exported.collection "links", ¬ linkDropped d →
      ∀ tagAny ∈ toSlice (field d.Data "tags"), sanitizeTagName (parseString tagAny) ≠ "" →
        ∃ r, (TransformExport std now exported).Tags.filter (fun r' =>
              decide (tagRowKey std r' = tagKey std (parseString (field d.Data "userId"))
                (sanitizeTagName (parseString tagAny)))) = [r] ∧
          ((∀ t ∈ exported.collection "tags", ¬ tagDropped t →
              tagDocKey std t ≠ tagKey std (parseString (field d.Data "userId"))
                (sanitizeTagName (parseString tagAny))) →
            mapLookup (embeddedTagsAll std now exported)
              (tagKey std (parseString (field d.Data "userId"))
                (sanitizeTagName (parseString tagAny))) = some r) ∧
          ((∃ t ∈ exported.collection "tags", ¬ tagDropped t ∧
              tagDocKey std t = tagKey std (parseString (field d.Data "userId"))
                (sanitizeTagName (parseString tagAny))) →
            ∃ t ∈ exported.collection "tags", ¬ tagDropped t ∧
              tagDocKey std t = tagKey std (parseString (field d.Data "userId"))
                (sanitizeTagName (parseString tagAny)) ∧
              r = tagRowOf std now t) ∧
          ((∀ d' ∈ exported.collection "links", ¬ linkDropped d' → '|' ∉ d'.ID.data) →
            ∃ lt, (TransformExport std now exported).LinkTags.filter (fun lt' =>
              decide (lt'.LinkID = d.ID ∧ lt'.TagID = r.ID)) = [lt])) ∧
    (TransformExport std now scenario).LinkTags =
      [{ LinkID := "l1", TagID := "tag_e2f779ecdceb66ea4865", CreatedAt := now }] ∧
    (TransformExport std now scenario).Tags =
      [{ ID := "tag_e2f779ecdceb66ea4865", UserID := "u1", Name := "A", CreatedAt := now }] ∧
    (TransformExport std now namedByDocument).LinkTags =
      [{ LinkID := "l1", TagID := "t1", CreatedAt := now }] ∧
    (TransformExport std now namedByDocument).Tags =
      [{ ID := "t1", UserID := "u1", Name := "work", CreatedAt := now }] := by
  refine ⟨LinkTags_pairwise_pair std now exported, ?_, ?_, ?_, rfl, rfl⟩
  · intro d hd hk tagAny ht hn
    obtain ⟨r, hr, hrk, _, lt, hlt, hltk⟩ :=
      embedded_tag_resolves std now exported d tagAny hd hk ht hn
    have hrk' : tagRowKey std r = tagKey std (parseString (field d.Data "userId"))
        (sanitizeTagName (parseString tagAny)) := hrk
    have hlook := linksLoop_lookup_of_mem_Tags hr
    rw [hrk', linksLoop_lookup] at hlook
    refine ⟨r, ?_, ?_, ?_, ?_⟩
    · apply filter_eq_singleton _ _ r hr (by simpa using hrk')
      refine (Tags_pairwise_key std now exported).imp ?_
      intro a b hab hex
      apply hab
      have h1 := hex.1
      have h2 := hex.2
      simp only [decide_eq_true_eq] at h1 h2
      rw [h1, h2]
    · intro hno
      rw [(tagsLoop_lookup std now exported _).1 hno, Option.none_or] at hlook
      exact hlook
    · intro hsome
      obtain ⟨t, ht', hkept, hkey, hl⟩ := (tagsLoop_lookup std now exported _).2 hsome
      rw [hl, Option.or_some] at hlook
      exact ⟨t, ht', hkept, hkey, (Option.some.inj hlook).symm⟩
    · intro hbar
      obtain ⟨p, hp, hpe⟩ := List.mem_map.1 (mem_LinkTags.1 hlt)
      obtain ⟨d', hd', hk', _, _, _, t, _, hrow⟩ :=
        linksLoop_linkTag_origin std now exported p hp
      have hid : lt.LinkID = d'.ID := by
        rw [← hpe, hrow]
      have hbar1 : '|' ∉ lt.LinkID.data := by
        rw [hid]
        exact hbar d' hd' hk'
      obtain ⟨h1, h2⟩ := bar_join_inj hbar1 (hbar d hd hk) hltk
      refine ⟨lt, filter_eq_singleton _ _ lt hlt (by simp [h1, h2]) ?_⟩
      refine (LinkTags_pairwise_pair std now exported).imp ?_
      intro a b hab hex
      apply hab
      have h3 := hex.1
      have h4 := hex.2
      simp only [decide_eq_true_eq] at h3 h4
      exact ⟨h3.1.trans h4.1.symm, h3.2.trans h4.2.symm⟩
  · unfold TransformExport
    simp only [linksLoop_scenario]
    rfl
  · unfold TransformExport
    simp only [linksLoop_scenario]
    rfl

/-- C9, amended, at the link of `namedByDocument` and its name "Work": a kept tag
document has the key and no link id has a "|", so the one Tag row under the key
is the row of a tag document with the key, and there is one LinkTag row for the
pair. -/
theorem link_tag_rows_per_pair_witness :
    namedByDocumentLink ∈ namedByDocument.collection "links" ∧
    ¬ linkDropped namedByDocumentLink ∧
    Val.str "Work" ∈ toSlice (field namedByDocumentLink.Data "tags") ∧
    sanitizeTagName (parseString (Val.str "Work")) ≠ "" ∧
    (∃ t ∈ namedByDocument.collection "tags", ¬ tagDropped t ∧
      tagDocKey asciiStd t =
        tagKey asciiStd (parseString (field namedByDocumentLink.Data "userId"))
          (sanitizeTagName (parseString (Val.str "Work")))) ∧
    (∀ d' ∈ namedByDocument.collection "links", ¬ linkDropped d' → '|' ∉ d'.ID.data) ∧
    ∃ r, (TransformExport asciiStd 0 namedByDocument).Tags.filter (fun r' =>
          decide (tagRowKey asciiStd r' =
            tagKey asciiStd (parseString (field namedByDocumentLink.Data "userId"))
              (sanitizeTagName (parseString (Val.str "Work"))))) = [r] ∧
      (∃ t ∈ namedByDocument.collection "tags", ¬ tagDropped t ∧
        tagDocKey asciiStd t =
          tagKey asciiStd (parseString (field namedByDocumentLink.Data "userId"))
            (sanitizeTagName (parseString (Val.str "Work"))) ∧
        r = tagRowOf asciiStd 0 t) ∧
      ∃ lt, (TransformExport asciiStd 0 namedByDocument).LinkTags.filter (fun lt' =>
        decide (lt'.LinkID = namedByDocumentLink.ID ∧ lt'.TagID = r.ID)) = [lt] := by
  have hdoc : ∃ t ∈ namedByDocument.collection "tags", ¬ tagDropped t ∧
      tagDocKey asciiStd t =
        tagKey asciiStd (parseString (field namedByDocumentLink.Data "userId"))
          (sanitizeTagName (parseString (Val.str "Work"))) :=
    ⟨_, List.mem_cons_self _ _, by decide, by decide⟩
  have hbar : ∀ d' ∈ namedByDocument.collection "links", ¬ linkDropped d' →
      '|' ∉ d'.ID.data := by
    intro d' hd' _
    have hc : namedByDocument.collection "links" = [namedByDocumentLink] := rfl
    rw [hc] at hd'
    rw [List.mem_singleton.1 hd']
    decide
  obtain ⟨r, h1, _, h3, h4⟩ :=
    (link_tag_rows_per_pair asciiStd 0 namedByDocument).2.1 namedByDocumentLink
      (List.mem_cons_self _ _) (by decide) (Val.str "Work") (List.mem_cons_self _ _)
      (by decide)
  exact ⟨List.mem_cons_self _ _, by decide, List.mem_cons_self _ _, by decide, hdoc, hbar,
    r, h1, h3 hdoc, h4 hbar⟩

end LinkDeck
